import Mathlib

/-!
GraphQL-Bookstore: authorization engine and resolver dispatcher.

Shallow embedding of
* `include/auth/jwt_handler.h` (`UserRole`, `UserClaims`),
* `include/auth/authorization.h`, `src/auth/authorization.cpp`
  (`RequestContext`, `AuthorizationContext`),
* `include/graphql/resolver.h`, `src/graphql/resolver.cpp`
  (`ResolverParams`, `ResolverResult`, `Resolver`),
* the registration routines of `src/resolvers/user_resolvers.cpp`,
  `src/resolvers/order_resolvers.cpp` and `src/resolvers/admin_resolvers.cpp`,
* `include/graphql/query_parser.h`, `src/graphql/query_parser.cpp`
  (`GraphQLField`, `GraphQLOperation`, `GraphQLQueryParser`).

Conventions of the embedding.
* `enum class UserRole` has the underlying type `int`, and
  `extractContext` builds roles with `static_cast<UserRole>(claims.roleId)`
  from an arbitrary `int`; a role is therefore its underlying integer and
  `<`, `>=`, `==` on roles are the integer comparisons.
* A C++ function that may throw `std::exception` returns `Except String _`,
  the string being `e.what()`.
* A `std::string` that the parser scans by position is the list of its
  `char`s; a position is an `Option Nat`, `none` being `npos`.  An unchecked
  element access beyond the string and a `size_t` subtraction that wraps
  around are reported like an exception, so that a result `.ok` excludes
  them.  The counter `depth` is an unbounded integer (texts are shorter than
  `2^31` characters).
* The recursion of `parseFields` through `parseSingleField` has no limit in
  the code, and a call stack has one.  `parseFieldsFuel n` is `parseFields`
  with room for `n` nested activations, the fault `recursion bound reached`
  being the exhausted stack, and `parseQueryWithin n` is `parseQuery` on that
  stack.  `parseFields`, `parseSingleField` and `parseQuery` are the values on
  a stack that is never exhausted; they are what the bounded members return
  whenever these return (`parseFields_of_fuel`).
* Business handlers and the token verifier are external collaborators: they
  are parameters.  A handler acts on an explicit world state `σ`
  (database, logs), so that "the handler was not invoked" is observable as
  "the world state is unchanged, for every handler".
-/

namespace Bookstore

/-- Results of throwing functions can be compared by evaluation. -/
instance instDecidableEqExcept {ε α : Type} [DecidableEq ε] [DecidableEq α] :
    DecidableEq (Except ε α)
  | .ok a, .ok b => if h : a = b then isTrue (by rw [h]) else isFalse (by simpa using h)
  | .error a, .error b => if h : a = b then isTrue (by rw [h]) else isFalse (by simpa using h)
  | .ok _, .error _ => isFalse (by simp)
  | .error _, .ok _ => isFalse (by simp)

/-! ## `include/auth/jwt_handler.h` -/

/-- The scoped enumeration `UserRole`, represented by its underlying `int`. -/
abbrev UserRole := Int

namespace UserRole

/-- Enumerator `USER = 0`. -/
abbrev USER : UserRole := 0
/-- Enumerator `STAFF = 1`. -/
abbrev STAFF : UserRole := 1
/-- Enumerator `ADMIN = 2`. -/
abbrev ADMIN : UserRole := 2

end UserRole

/-- The struct `UserClaims`; the two time points are seconds since the epoch. -/
structure UserClaims where
  userId : String
  email : String
  role : String
  roleId : Int
  issuedAt : Int
  expiresAt : Int
  deriving DecidableEq, Repr

/-- The token verifier `JWTHandler::verifyToken(token, claims)`, an external
collaborator (libjwt).  `.ok (some c)`: it returned `true` and left `c` in
`claims`; `.ok none`: it returned `false`; `.error m`: it threw a
`std::exception` with message `m`. -/
structure JWTHandler where
  verifyToken : String → Except String (Option UserClaims)

/-! ## `include/auth/authorization.h` -/

/-- The struct `RequestContext`. -/
structure RequestContext where
  userId : String
  email : String
  role : UserRole
  ip : String
  userAgent : String
  isAuthenticated : Bool
  deriving DecidableEq, Repr

/-- The class `AuthorizationContext`: its only data member is the optional
(`shared_ptr`, possibly null) token verifier. -/
structure AuthorizationContext where
  jwtHandler_ : Option JWTHandler

namespace AuthorizationContext

/-- The member `setJWTHandler`. -/
def setJWTHandler (_self : AuthorizationContext) (handler : Option JWTHandler) :
    AuthorizationContext :=
  { jwtHandler_ := handler }

/-- The `try` block of `extractContext`, run on the context built so far. -/
def extractContextTry (self : AuthorizationContext) (authToken : String)
    (ctx : RequestContext) : Except String RequestContext :=
  match self.jwtHandler_ with
  | none => .ok ctx
  | some h =>
    match h.verifyToken authToken with
    | .error e => .error e
    | .ok none => .ok ctx
    | .ok (some claims) =>
      .ok { ctx with
            userId := claims.userId
            email := claims.email
            role := claims.roleId
            isAuthenticated := true }

/-- The member `extractContext`.  The result type keeps the possibility of a
propagated exception so that "never raises" is a statement, not a typing
fact. -/
def extractContext (self : AuthorizationContext) (authToken : String) :
    Except String RequestContext :=
  let ctx : RequestContext :=
    { userId := "", email := "", role := UserRole.USER, ip := "", userAgent := "",
      isAuthenticated := false }
  if authToken.isEmpty then .ok ctx
  else
    match self.extractContextTry authToken ctx with
    | .ok c => .ok c
    | .error _ => .ok { ctx with isAuthenticated := false }

/-- The member `canAccessUser`. -/
def canAccessUser (ctx : RequestContext) (targetUserId : String) : Bool :=
  if !ctx.isAuthenticated then false
  else if ctx.role == UserRole.ADMIN then true
  else if ctx.role == UserRole.STAFF then true
  else ctx.userId == targetUserId

/-- The member `canAccessOrder`. -/
def canAccessOrder (ctx : RequestContext) (orderUserId : String) : Bool :=
  if !ctx.isAuthenticated then false
  else if ctx.role == UserRole.ADMIN then true
  else if ctx.role == UserRole.STAFF then true
  else ctx.userId == orderUserId

/-- The member `canAccessCart`. -/
def canAccessCart (ctx : RequestContext) (cartUserId : String) : Bool :=
  if !ctx.isAuthenticated then false
  else ctx.userId == cartUserId

/-- The member `canModifyBook`. -/
def canModifyBook (ctx : RequestContext) : Bool :=
  if !ctx.isAuthenticated then false
  else ctx.role == UserRole.ADMIN || ctx.role == UserRole.STAFF

/-- The member `canModifyOrder`. -/
def canModifyOrder (ctx : RequestContext) (orderUserId : String) : Bool :=
  if !ctx.isAuthenticated then false
  else if ctx.role == UserRole.ADMIN then true
  else if ctx.role == UserRole.STAFF then true
  else ctx.userId == orderUserId

/-- The member `canAccessAdminEndpoints`. -/
def canAccessAdminEndpoints (ctx : RequestContext) : Bool :=
  ctx.role == UserRole.ADMIN

/-- The member `canAccessInternalEndpoints`. -/
def canAccessInternalEndpoints (ctx : RequestContext) : Bool :=
  if ctx.role == UserRole.ADMIN then true
  else if ctx.role == UserRole.STAFF then true
  else false

/-- The member `hasRole`. -/
def hasRole (ctx : RequestContext) (requiredRole : UserRole) : Bool :=
  if !ctx.isAuthenticated then false
  else decide (ctx.role ≥ requiredRole)

end AuthorizationContext

/-! ## `include/graphql/resolver.h` -/

/-- The type `std::map<std::string, std::string>` of a field's arguments, as
an association list read by first match. -/
abbrev ArgMap := List (String × String)

namespace ArgMap

/-- The member `count` of `std::map`: 1 when the key is present, else 0. -/
def count (m : ArgMap) (key : String) : Nat :=
  match m.lookup key with
  | some _ => 1
  | none => 0

/-- The member `at` of `std::map`: the mapped value, or `std::out_of_range`. -/
def at_ (m : ArgMap) (key : String) : Except String String :=
  match m.lookup key with
  | some v => .ok v
  | none => .error "map::at"

end ArgMap

/-- The struct `ResolverParams`. -/
structure ResolverParams where
  arguments : ArgMap
  authContext : RequestContext
  query : String
  operationName : String
  deriving DecidableEq, Repr

/-- The struct `ResolverResult`; the default constructor sets
`success = false` and leaves the strings and the vector empty. -/
structure ResolverResult where
  success : Bool := false
  data : String := ""
  error : String := ""
  errors : List String := []
  deriving DecidableEq, Repr

namespace ResolverResult

/-- The static member `successResult`. -/
def successResult (data : String) : ResolverResult :=
  let r : ResolverResult := {}
  { r with success := true, data := data }

/-- The static member `errorResult`. -/
def errorResult (error : String) : ResolverResult :=
  let r : ResolverResult := {}
  { r with success := false, error := error, errors := r.errors ++ [error] }

end ResolverResult

/-- The type `Resolver::ResolverFunc`, a business handler: it reads the
parameters, acts on the world state `σ`, and either returns an envelope or
throws a `std::exception` (the state reached before the throw is kept). -/
abbrev ResolverFunc (σ : Type) := ResolverParams → σ → Except String ResolverResult × σ

/-- The class `Resolver` (and its subclasses `QueryResolver`,
`MutationResolver`, `SubscriptionResolver`, which add nothing). -/
structure Resolver (σ : Type) where
  name_ : String
  resolverFunc_ : ResolverFunc σ
  requireAuth_ : Bool
  requiredRole_ : UserRole
  requireOwnership_ : Bool

/-! ## `src/graphql/resolver.cpp` -/

namespace Resolver

variable {σ : Type}

/-- The constructor `Resolver::Resolver(name, func)`. -/
def new (name : String) (func : ResolverFunc σ) : Resolver σ :=
  { name_ := name, resolverFunc_ := func, requireAuth_ := false,
    requiredRole_ := UserRole.USER, requireOwnership_ := false }

/-- The member `setRequireAuth`. -/
def setRequireAuth (r : Resolver σ) (require : Bool) : Resolver σ :=
  { r with requireAuth_ := require }

/-- The member `setRequiredRole`. -/
def setRequiredRole (r : Resolver σ) (role : UserRole) : Resolver σ :=
  { r with requiredRole_ := role }

/-- The member `setRequireOwnership`. -/
def setRequireOwnership (r : Resolver σ) (require : Bool) : Resolver σ :=
  { r with requireOwnership_ := require }

/-- The member `checkAuthorization`. -/
def checkAuthorization (r : Resolver σ) (params : ResolverParams) : Except String Bool :=
  if !r.requireOwnership_ then .ok true
  else if params.arguments.count "userId" == 0 &&
      params.arguments.count "id" == 0 &&
      params.arguments.count "orderId" == 0 &&
      params.arguments.count "cartId" == 0 then .ok true
  else do
    let targetId ←
      if params.arguments.count "userId" != 0 then params.arguments.at_ "userId"
      else if params.arguments.count "id" != 0 then params.arguments.at_ "id"
      else if params.arguments.count "orderId" != 0 then params.arguments.at_ "orderId"
      else if params.arguments.count "cartId" != 0 then params.arguments.at_ "cartId"
      else pure ""
    if params.authContext.userId == targetId then pure true
    else if decide (params.authContext.role ≥ UserRole.STAFF) then pure true
    else pure false

/-- The `try` block of `resolve`. -/
def resolveTry (r : Resolver σ) (params : ResolverParams) (s : σ) :
    Except String ResolverResult × σ :=
  if r.requireAuth_ && !params.authContext.isAuthenticated then
    (.ok (ResolverResult.errorResult "Authentication required"), s)
  else if r.requiredRole_ != UserRole.USER &&
      decide (params.authContext.role < r.requiredRole_) then
    (.ok (ResolverResult.errorResult "Insufficient permissions"), s)
  else
    match r.checkAuthorization params with
    | .error e => (.error e, s)
    | .ok false => (.ok (ResolverResult.errorResult "Authorization failed"), s)
    | .ok true => r.resolverFunc_ params s

/-- The `catch (const std::exception& e)` clause of `resolve`, applied to the
outcome of the `try` block. -/
def catchClause : Except String ResolverResult × σ → Except String ResolverResult × σ
  | (.ok v, t) => (.ok v, t)
  | (.error e, t) => (.ok (ResolverResult.errorResult ("Resolver error: " ++ e)), t)

/-- The member `resolve`: the `try` block, and the `catch` clause that turns
an exception into an error envelope.  The result type keeps the possibility
of a propagated exception so that "does not propagate" is a statement. -/
def resolve (r : Resolver σ) (params : ResolverParams) (s : σ) :
    Except String ResolverResult × σ :=
  catchClause (r.resolveTry params s)

end Resolver

/-! ## Registration: `src/resolvers/user_resolvers.cpp`, `order_resolvers.cpp` -/

/-- The type `std::map<std::string, QueryResolver>` (or `MutationResolver`)
of a registry, as an association list read by first match. -/
abbrev ResolverMap (σ : Type) := List (String × Resolver σ)

namespace ResolverMap

variable {σ : Type}

/-- Lookup of a registered resolver by name. -/
def find (m : ResolverMap σ) (key : String) : Option (Resolver σ) :=
  m.lookup key

/-- The statement `m[key] = value;`: replaces the entry of `key`, or adds it. -/
def assign : ResolverMap σ → String → Resolver σ → ResolverMap σ
  | [], key, value => [(key, value)]
  | (k, v) :: rest, key, value =>
    if k == key then (k, value) :: rest else (k, v) :: assign rest key value

/-- The statement `m[key].f(..);` for a setter `f`, on a key that is present
(every use in the registration routines follows `m[key] = ..`). -/
def update : ResolverMap σ → String → (Resolver σ → Resolver σ) → ResolverMap σ
  | [], _, _ => []
  | (k, v) :: rest, key, f =>
    if k == key then (k, f v) :: rest else (k, v) :: update rest key f

end ResolverMap

/-- The two global registries a registration routine fills. -/
structure Registries (σ : Type) where
  query : ResolverMap σ
  mutation : ResolverMap σ

/-- The static handlers of `UserResolvers` (database code, external). -/
structure UserHandlers (σ : Type) where
  resolveMe : ResolverFunc σ
  resolveUser : ResolverFunc σ
  resolveUsers : ResolverFunc σ
  resolveInternalUserSearch : ResolverFunc σ
  resolveUpdateProfile : ResolverFunc σ
  resolveDeleteAccount : ResolverFunc σ

/-- The static handlers of `OrderResolvers` (database code, external). -/
structure OrderHandlers (σ : Type) where
  resolveOrder : ResolverFunc σ
  resolveOrders : ResolverFunc σ
  resolveMyOrders : ResolverFunc σ
  resolveInternalOrdersByDate : ResolverFunc σ
  resolveCreateOrder : ResolverFunc σ
  resolveCancelOrder : ResolverFunc σ
  resolveRequestRefund : ResolverFunc σ
  resolveUpdateOrderStatus : ResolverFunc σ
  resolveUpdateOrderAddress : ResolverFunc σ

namespace UserResolvers

variable {σ : Type}

/-- The routine `UserResolvers::registerResolvers`, on the registries
`queryUserResolvers` and `mutationUserResolvers`. -/
def registerResolvers (h : UserHandlers σ) (g : Registries σ) : Registries σ :=
  let q := g.query
  let q := q.assign "me" (Resolver.new "me" h.resolveMe)
  let q := q.update "me" (·.setRequireAuth true)
  let q := q.assign "user" (Resolver.new "user" h.resolveUser)
  let q := q.update "user" (·.setRequireAuth true)
  let q := q.update "user" (·.setRequireOwnership true)
  let q := q.assign "users" (Resolver.new "users" h.resolveUsers)
  let q := q.update "users" (·.setRequireAuth true)
  let q := q.update "users" (·.setRequiredRole UserRole.STAFF)
  let q := q.assign "_internalUserSearch"
    (Resolver.new "_internalUserSearch" h.resolveInternalUserSearch)
  let q := q.update "_internalUserSearch" (·.setRequireAuth true)
  let m := g.mutation
  let m := m.assign "updateProfile" (Resolver.new "updateProfile" h.resolveUpdateProfile)
  let m := m.update "updateProfile" (·.setRequireAuth true)
  let m := m.update "updateProfile" (·.setRequireOwnership true)
  let m := m.assign "deleteAccount" (Resolver.new "deleteAccount" h.resolveDeleteAccount)
  let m := m.update "deleteAccount" (·.setRequireAuth true)
  let m := m.update "deleteAccount" (·.setRequireOwnership true)
  { query := q, mutation := m }

end UserResolvers

namespace OrderResolvers

variable {σ : Type}

/-- The routine `OrderResolvers::registerResolvers`, on the registries
`queryOrderResolvers` and `mutationOrderResolvers`. -/
def registerResolvers (h : OrderHandlers σ) (g : Registries σ) : Registries σ :=
  let q := g.query
  let q := q.assign "order" (Resolver.new "order" h.resolveOrder)
  let q := q.update "order" (·.setRequireAuth true)
  let q := q.update "order" (·.setRequireOwnership true)
  let q := q.assign "orders" (Resolver.new "orders" h.resolveOrders)
  let q := q.update "orders" (·.setRequireAuth true)
  let q := q.update "orders" (·.setRequiredRole UserRole.STAFF)
  let q := q.assign "myOrders" (Resolver.new "myOrders" h.resolveMyOrders)
  let q := q.update "myOrders" (·.setRequireAuth true)
  let q := q.assign "_internalOrdersByDate"
    (Resolver.new "_internalOrdersByDate" h.resolveInternalOrdersByDate)
  let q := q.update "_internalOrdersByDate" (·.setRequireAuth true)
  let m := g.mutation
  let m := m.assign "createOrder" (Resolver.new "createOrder" h.resolveCreateOrder)
  let m := m.update "createOrder" (·.setRequireAuth true)
  let m := m.assign "cancelOrder" (Resolver.new "cancelOrder" h.resolveCancelOrder)
  let m := m.update "cancelOrder" (·.setRequireAuth true)
  let m := m.assign "requestRefund" (Resolver.new "requestRefund" h.resolveRequestRefund)
  let m := m.update "requestRefund" (·.setRequireAuth true)
  let m := m.assign "updateOrderStatus"
    (Resolver.new "updateOrderStatus" h.resolveUpdateOrderStatus)
  let m := m.update "updateOrderStatus" (·.setRequireAuth true)
  let m := m.assign "updateOrderAddress"
    (Resolver.new "updateOrderAddress" h.resolveUpdateOrderAddress)
  let m := m.update "updateOrderAddress" (·.setRequireAuth true)
  { query := q, mutation := m }

end OrderResolvers

/-! ## `include/graphql/query_parser.h` -/

/-- A `std::string` that is scanned by position: the list of its `char`s. -/
abbrev Str := List Char

/-- The type `std::map<std::string, std::string>` of the parser, as an
association list in insertion order. -/
abbrev StrMap := List (Str × Str)

/-- The statement `args[key] = value;`: replaces the value of `key`, or adds
the entry. -/
def StrMap.assign : StrMap → Str → Str → StrMap
  | [], key, value => [(key, value)]
  | (k, v) :: rest, key, value =>
    if k = key then (k, value) :: rest else (k, v) :: StrMap.assign rest key value

/-- The struct `GraphQLField`. -/
structure GraphQLField where
  name : Str
  alias_ : Str
  arguments : StrMap
  subFields : List GraphQLField

/-- The struct `GraphQLOperation`. -/
structure GraphQLOperation where
  type : Str
  name : Str
  fields : List GraphQLField
  variables_ : StrMap

/-! ## `std::string` primitives used by the parser

A position is an `Option Nat`, `none` being `std::string::npos`. -/

/-- Index of the first character satisfying `p`. -/
def firstIdx (p : Char → Bool) : Str → Option Nat
  | [] => none
  | c :: cs => if p c then some 0 else (firstIdx p cs).map (· + 1)

/-- Index of the last character satisfying `p`. -/
def lastIdx (p : Char → Bool) : Str → Option Nat
  | [] => none
  | c :: cs =>
    match lastIdx p cs with
    | some i => some (i + 1)
    | none => if p c then some 0 else none

/-- The call `s.find(c, pos)`. -/
def strFind (s : Str) (c : Char) (pos : Nat := 0) : Option Nat :=
  (firstIdx (· == c) (s.drop pos)).map (· + pos)

/-- The call `s.rfind(c)`. -/
def strRfind (s : Str) (c : Char) : Option Nat :=
  lastIdx (· == c) s

/-- The call `s.find_first_of(set, pos)`. -/
def findFirstOf (s set : Str) (pos : Nat := 0) : Option Nat :=
  (firstIdx (fun c => set.contains c) (s.drop pos)).map (· + pos)

/-- The call `s.find_first_not_of(set)`. -/
def findFirstNotOf (s set : Str) : Option Nat :=
  firstIdx (fun c => !set.contains c) s

/-- The call `s.find_last_not_of(set)`. -/
def findLastNotOf (s set : Str) : Option Nat :=
  lastIdx (fun c => !set.contains c) s

/-- The call `s.substr(pos, len)`: throws `std::out_of_range` when `pos`
exceeds the size. -/
def substr (s : Str) (pos len : Nat) : Except String Str :=
  if pos > s.length then .error "basic_string::substr" else .ok ((s.drop pos).take len)

/-- The call `s.substr(pos)`. -/
def substrFrom (s : Str) (pos : Nat) : Except String Str :=
  if pos > s.length then .error "basic_string::substr" else .ok (s.drop pos)

/-- The unchecked element access `s[i]`; an access beyond the last character
is reported as a fault. -/
def charAt (s : Str) (i : Nat) : Except String Char :=
  match s.get? i with
  | some c => .ok c
  | none => .error "index beyond the string"

/-- The subtraction `a - b` of two `size_t`; a wrap-around below zero is
reported as a fault, so that a result `.ok` excludes it. -/
def sizeSub (a b : Nat) : Except String Nat :=
  if b ≤ a then .ok (a - b) else .error "size_t wrap-around"

/-- The character set `" \t\n\r"`. -/
def whitespace : Str := [' ', '\t', '\n', '\r']

/-! ## `src/graphql/query_parser.cpp` -/

namespace GraphQLQueryParser

/-- The member `trim`. -/
def trim (str : Str) : Except String Str :=
  match findFirstNotOf str whitespace with
  | none => .ok []
  | some first =>
    match findLastNotOf str whitespace with
    | none => substrFrom str first
    | some last => do
      let d ← sizeSub last first
      substr str first (d + 1)

/-- The member `processArgument`; the map `args` is passed and returned.  The
two element accesses of the quote test are made as soon as the length test has
passed. -/
def processArgument (argStr : Str) (args : StrMap) : Except String StrMap := do
  let trimmed ← trim argStr
  if trimmed.isEmpty then return args
  match strFind trimmed ':' with
  | none => return args
  | some colonPos =>
    let key ← trim (← substr trimmed 0 colonPos)
    let value ← trim (← substrFrom trimmed (colonPos + 1))
    let quoted ←
      if value.length ≥ 2 then do
        let first ← charAt value 0
        let last ← charAt value (← sizeSub value.length 1)
        pure ((first == Char.ofNat 34 && last == Char.ofNat 34) ||
          (first == Char.ofNat 39 && last == Char.ofNat 39))
      else pure false
    let value ← if quoted then substr value 1 (← sizeSub value.length 2) else pure value
    if !key.isEmpty then return args.assign key value
    return args

/-- The loop `for (char c : trimmed)` of `parseArguments` and the statements
after it, from the state `(depth, currentArg, args)`. -/
def parseArgumentsLoop : Str → Int → Str → StrMap → Except String StrMap
  | [], _, currentArg, args => do
    if !(← trim currentArg).isEmpty then processArgument currentArg args
    else pure args
  | c :: rest, depth, currentArg, args =>
    if c == '{' || c == '[' then
      parseArgumentsLoop rest (depth + 1) (currentArg ++ [c]) args
    else if c == '}' || c == ']' then
      if depth - 1 == 0 then do
        let args ← processArgument (currentArg ++ [c]) args
        parseArgumentsLoop rest (depth - 1) [] args
      else parseArgumentsLoop rest (depth - 1) (currentArg ++ [c]) args
    else if c == ',' && depth == 0 then do
      let args ← if !(← trim currentArg).isEmpty then processArgument currentArg args
        else pure args
      parseArgumentsLoop rest depth [] args
    else parseArgumentsLoop rest depth (currentArg ++ [c]) args

/-- The member `parseArguments`. -/
def parseArguments (argsStr : Str) : Except String StrMap := do
  let trimmed ← trim argsStr
  if trimmed.isEmpty then return []
  parseArgumentsLoop trimmed 0 [] []

/-- The block that `parseFields` runs on a finished field definition: parse
it unless it is blank, and keep the field unless its name is empty. -/
def addField (parseSingleField : Str → Except String GraphQLField) (currentField : Str)
    (fields : List GraphQLField) : Except String (List GraphQLField) := do
  if !(← trim currentField).isEmpty then
    let field ← parseSingleField currentField
    if !field.name.isEmpty then pure (fields ++ [field]) else pure fields
  else pure fields

/-- The loop `for (char c : fieldsStr)` of `parseFields` and the statements
after it, from the state `(depth, currentField, fields)`. -/
def parseFieldsLoop (parseSingleField : Str → Except String GraphQLField) :
    Str → Int → Str → List GraphQLField → Except String (List GraphQLField)
  | [], _, currentField, fields => addField parseSingleField currentField fields
  | c :: rest, depth, currentField, fields =>
    if c == '{' then
      parseFieldsLoop parseSingleField rest (depth + 1) (currentField ++ [c]) fields
    else if c == '}' then
      if depth - 1 == 0 then do
        let fields ← addField parseSingleField (currentField ++ [c]) fields
        parseFieldsLoop parseSingleField rest (depth - 1) [] fields
      else parseFieldsLoop parseSingleField rest (depth - 1) (currentField ++ [c]) fields
    else if c == ',' && depth == 0 then do
      let fields ← addField parseSingleField currentField fields
      parseFieldsLoop parseSingleField rest depth [] fields
    else parseFieldsLoop parseSingleField rest depth (currentField ++ [c]) fields

/-- Lines 128 to 135 of `parseSingleField`: `beforeColon` and `afterColon`. -/
def splitAtColon (trimmed : Str) : Except String (Str × Str) :=
  match strFind trimmed ':' with
  | some colonPos => do
    let beforeColon ← substr trimmed 0 colonPos
    let afterColon ← substrFrom trimmed (colonPos + 1)
    pure (beforeColon, afterColon)
  | none => pure (trimmed, [])

/-- Lines 139 to 145 of `parseSingleField`: the alias and the name. -/
def aliasAndName (field : GraphQLField) (beforeColon : Str) : Except String GraphQLField :=
  match strFind beforeColon ':' with
  | some aliasPos => do
    let alias_ ← trim (← substr beforeColon 0 aliasPos)
    let name ← trim (← substrFrom beforeColon (aliasPos + 1))
    pure { field with alias_ := alias_, name := name }
  | none => pure { field with name := beforeColon }

/-- Lines 147 to 155 of `parseSingleField`: the parenthesised arguments. -/
def extractArguments (field : GraphQLField) : Except String GraphQLField :=
  match strFind field.name '(' with
  | some parenOpen =>
    match strFind field.name ')' parenOpen with
    | some parenClose => do
      let argsStr ← substr field.name (parenOpen + 1)
        (← sizeSub (← sizeSub parenClose parenOpen) 1)
      let arguments ← parseArguments argsStr
      let name ← substr field.name 0 parenOpen
      pure { field with arguments := arguments, name := name }
    | none => pure field
  | none => pure field

/-- Lines 157 to 167 of `parseSingleField`: the sub-selection, its recursive
call of `parseFields` being the parameter. -/
def extractSubFields (parseFields : Str → Except String (List GraphQLField))
    (field : GraphQLField) (afterColon : Str) : Except String GraphQLField :=
  if !afterColon.isEmpty then
    match strFind afterColon '{' with
    | some 0 =>
      match strRfind afterColon '}' with
      | some lastBrace => do
        let subFieldsStr ← substr afterColon 1 (← sizeSub lastBrace 1)
        let subFields ← parseFields subFieldsStr
        pure { field with subFields := subFields }
      | none => pure field
    | _ => pure field
  else pure field

/-- The body of `parseSingleField`, its recursive call of `parseFields` being
the parameter. -/
def parseSingleFieldWith (parseFields : Str → Except String (List GraphQLField))
    (fieldStr : Str) : Except String GraphQLField := do
  let field : GraphQLField := { name := [], alias_ := [], arguments := [], subFields := [] }
  let trimmed ← trim fieldStr
  if trimmed.isEmpty || trimmed == ['{', '}'] then return field
  let (beforeColon, afterColon) ← splitAtColon trimmed
  let beforeColon ← trim beforeColon
  let field ← aliasAndName field beforeColon
  let field ← extractArguments field
  let afterColon ← trim afterColon
  extractSubFields parseFields field afterColon

/-- The member `parseFields` on a call stack with room for `fuel` nested
activations (the recursion runs through `parseSingleField`).  The code sets no
limit to the nesting; an activation beyond the room of the stack is reported
as the fault `recursion bound reached`. -/
def parseFieldsFuel : Nat → Str → Except String (List GraphQLField)
  | 0, _ => .error "recursion bound reached"
  | fuel + 1, fieldsStr =>
    parseFieldsLoop (parseSingleFieldWith (parseFieldsFuel fuel)) fieldsStr 0 [] []

/-- The member `parseFields` on a call stack that is never exhausted: every
activation is on a strictly shorter text, so that room for more activations
than the text has characters is never used up.  `parseFieldsFuel` is the
member on a stack of a given depth. -/
def parseFields (fieldsStr : Str) : Except String (List GraphQLField) :=
  parseFieldsFuel (fieldsStr.length + 1) fieldsStr

/-- The member `parseSingleField`, on a call stack that is never exhausted. -/
def parseSingleField (fieldStr : Str) : Except String GraphQLField :=
  parseSingleFieldWith (parseFieldsFuel fieldStr.length) fieldStr

/-- Lines 18 to 30 of `parseQuery`: the operation type and `opTypeEnd`. -/
def parseOperationType (trimmedQuery : Str) (opTypeStart : Option Nat) :
    Except String (Str × Option Nat) :=
  match opTypeStart with
  | none => .ok ("query".toList, none)
  | some start => do
    let opTypeEnd := findFirstOf trimmedQuery ['(', '{', ' ', '\t', '\n', '\r'] start
    let opType ←
      match opTypeEnd with
      | some e => do
        let d ← sizeSub e start
        substr trimmedQuery start d
      | none => substrFrom trimmedQuery start
    if opType == "mutation".toList || opType == "Mutation".toList then
      pure ("mutation".toList, opTypeEnd)
    else if opType == "subscription".toList || opType == "Subscription".toList then
      pure ("subscription".toList, opTypeEnd)
    else pure ("query".toList, opTypeEnd)

/-- Lines 32 to 43 of `parseQuery`: the operation name. -/
def parseOperationName (trimmedQuery : Str) (braceOpen : Nat)
    (opTypeStart opTypeEnd : Option Nat) : Except String Str := do
  let opNameEnd :=
    match strFind trimmedQuery '(' with
    | none => braceOpen
    | some p => if p > braceOpen then braceOpen else p
  match opTypeStart with
  | none => pure []
  | some start =>
    if opNameEnd > start then do
      let d ← sizeSub opNameEnd start
      let potentialName ←
        match opTypeEnd with
        | some e => substr trimmedQuery e d
        | none => .error "basic_string::substr"
      let potentialName ← trim potentialName
      if !potentialName.isEmpty && potentialName != ['{'] then pure potentialName
      else pure []
    else pure []

/-- Lines 45 to 50 of `parseQuery`: the text of the outer selection set. -/
def selectionText (trimmedQuery : Str) (braceOpen : Nat) : Except String Str := do
  let fieldsStr ← substrFrom trimmedQuery (braceOpen + 1)
  match strRfind fieldsStr '}' with
  | some lastBracePos => substr fieldsStr 0 lastBracePos
  | none => pure fieldsStr

/-- The member `parseQuery`, on a call stack that is never exhausted;
`parseQueryWithin` is the member on a stack of a given depth. -/
def parseQuery (query : Str) : Except String GraphQLOperation := do
  let operation : GraphQLOperation :=
    { type := "query".toList, name := [], fields := [], variables_ := [] }
  let trimmedQuery ← trim query
  match strFind trimmedQuery '{' with
  | none => pure operation
  | some braceOpen =>
    let opTypeStart := findFirstNotOf trimmedQuery whitespace
    let (type, opTypeEnd) ← parseOperationType trimmedQuery opTypeStart
    let name ← parseOperationName trimmedQuery braceOpen opTypeStart opTypeEnd
    let fieldsStr ← selectionText trimmedQuery braceOpen
    let fields ← parseFields fieldsStr
    pure { operation with type := type, name := name, fields := fields }

/-- The member `validateQuery`. -/
def validateQuery (operation : GraphQLOperation) : Bool :=
  !operation.fields.isEmpty

end GraphQLQueryParser

/-! ## The call stack of the parser -/

namespace GraphQLQueryParser

/-- The body of `parseQuery`, its call of `parseFields` being the parameter. -/
def parseQueryUsing (parseFields : Str → Except String (List GraphQLField)) (query : Str) :
    Except String GraphQLOperation := do
  let operation : GraphQLOperation :=
    { type := "query".toList, name := [], fields := [], variables_ := [] }
  let trimmedQuery ← trim query
  match strFind trimmedQuery '{' with
  | none => pure operation
  | some braceOpen =>
    let opTypeStart := findFirstNotOf trimmedQuery whitespace
    let (type, opTypeEnd) ← parseOperationType trimmedQuery opTypeStart
    let name ← parseOperationName trimmedQuery braceOpen opTypeStart opTypeEnd
    let fieldsStr ← selectionText trimmedQuery braceOpen
    let fields ← parseFields fieldsStr
    pure { operation with type := type, name := name, fields := fields }

/-- The member `parseQuery` on a machine whose call stack has room for
`stack` nested activations of `parseFields` (each with the activation of
`parseSingleField` that it runs): the code sets no limit to the nesting, and
an activation beyond the room of the stack is the fault
`recursion bound reached` of `parseFieldsFuel`. -/
def parseQueryWithin (stack : Nat) (query : Str) : Except String GraphQLOperation :=
  parseQueryUsing (parseFieldsFuel stack) query

end GraphQLQueryParser

/-! ## `generateError` and `logAccessAttempt` -/

namespace GraphQLQueryParser

/-- The member `generateError`; `std::to_string` of an `int` is its decimal
rendering. -/
def generateError (message : String) (locations : List Int) : String :=
  let error := "\x7b\"errors\": [\x7b\"message\": \"" ++ message ++ "\""
  let error :=
    match locations with
    | [] => error
    | first :: _ => error ++ (", \"locations\": [\x7b\"line\": " ++ toString first ++ "\x7d]")
  error ++ "\x7d]\x7d"

end GraphQLQueryParser

namespace AuthorizationContext

/-- The member `logAccessAttempt`: it writes one line to `std::cout`, the
audit sink, given here as the list of the lines written so far. -/
def logAccessAttempt (ctx : RequestContext) (operation : String) (authorized : Bool)
    (out : List String) : List String :=
  let status := if authorized then "ALLOWED" else "DENIED"
  out ++ ["[" ++ status ++ "] User: " ++ ctx.email ++ " (" ++ toString ctx.role ++ ") " ++
    "Operation: " ++ operation]

end AuthorizationContext

/-! ## Registration, statement by statement: `admin_resolvers.cpp` -/

/-- The two kinds of registry a routine fills. -/
inductive RegistryKind where
  | query
  | mutation
  deriving DecidableEq, Repr

/-- One statement of a registration routine. -/
inductive RegistrationStep (σ : Type) where
  /-- The statement `registry[name] = QueryResolver(name, func);` (or
  `MutationResolver`). -/
  | bind (kind : RegistryKind) (name : String) (func : ResolverFunc σ)
  /-- The statement `registry[name].setRequireAuth(require);`. -/
  | requireAuth (kind : RegistryKind) (name : String) (require : Bool)
  /-- The statement `registry[name].setRequiredRole(role);`. -/
  | requiredRole (kind : RegistryKind) (name : String) (role : UserRole)
  /-- The statement `registry[name].setRequireOwnership(require);`. -/
  | requireOwnership (kind : RegistryKind) (name : String) (require : Bool)

namespace Registries

variable {σ : Type}

/-- The registry of a kind. -/
def get (g : Registries σ) : RegistryKind → ResolverMap σ
  | .query => g.query
  | .mutation => g.mutation

/-- The registries with the registry of a kind replaced. -/
def set (g : Registries σ) : RegistryKind → ResolverMap σ → Registries σ
  | .query, m => { g with query := m }
  | .mutation, m => { g with mutation := m }

end Registries

namespace RegistrationStep

variable {σ : Type}

/-- The effect of one statement on the registries. -/
def run (g : Registries σ) : RegistrationStep σ → Registries σ
  | .bind kind name func => g.set kind ((g.get kind).assign name (Resolver.new name func))
  | .requireAuth kind name require =>
    g.set kind ((g.get kind).update name (·.setRequireAuth require))
  | .requiredRole kind name role =>
    g.set kind ((g.get kind).update name (·.setRequiredRole role))
  | .requireOwnership kind name require =>
    g.set kind ((g.get kind).update name (·.setRequireOwnership require))

/-- The name a statement binds in the registry of the given kind, if it is a
binding there. -/
def boundName (kind : RegistryKind) : RegistrationStep σ → Option String
  | .bind k name _ => if k = kind then some name else none
  | _ => none

end RegistrationStep

/-- The effect of a sequence of statements. -/
def runSteps {σ : Type} (steps : List (RegistrationStep σ)) (g : Registries σ) :
    Registries σ :=
  steps.foldl RegistrationStep.run g

/-- The names a sequence of statements binds in the registry of a kind, one
entry per binding statement, in the order written. -/
def boundNames {σ : Type} (kind : RegistryKind) (steps : List (RegistrationStep σ)) :
    List String :=
  steps.filterMap (RegistrationStep.boundName kind)

/-- The static handlers of `AdminResolvers` (database and network code,
external). -/
structure AdminHandlers (σ : Type) where
  resolveInternalUserSearch : ResolverFunc σ
  resolveInternalOrdersByDate : ResolverFunc σ
  resolveSystemStats : ResolverFunc σ
  resolveFetchExternalResource : ResolverFunc σ
  resolveValidateWebhookUrl : ResolverFunc σ
  resolveTestWebhook : ResolverFunc σ
  resolveValidateImportSource : ResolverFunc σ
  resolveFetchBookMetadata : ResolverFunc σ
  resolveDebugQuery : ResolverFunc σ
  resolveExportSchema : ResolverFunc σ
  resolveBulkUpdateUsers : ResolverFunc σ
  resolveExportUserData : ResolverFunc σ
  resolveImportUsers : ResolverFunc σ
  resolveUpdateInventory : ResolverFunc σ

namespace UserResolvers

variable {σ : Type}

/-- The statements of `UserResolvers::registerResolvers`, in order. -/
def steps (h : UserHandlers σ) : List (RegistrationStep σ) :=
  [ .bind .query "me" h.resolveMe,
    .requireAuth .query "me" true,
    .bind .query "user" h.resolveUser,
    .requireAuth .query "user" true,
    .requireOwnership .query "user" true,
    .bind .query "users" h.resolveUsers,
    .requireAuth .query "users" true,
    .requiredRole .query "users" UserRole.STAFF,
    .bind .query "_internalUserSearch" h.resolveInternalUserSearch,
    .requireAuth .query "_internalUserSearch" true,
    .bind .mutation "updateProfile" h.resolveUpdateProfile,
    .requireAuth .mutation "updateProfile" true,
    .requireOwnership .mutation "updateProfile" true,
    .bind .mutation "deleteAccount" h.resolveDeleteAccount,
    .requireAuth .mutation "deleteAccount" true,
    .requireOwnership .mutation "deleteAccount" true ]

end UserResolvers

namespace OrderResolvers

variable {σ : Type}

/-- The statements of `OrderResolvers::registerResolvers`, in order. -/
def steps (h : OrderHandlers σ) : List (RegistrationStep σ) :=
  [ .bind .query "order" h.resolveOrder,
    .requireAuth .query "order" true,
    .requireOwnership .query "order" true,
    .bind .query "orders" h.resolveOrders,
    .requireAuth .query "orders" true,
    .requiredRole .query "orders" UserRole.STAFF,
    .bind .query "myOrders" h.resolveMyOrders,
    .requireAuth .query "myOrders" true,
    .bind .query "_internalOrdersByDate" h.resolveInternalOrdersByDate,
    .requireAuth .query "_internalOrdersByDate" true,
    .bind .mutation "createOrder" h.resolveCreateOrder,
    .requireAuth .mutation "createOrder" true,
    .bind .mutation "cancelOrder" h.resolveCancelOrder,
    .requireAuth .mutation "cancelOrder" true,
    .bind .mutation "requestRefund" h.resolveRequestRefund,
    .requireAuth .mutation "requestRefund" true,
    .bind .mutation "updateOrderStatus" h.resolveUpdateOrderStatus,
    .requireAuth .mutation "updateOrderStatus" true,
    .bind .mutation "updateOrderAddress" h.resolveUpdateOrderAddress,
    .requireAuth .mutation "updateOrderAddress" true ]

end OrderResolvers

namespace AdminResolvers

variable {σ : Type}

/-- The statements of `AdminResolvers::registerResolvers`, in order. -/
def steps (h : AdminHandlers σ) : List (RegistrationStep σ) :=
  [ .bind .query "_internalUserSearch" h.resolveInternalUserSearch,
    .requireAuth .query "_internalUserSearch" true,
    .bind .query "_internalOrdersByDate" h.resolveInternalOrdersByDate,
    .requireAuth .query "_internalOrdersByDate" true,
    .bind .query "_systemStats" h.resolveSystemStats,
    .requireAuth .query "_systemStats" true,
    .bind .query "_fetchExternalResource" h.resolveFetchExternalResource,
    .requireAuth .query "_fetchExternalResource" true,
    .bind .query "_validateWebhookUrl" h.resolveValidateWebhookUrl,
    .requireAuth .query "_validateWebhookUrl" true,
    .bind .mutation "_testWebhook" h.resolveTestWebhook,
    .requireAuth .mutation "_testWebhook" true,
    .bind .mutation "_validateImportSource" h.resolveValidateImportSource,
    .requireAuth .mutation "_validateImportSource" true,
    .bind .mutation "_fetchBookMetadata" h.resolveFetchBookMetadata,
    .requireAuth .mutation "_fetchBookMetadata" true,
    .bind .mutation "_debugQuery" h.resolveDebugQuery,
    .requireAuth .mutation "_debugQuery" true,
    .bind .mutation "_exportSchema" h.resolveExportSchema,
    .requireAuth .mutation "_exportSchema" true,
    .bind .mutation "_bulkUpdateUsers" h.resolveBulkUpdateUsers,
    .requireAuth .mutation "_bulkUpdateUsers" true,
    .bind .mutation "_exportUserData" h.resolveExportUserData,
    .requireAuth .mutation "_exportUserData" true,
    .bind .mutation "_importUsers" h.resolveImportUsers,
    .requireAuth .mutation "_importUsers" true,
    .bind .mutation "_updateInventory" h.resolveUpdateInventory,
    .requireAuth .mutation "_updateInventory" true ]

/-- The routine `AdminResolvers::registerResolvers`, on the registries
`queryAdminResolvers` and `mutationAdminResolvers`. -/
def registerResolvers (h : AdminHandlers σ) (g : Registries σ) : Registries σ :=
  runSteps (steps h) g

end AdminResolvers

/-! ## Fields at every nesting depth -/

mutual
/-- Whether a field and all the fields below it satisfy `p`. -/
def everyField (p : GraphQLField → Bool) : GraphQLField → Bool
  | ⟨name, alias_, arguments, subFields⟩ =>
    p ⟨name, alias_, arguments, subFields⟩ && everyFieldOf p subFields
/-- Whether all the fields of a list, at every nesting depth, satisfy `p`. -/
def everyFieldOf (p : GraphQLField → Bool) : List GraphQLField → Bool
  | [] => true
  | field :: rest => everyField p field && everyFieldOf p rest
end

/-! ## Reference definitions (written from the specification) -/

/-- The first of the keys `userId`, `id`, `orderId`, `cartId`, in that order,
that is present in the arguments, with its value. -/
def firstResourceId (arguments : ArgMap) : Option String :=
  ["userId", "id", "orderId", "cartId"].findSome? (fun k => arguments.lookup k)

/-- The ownership rule of the dispatcher as the specification words it: pass
when ownership is not required; otherwise pass when no resource-id key is
present; otherwise pass iff the subject id equals the value of the first
resource-id key or the role is at least `STAFF`. -/
def checkAuthorizationSpec (requireOwnership : Bool) (ctx : RequestContext)
    (arguments : ArgMap) : Bool :=
  if requireOwnership = false then true
  else
    match firstResourceId arguments with
    | none => true
    | some v => decide (ctx.userId = v ∨ ctx.role ≥ UserRole.STAFF)

/-- The ownership-or-elevated rule as the specification words it: deny if
unauthenticated; allow if the role is at least `STAFF`; else allow iff the
subject id equals the target owner id. -/
def ownershipOrElevated (ctx : RequestContext) (target : String) : Bool :=
  if ctx.isAuthenticated = false then false
  else if ctx.role ≥ UserRole.STAFF then true
  else decide (ctx.userId = target)

/-- The identity `extractContext` starts from: unauthenticated, role `USER`,
every string empty. -/
def anonymousContext : RequestContext :=
  { userId := "", email := "", role := UserRole.USER, ip := "", userAgent := "",
    isAuthenticated := false }

/-! ## Auxiliary definitions for the parser proofs -/

/-- The characters of the set `" \t\n\r"`. -/
def isWs (c : Char) : Bool := whitespace.contains c

/-- The value `trim` returns. -/
def trimmed (s : Str) : Str :=
  match findFirstNotOf s whitespace, findLastNotOf s whitespace with
  | some first, some last => (s.drop first).take (last - first + 1)
  | _, _ => []

/-- The text of the sub-selection that `extractSubFields` hands to
`parseFields`, when it does. -/
def subFieldsText (afterColon : Str) : Option Str :=
  if afterColon.isEmpty then none
  else
    match strFind afterColon '{', strRfind afterColon '}' with
    | some 0, some lastBrace => some ((afterColon.drop 1).take (lastBrace - 1))
    | _, _ => none

/-- The field `parseSingleField` returns before it looks at anything. -/
def blankField : GraphQLField :=
  { name := [], alias_ := [], arguments := [], subFields := [] }

/-- The characters that end the kind token: `(`, `{` and the blanks. -/
def kindDelimiters : Str := ['(', '{', ' ', '\t', '\n', '\r']

/-- The token that precedes the first `(`, `{` or blank of a text, leading
blanks apart. -/
def kindToken (query : Str) : Str :=
  (query.dropWhile isWs).takeWhile (fun c => !kindDelimiters.contains c)

/-- The operation type `parseQuery` gives to a kind token: the comparisons of
lines 25 to 29. -/
def classifyKind (opType : Str) : Str :=
  if opType == "mutation".toList || opType == "Mutation".toList then "mutation".toList
  else if opType == "subscription".toList || opType == "Subscription".toList then
    "subscription".toList
  else "query".toList

/-- The characters a simple name is free of: the blanks and `{ } , : ( )`. -/
def nameBreakers : Str := [' ', '\t', '\n', '\r', '{', '}', ',', ':', '(', ')']

/-- A simple name: not empty, no blank and none of `{ } , : ( )`. -/
def isSimpleName (n : Str) : Bool :=
  !n.isEmpty && n.all (fun c => !nameBreakers.contains c)

/-- A field that has a name and nothing else. -/
def simpleField (n : Str) : GraphQLField :=
  { name := n, alias_ := [], arguments := [], subFields := [] }

/-- The items written one after the other, `, ` between two of them. -/
def commaList : List Str → Str
  | [] => []
  | [n] => n
  | n :: m :: rest => n ++ ',' :: ' ' :: commaList (m :: rest)

/-- The query text `{ n1, n2, ..., nk }`. -/
def selectionOf (items : List Str) : Str :=
  '{' :: ' ' :: commaList items ++ [' ', '}']

/-- Whether the braces of a text balance: scanning from the given depth, no
closing brace comes without an open one and none is left open at the end. -/
def bracesBalanced : Str → Nat → Bool
  | [], depth => depth == 0
  | c :: rest, depth =>
    if c == '{' then bracesBalanced rest (depth + 1)
    else if c == '}' then
      match depth with
      | 0 => false
      | d + 1 => bracesBalanced rest d
    else bracesBalanced rest depth

/-- The quote rule of an argument value in words: a value of length at least
2 that begins and ends with the same quote character (the double quote twice
or the apostrophe twice) loses exactly its first and its last character; any
other value is kept. -/
def stripQuotes (value : Str) : Str :=
  if value.length ≥ 2 ∧
      ((value.head? = some (Char.ofNat 34) ∧ value.getLast? = some (Char.ofNat 34)) ∨
       (value.head? = some (Char.ofNat 39) ∧ value.getLast? = some (Char.ofNat 39))) then
    value.tail.dropLast
  else value

/-- The fragments of an argument text when it is split only at the commas of
bracket depth zero, from the state `(depth, current)`. -/
def splitAtTopCommas : Str → Int → Str → List Str
  | [], _, current => [current]
  | c :: rest, depth, current =>
    if c == '{' || c == '[' then splitAtTopCommas rest (depth + 1) (current ++ [c])
    else if c == '}' || c == ']' then splitAtTopCommas rest (depth - 1) (current ++ [c])
    else if c == ',' && depth == 0 then current :: splitAtTopCommas rest depth []
    else splitAtTopCommas rest depth (current ++ [c])

/-- The fragments of an argument text when it is split at the commas of
bracket depth zero and right after every closing `}` or `]` that brings the
depth back to zero, from the state `(depth, current)`. -/
def splitFragments : Str → Int → Str → List Str
  | [], _, current => [current]
  | c :: rest, depth, current =>
    if c == '{' || c == '[' then splitFragments rest (depth + 1) (current ++ [c])
    else if c == '}' || c == ']' then
      if depth - 1 == 0 then (current ++ [c]) :: splitFragments rest (depth - 1) []
      else splitFragments rest (depth - 1) (current ++ [c])
    else if c == ',' && depth == 0 then current :: splitFragments rest depth []
    else splitFragments rest depth (current ++ [c])

/-- The argument map obtained by handing fragments to `processArgument`, one
after the other. -/
def processFragments : List Str → StrMap → Except String StrMap
  | [], args => .ok args
  | fragment :: rest, args =>
    match GraphQLQueryParser.processArgument fragment args with
    | .ok next => processFragments rest next
    | .error e => .error e

/-- A field whose name is not empty. -/
def hasName (field : GraphQLField) : Bool :=
  !field.name.isEmpty

/-- A field without alias and without arguments. -/
def isBare (field : GraphQLField) : Bool :=
  field.alias_.isEmpty && field.arguments.isEmpty

/-- Whether the brackets `{ }` and `[ ]` of a text balance, counted as the
argument scanner counts them, with one depth for both kinds: scanning from
the given depth, no closing bracket comes without an open one and none is
left open at the end. -/
def bracketsBalanced : Str → Nat → Bool
  | [], depth => depth == 0
  | c :: rest, depth =>
    if c == '{' || c == '[' then bracketsBalanced rest (depth + 1)
    else if c == '}' || c == ']' then
      match depth with
      | 0 => false
      | d + 1 => bracketsBalanced rest d
    else bracketsBalanced rest depth

/-- A world state that logs every handler invocation with its parameters. -/
abbrev CallLog := List ResolverParams

/-- A handler that records its invocation and succeeds with the payload `ok`. -/
def loggingHandler : ResolverFunc CallLog :=
  fun p s => (.ok (ResolverResult.successResult "ok"), s ++ [p])

/-- A handler that records its invocation and then throws with message `msg`. -/
def throwingHandler (msg : String) : ResolverFunc CallLog :=
  fun p s => (.error msg, s ++ [p])

/-- Every `UserResolvers` handler is the logging handler. -/
def sampleUserHandlers : UserHandlers CallLog :=
  { resolveMe := loggingHandler, resolveUser := loggingHandler,
    resolveUsers := loggingHandler, resolveInternalUserSearch := loggingHandler,
    resolveUpdateProfile := loggingHandler, resolveDeleteAccount := loggingHandler }

/-- Every `OrderResolvers` handler is the logging handler. -/
def sampleOrderHandlers : OrderHandlers CallLog :=
  { resolveOrder := loggingHandler, resolveOrders := loggingHandler,
    resolveMyOrders := loggingHandler, resolveInternalOrdersByDate := loggingHandler,
    resolveCreateOrder := loggingHandler, resolveCancelOrder := loggingHandler,
    resolveRequestRefund := loggingHandler, resolveUpdateOrderStatus := loggingHandler,
    resolveUpdateOrderAddress := loggingHandler }

/-- An identity with the given subject id, role and authenticated flag. -/
def mkIdentity (userId : String) (role : UserRole) (isAuthenticated : Bool) :
    RequestContext :=
  { userId := userId, email := "", role := role, ip := "", userAgent := "",
    isAuthenticated := isAuthenticated }

/-- A request with the given arguments and identity. -/
def mkParams (arguments : ArgMap) (ctx : RequestContext) : ResolverParams :=
  { arguments := arguments, authContext := ctx, query := "", operationName := "" }

/-- The empty registries the process starts with. -/
def emptyRegistries (σ : Type) : Registries σ :=
  { query := [], mutation := [] }

/-- A verifier that rejects the token "expired", throws on the token "broken"
and accepts every other token with the claims of user "7", role id 1. -/
def sampleVerifier : JWTHandler :=
  { verifyToken := fun token =>
      if token = "expired" then .ok none
      else if token = "broken" then .error "jwt parse error"
      else .ok (some { userId := "7", email := "u7@example.org", role := "staff",
                       roleId := 1, issuedAt := 0, expiresAt := 86400 }) }

/-- A resolver demanding authentication, the `ADMIN` role and ownership. -/
def strictResolver : Resolver CallLog :=
  ((Resolver.new "strict" loggingHandler).setRequireAuth true
    |>.setRequiredRole UserRole.ADMIN).setRequireOwnership true

/-- A resolver demanding authentication and ownership, as `order` does. -/
def ownedResolver (func : ResolverFunc CallLog) : Resolver CallLog :=
  ((Resolver.new "owned" func).setRequireAuth true).setRequireOwnership true

/-- A verifier that accepts every token with the claims of user "7" and the
given role id. -/
def acceptingVerifier (roleId : Int) : JWTHandler :=
  { verifyToken := fun _ =>
      .ok (some { userId := "7", email := "u7@example.org", role := "user",
                  roleId := roleId, issuedAt := 0, expiresAt := 86400 }) }

/-- A handler that succeeds and leaves the world state as it is. -/
def quietHandler {σ : Type} : ResolverFunc σ :=
  fun _ s => (.ok (ResolverResult.successResult "ok"), s)

/-- Every `AdminResolvers` handler is the logging handler. -/
def sampleAdminHandlers : AdminHandlers CallLog :=
  { resolveInternalUserSearch := loggingHandler, resolveInternalOrdersByDate := loggingHandler,
    resolveSystemStats := loggingHandler, resolveFetchExternalResource := loggingHandler,
    resolveValidateWebhookUrl := loggingHandler, resolveTestWebhook := loggingHandler,
    resolveValidateImportSource := loggingHandler, resolveFetchBookMetadata := loggingHandler,
    resolveDebugQuery := loggingHandler, resolveExportSchema := loggingHandler,
    resolveBulkUpdateUsers := loggingHandler, resolveExportUserData := loggingHandler,
    resolveImportUsers := loggingHandler, resolveUpdateInventory := loggingHandler }

end Bookstore

/-! # Theorems -/

namespace Bookstore

open AuthorizationContext

/-! ## Shared lemmas -/

section Lemmas

variable {σ : Type}

theorem ResolverMap.find_assign_self (m : ResolverMap σ) (k : String) (v : Resolver σ) :
    (m.assign k v).find k = some v := by
  induction m with
  | nil => simp [ResolverMap.assign, ResolverMap.find, List.lookup]
  | cons hd tl ih =>
    obtain ⟨k0, v0⟩ := hd
    by_cases hk : k0 = k
    · subst hk
      simp [ResolverMap.assign, ResolverMap.find, List.lookup]
    · have hb : (k == k0) = false := beq_eq_false_iff_ne.mpr (fun h => hk h.symm)
      simp only [ResolverMap.find] at ih
      simp [ResolverMap.assign, ResolverMap.find, List.lookup, hk, hb, ih]

theorem ResolverMap.find_assign_ne (m : ResolverMap σ) (k j : String) (v : Resolver σ)
    (hne : j ≠ k) : (m.assign k v).find j = m.find j := by
  have hjk : (j == k) = false := beq_eq_false_iff_ne.mpr hne
  induction m with
  | nil => simp [ResolverMap.assign, ResolverMap.find, List.lookup, hjk]
  | cons hd tl ih =>
    obtain ⟨k0, v0⟩ := hd
    simp only [ResolverMap.find] at ih
    by_cases hk : k0 = k
    · subst hk
      simp [ResolverMap.assign, ResolverMap.find, List.lookup, hjk]
    · by_cases hj : j = k0
      · subst hj
        simp [ResolverMap.assign, ResolverMap.find, List.lookup, hk]
      · have hb : (j == k0) = false := beq_eq_false_iff_ne.mpr hj
        simp [ResolverMap.assign, ResolverMap.find, List.lookup, hk, hb, ih]

theorem ResolverMap.find_update_self (m : ResolverMap σ) (k : String)
    (f : Resolver σ → Resolver σ) : (m.update k f).find k = (m.find k).map f := by
  induction m with
  | nil => simp [ResolverMap.update, ResolverMap.find, List.lookup]
  | cons hd tl ih =>
    obtain ⟨k0, v0⟩ := hd
    by_cases hk : k0 = k
    · subst hk
      simp [ResolverMap.update, ResolverMap.find, List.lookup]
    · have hb : (k == k0) = false := beq_eq_false_iff_ne.mpr (fun h => hk h.symm)
      simp only [ResolverMap.find] at ih
      simp [ResolverMap.update, ResolverMap.find, List.lookup, hk, hb, ih]

theorem ResolverMap.find_update_ne (m : ResolverMap σ) (k j : String)
    (f : Resolver σ → Resolver σ) (hne : j ≠ k) : (m.update k f).find j = m.find j := by
  have hjk : (j == k) = false := beq_eq_false_iff_ne.mpr hne
  induction m with
  | nil => simp [ResolverMap.update, ResolverMap.find, List.lookup]
  | cons hd tl ih =>
    obtain ⟨k0, v0⟩ := hd
    simp only [ResolverMap.find] at ih
    by_cases hk : k0 = k
    · subst hk
      simp [ResolverMap.update, ResolverMap.find, List.lookup, hjk]
    · by_cases hj : j = k0
      · subst hj
        simp [ResolverMap.update, ResolverMap.find, List.lookup, hk]
      · have hb : (j == k0) = false := beq_eq_false_iff_ne.mpr hj
        simp [ResolverMap.update, ResolverMap.find, List.lookup, hk, hb, ih]

/-- The ownership check never throws and computes the reference rule. -/
theorem Resolver.checkAuthorization_ok (r : Resolver σ) (params : ResolverParams) :
    r.checkAuthorization params =
      .ok (checkAuthorizationSpec r.requireOwnership_ params.authContext params.arguments) := by
  unfold Resolver.checkAuthorization checkAuthorizationSpec firstResourceId
  cases r.requireOwnership_ with
  | false => simp
  | true =>
    by_cases hs : UserRole.STAFF ≤ params.authContext.role <;>
    cases h1 : List.lookup "userId" params.arguments <;>
    cases h2 : List.lookup "id" params.arguments <;>
    cases h3 : List.lookup "orderId" params.arguments <;>
    cases h4 : List.lookup "cartId" params.arguments <;>
    simp [ArgMap.count, ArgMap.at_, List.findSome?, h1, h2, h3, h4, hs, bind, Except.bind,
      pure, Except.pure] <;>
    split <;> simp_all

/-- What `resolve` returns once the handler has been invoked: the handler's
own outcome, an exception being turned into an error envelope. -/
theorem Resolver.resolve_of_pass (r : Resolver σ) (params : ResolverParams) (s : σ)
    (hauth : (r.requireAuth_ && !params.authContext.isAuthenticated) = false)
    (hrole : (r.requiredRole_ != UserRole.USER &&
      decide (params.authContext.role < r.requiredRole_)) = false)
    (hown : r.checkAuthorization params = .ok true) :
    r.resolveTry params s = r.resolverFunc_ params s := by
  unfold Resolver.resolveTry
  rw [if_neg (by simp [hauth]), if_neg (by simp [hrole]), hown]

/-- The resolver `me` after `UserResolvers::registerResolvers`. -/
theorem UserResolvers.find_me (h : UserHandlers σ) (g : Registries σ) :
    (UserResolvers.registerResolvers h g).query.find "me" =
      some ((Resolver.new "me" h.resolveMe).setRequireAuth true) := by
  simp [UserResolvers.registerResolvers, ResolverMap.find_update_ne,
    ResolverMap.find_assign_ne, ResolverMap.find_update_self, ResolverMap.find_assign_self]

/-- The resolver `order` after `OrderResolvers::registerResolvers`. -/
theorem OrderResolvers.find_order (h : OrderHandlers σ) (g : Registries σ) :
    (OrderResolvers.registerResolvers h g).query.find "order" =
      some (((Resolver.new "order" h.resolveOrder).setRequireAuth true).setRequireOwnership
        true) := by
  simp [OrderResolvers.registerResolvers, ResolverMap.find_update_ne,
    ResolverMap.find_assign_ne, ResolverMap.find_update_self, ResolverMap.find_assign_self]

/-- The authentication check comes first and short-circuits. -/
theorem Resolver.resolve_unauthenticated (r : Resolver σ) (params : ResolverParams) (s : σ)
    (hr : r.requireAuth_ = true) (hu : params.authContext.isAuthenticated = false) :
    r.resolve params s =
      (.ok (ResolverResult.errorResult "Authentication required"), s) := by
  simp [Resolver.resolve, Resolver.resolveTry, Resolver.catchClause, hr, hu]

end Lemmas

/-! ## The dispatcher -/

/-- C1: a resolver with `requireAuth = true`, dispatched with an identity whose
`isAuthenticated` is false, returns exactly the envelope
`{success = false, error = "Authentication required",
errors = ["Authentication required"]}` and leaves the world state untouched
(the handler is not invoked), whatever `requiredRole`, `requireOwnership`, the
identity's role and the arguments are; and the query resolver `me` registered
by `UserResolvers::registerResolvers` has `requireAuth = true`, hence behaves
so. -/
theorem C1_authentication_required {σ : Type} (r : Resolver σ) (params : ResolverParams)
    (s : σ) (h : UserHandlers σ) (g : Registries σ)
    (hr : r.requireAuth_ = true) (hu : params.authContext.isAuthenticated = false) :
    r.resolve params s =
        (.ok { success := false, data := "", error := "Authentication required",
               errors := ["Authentication required"] }, s) ∧
    ∃ me, (UserResolvers.registerResolvers h g).query.find "me" = some me ∧
      me.resolverFunc_ = h.resolveMe ∧ me.requireAuth_ = true ∧
      me.resolve params s =
        (.ok { success := false, data := "", error := "Authentication required",
               errors := ["Authentication required"] }, s) := by
  refine ⟨Resolver.resolve_unauthenticated r params s hr hu, _, UserResolvers.find_me h g,
    rfl, rfl, ?_⟩
  exact Resolver.resolve_unauthenticated _ params s rfl hu

/-- C1 at a concrete request: an unauthenticated identity that even carries the
`ADMIN` role, on a resolver that also demands a role and ownership; the call
log stays empty. -/
theorem C1_authentication_required_witness :
    strictResolver.requireAuth_ = true ∧
    (mkParams [("id", "9")] (mkIdentity "1" UserRole.ADMIN false)).authContext.isAuthenticated
      = false ∧
    strictResolver.resolve (mkParams [("id", "9")] (mkIdentity "1" UserRole.ADMIN false)) [] =
      (.ok { success := false, data := "", error := "Authentication required",
             errors := ["Authentication required"] }, []) :=
  ⟨rfl, rfl,
    (C1_authentication_required strictResolver
      (mkParams [("id", "9")] (mkIdentity "1" UserRole.ADMIN false)) []
      sampleUserHandlers (emptyRegistries CallLog) rfl rfl).1⟩

/-- C2: `Resolver::checkAuthorization` never throws and equals the reference
rule (pass when ownership is not required; else pass when none of `userId`,
`id`, `orderId`, `cartId` is present; else pass iff the subject id equals the
value of the first present key in that order or the role is at least `STAFF`);
with arguments `{userId: "7", id: "42"}` and the identity `{userId "42", role
USER}` the check is denied although `id` matches; and when the check fails
after the authentication and role checks passed, `resolve` returns the
envelope "Authorization failed" and leaves the world state untouched. -/
theorem C2_ownership_check {σ : Type} (r : Resolver σ) (params : ResolverParams) (s : σ) :
    r.checkAuthorization params =
      .ok (checkAuthorizationSpec r.requireOwnership_ params.authContext params.arguments) ∧
    (∀ (email ip userAgent query operationName : String) (authenticated : Bool),
      (r.setRequireOwnership true).checkAuthorization
        { arguments := [("userId", "7"), ("id", "42")],
          authContext := { userId := "42", email := email, role := UserRole.USER, ip := ip,
                           userAgent := userAgent, isAuthenticated := authenticated },
          query := query, operationName := operationName } = .ok false) ∧
    ((r.requireAuth_ && !params.authContext.isAuthenticated) = false →
      (r.requiredRole_ != UserRole.USER &&
        decide (params.authContext.role < r.requiredRole_)) = false →
      r.checkAuthorization params = .ok false →
      r.resolve params s =
        (.ok { success := false, data := "", error := "Authorization failed",
               errors := ["Authorization failed"] }, s)) := by
  refine ⟨Resolver.checkAuthorization_ok r params, ?_, ?_⟩
  · intro email ip userAgent query operationName authenticated
    rw [Resolver.checkAuthorization_ok]
    simp [checkAuthorizationSpec, firstResourceId, Resolver.setRequireOwnership,
      List.findSome?, List.lookup]
  · intro hauth hrole hown
    unfold Resolver.resolve Resolver.resolveTry
    rw [if_neg (by simp [hauth]), if_neg (by simp [hrole]), hown]
    rfl

/-- C2 at a concrete request: the authenticated user "42" asks for
`{userId: "7", id: "42"}` on a resolver that requires ownership. -/
theorem C2_ownership_check_witness :
    (ownedResolver loggingHandler).resolve
        (mkParams [("userId", "7"), ("id", "42")] (mkIdentity "42" UserRole.USER true)) [] =
      (.ok { success := false, data := "", error := "Authorization failed",
             errors := ["Authorization failed"] }, []) :=
  (C2_ownership_check (ownedResolver loggingHandler)
    (mkParams [("userId", "7"), ("id", "42")] (mkIdentity "42" UserRole.USER true)) []).2.2
    (by decide) (by decide) (by decide)

/-- C3: on a resolver whose `requiredRole` is above `USER`, a request that
passes the authentication check and whose role is below `requiredRole` gets
exactly the envelope "Insufficient permissions" (`success = false`) and the
world state is untouched, whatever `requireOwnership` and the arguments are;
and when `requiredRole` is `USER` the role check denies nothing: the outcome is
the one of the ownership check and the handler alone, for every role value. -/
theorem C3_insufficient_permissions {σ : Type} (r : Resolver σ) (params : ResolverParams)
    (s : σ)
    (hauth : r.requireAuth_ = false ∨ params.authContext.isAuthenticated = true) :
    (r.requiredRole_ > UserRole.USER → params.authContext.role < r.requiredRole_ →
      r.resolve params s =
        (.ok { success := false, data := "", error := "Insufficient permissions",
               errors := ["Insufficient permissions"] }, s)) ∧
    (r.requiredRole_ = UserRole.USER →
      r.resolve params s =
        if checkAuthorizationSpec r.requireOwnership_ params.authContext params.arguments
        then Resolver.catchClause (r.resolverFunc_ params s)
        else (.ok (ResolverResult.errorResult "Authorization failed"), s)) := by
  have ha : (r.requireAuth_ && !params.authContext.isAuthenticated) = false := by
    rcases hauth with h | h <;> simp [h]
  constructor
  · intro hgt hlt
    have hne : r.requiredRole_ ≠ 0 := by
      intro h0
      rw [h0] at hgt
      exact absurd hgt (by decide)
    unfold Resolver.resolve Resolver.resolveTry
    rw [if_neg (by simp [ha]), if_pos (by simp [hne, hlt])]
    rfl
  · intro hU
    unfold Resolver.resolve Resolver.resolveTry
    rw [if_neg (by simp [ha]), if_neg (by simp [hU]), Resolver.checkAuthorization_ok]
    cases checkAuthorizationSpec r.requireOwnership_ params.authContext params.arguments <;>
      rfl

/-- C3 at concrete requests: the authenticated `STAFF` identity "1" on a
resolver that demands `ADMIN` is refused and the call log stays empty; on a
resolver whose `requiredRole` is `USER` even the role value -1 is let through
to the handler. -/
theorem C3_insufficient_permissions_witness :
    strictResolver.requiredRole_ > UserRole.USER ∧
    strictResolver.resolve (mkParams [("id", "1")] (mkIdentity "1" UserRole.STAFF true)) [] =
      (.ok { success := false, data := "", error := "Insufficient permissions",
             errors := ["Insufficient permissions"] }, []) ∧
    (ownedResolver loggingHandler).resolve
        (mkParams [("id", "42")] (mkIdentity "42" (-1) true)) [] =
      (.ok (ResolverResult.successResult "ok"),
        [mkParams [("id", "42")] (mkIdentity "42" (-1) true)]) :=
  ⟨by decide,
    (C3_insufficient_permissions strictResolver
      (mkParams [("id", "1")] (mkIdentity "1" UserRole.STAFF true)) [] (Or.inr rfl)).1
      (by decide) (by decide),
    (C3_insufficient_permissions (ownedResolver loggingHandler)
      (mkParams [("id", "42")] (mkIdentity "42" (-1) true)) [] (Or.inr rfl)).2 rfl⟩

/-- C4: when the authentication, role and ownership checks of `resolve` all
pass and the handler returns an envelope (does not throw), `resolve` returns
exactly that envelope together with the world state that one invocation of the
handler on the unmodified parameters leaves.  The query resolver `order` is
registered with `requireAuth = true` and `requireOwnership = true`; for the
arguments `{id: "42"}` and the authenticated `USER` identity "42" its ownership
check passes and its outcome is the one of one invocation of its handler. -/
theorem C4_handler_result {σ : Type} (r : Resolver σ) (params : ResolverParams) (s : σ)
    (h : OrderHandlers σ) (g : Registries σ)
    (hauth : (r.requireAuth_ && !params.authContext.isAuthenticated) = false)
    (hrole : (r.requiredRole_ != UserRole.USER &&
      decide (params.authContext.role < r.requiredRole_)) = false)
    (hown : r.checkAuthorization params = .ok true) :
    (∀ env t, r.resolverFunc_ params s = (.ok env, t) → r.resolve params s = (.ok env, t)) ∧
    ∃ order, (OrderResolvers.registerResolvers h g).query.find "order" = some order ∧
      order.resolverFunc_ = h.resolveOrder ∧ order.requireAuth_ = true ∧
      order.requireOwnership_ = true ∧
      ∀ (email ip userAgent query operationName : String) (p : ResolverParams),
        p = { arguments := [("id", "42")],
              authContext := { userId := "42", email := email, role := UserRole.USER,
                               ip := ip, userAgent := userAgent, isAuthenticated := true },
              query := query, operationName := operationName } →
        order.checkAuthorization p = .ok true ∧
        order.resolve p s = Resolver.catchClause (h.resolveOrder p s) := by
  constructor
  · intro env t hf
    unfold Resolver.resolve
    rw [Resolver.resolve_of_pass r params s hauth hrole hown, hf]
    rfl
  · refine ⟨_, OrderResolvers.find_order h g, rfl, rfl, rfl, ?_⟩
    intro email ip userAgent query operationName p hp
    have hc : (((Resolver.new "order" h.resolveOrder).setRequireAuth
        true).setRequireOwnership true).checkAuthorization p = .ok true := by
      rw [Resolver.checkAuthorization_ok, hp]
      simp [checkAuthorizationSpec, firstResourceId, Resolver.setRequireOwnership,
        List.findSome?, List.lookup]
    refine ⟨hc, ?_⟩
    unfold Resolver.resolve
    rw [Resolver.resolve_of_pass _ p s (by rw [hp]; rfl) (by rw [hp]; rfl) hc]
    rfl

/-- C4 at a concrete request: the user "42" asks for the order `{id: "42"}`;
the logging handler is invoked exactly once, on the request itself. -/
theorem C4_handler_result_witness :
    (ownedResolver loggingHandler).resolve
        (mkParams [("id", "42")] (mkIdentity "42" UserRole.USER true)) [] =
      (.ok { success := true, data := "ok", error := "", errors := [] },
        [mkParams [("id", "42")] (mkIdentity "42" UserRole.USER true)]) :=
  (C4_handler_result (ownedResolver loggingHandler)
    (mkParams [("id", "42")] (mkIdentity "42" UserRole.USER true)) []
    sampleOrderHandlers (emptyRegistries CallLog) (by decide) (by decide) (by decide)).1
    _ _ rfl

/-- C5: when all checks of `resolve` pass and the handler throws an exception
with message `m`, `resolve` does not propagate it: it returns the error
envelope with `success = false` whose `error`, and the single entry of
`errors`, is `"Resolver error: "` followed by `m` (the world state is the one
the handler left). -/
theorem C5_handler_fault {σ : Type} (r : Resolver σ) (params : ResolverParams) (s t : σ)
    (m : String)
    (hauth : (r.requireAuth_ && !params.authContext.isAuthenticated) = false)
    (hrole : (r.requiredRole_ != UserRole.USER &&
      decide (params.authContext.role < r.requiredRole_)) = false)
    (hown : r.checkAuthorization params = .ok true)
    (hthrow : r.resolverFunc_ params s = (.error m, t)) :
    r.resolve params s =
      (.ok { success := false, data := "", error := "Resolver error: " ++ m,
             errors := ["Resolver error: " ++ m] }, t) := by
  unfold Resolver.resolve
  rw [Resolver.resolve_of_pass r params s hauth hrole hown, hthrow]
  rfl

/-- C5 at a concrete request: the handler of the order "42" throws
"connection lost" after having been invoked once. -/
theorem C5_handler_fault_witness :
    (ownedResolver (throwingHandler "connection lost")).resolve
        (mkParams [("id", "42")] (mkIdentity "42" UserRole.USER true)) [] =
      (.ok { success := false, data := "", error := "Resolver error: connection lost",
             errors := ["Resolver error: connection lost"] },
        [mkParams [("id", "42")] (mkIdentity "42" UserRole.USER true)]) :=
  C5_handler_fault (ownedResolver (throwingHandler "connection lost"))
    (mkParams [("id", "42")] (mkIdentity "42" UserRole.USER true)) [] _
    "connection lost" (by decide) (by decide) (by decide) rfl

/-! ## The authorization policy engine -/

/-- The six predicates that test `isAuthenticated` first deny every
unauthenticated identity, whatever its role and the target. -/
theorem unauthenticated_fail_closed (ctx : RequestContext) (target : String)
    (required : UserRole) (hu : ctx.isAuthenticated = false) :
    canAccessUser ctx target = false ∧ canAccessOrder ctx target = false ∧
    canAccessCart ctx target = false ∧ canModifyBook ctx = false ∧
    canModifyOrder ctx target = false ∧ hasRole ctx required = false := by
  simp [canAccessUser, canAccessOrder, canAccessCart, canModifyBook, canModifyOrder, hasRole,
    hu]

/-- What `canAccessUser`, `canAccessOrder` and `canModifyOrder` compute. -/
theorem ownership_predicates_iff (ctx : RequestContext) (target : String) :
    (canAccessUser ctx target = true ↔ ctx.isAuthenticated = true ∧
      (ctx.role = UserRole.STAFF ∨ ctx.role = UserRole.ADMIN ∨ ctx.userId = target)) ∧
    (canAccessOrder ctx target = true ↔ ctx.isAuthenticated = true ∧
      (ctx.role = UserRole.STAFF ∨ ctx.role = UserRole.ADMIN ∨ ctx.userId = target)) ∧
    (canModifyOrder ctx target = true ↔ ctx.isAuthenticated = true ∧
      (ctx.role = UserRole.STAFF ∨ ctx.role = UserRole.ADMIN ∨ ctx.userId = target)) := by
  unfold canAccessUser canAccessOrder canModifyOrder
  cases ctx.isAuthenticated <;>
    by_cases h2 : ctx.role = 2 <;> by_cases h1 : ctx.role = 1 <;> simp [h1, h2]

/-- C6: `canAccessCart ctx owner` is true iff `ctx` is authenticated and
`ctx.userId` equals `owner`, for every role; in particular an authenticated
`STAFF` or `ADMIN` identity is denied the cart of any other owner, while
`canAccessOrder` and `canAccessUser` allow it on the same inputs. -/
theorem C6_cart_self_only (ctx : RequestContext) (owner : String) :
    (canAccessCart ctx owner = true ↔ ctx.isAuthenticated = true ∧ ctx.userId = owner) ∧
    (ctx.isAuthenticated = true → ctx.role = UserRole.STAFF ∨ ctx.role = UserRole.ADMIN →
      ctx.userId ≠ owner →
      canAccessCart ctx owner = false ∧ canAccessOrder ctx owner = true ∧
        canAccessUser ctx owner = true) := by
  constructor
  · unfold canAccessCart
    cases ctx.isAuthenticated <;> simp
  · intro ha hr hne
    refine ⟨?_, ((ownership_predicates_iff ctx owner).2.1).2 ⟨ha, ?_⟩,
      ((ownership_predicates_iff ctx owner).1).2 ⟨ha, ?_⟩⟩
    · simp [canAccessCart, ha, hne]
    · rcases hr with h | h
      · exact Or.inl h
      · exact Or.inr (Or.inl h)
    · rcases hr with h | h
      · exact Or.inl h
      · exact Or.inr (Or.inl h)

/-- C6 at a concrete input: the authenticated `STAFF` identity "1" and the
owner "2". -/
theorem C6_cart_self_only_witness :
    canAccessCart (mkIdentity "1" UserRole.STAFF true) "2" = false ∧
    canAccessOrder (mkIdentity "1" UserRole.STAFF true) "2" = true ∧
    canAccessUser (mkIdentity "1" UserRole.STAFF true) "2" = true :=
  (C6_cart_self_only (mkIdentity "1" UserRole.STAFF true) "2").2 rfl (Or.inl rfl)
    (by decide)

/-- C7, as stated, fails: the authenticated identity "1" whose role has the
value 3 (what `extractContext` builds from a token with `role_id` 3) has a
role at least `STAFF`, so the stated rule allows the target "2", but
`canAccessUser`, `canAccessOrder` and `canModifyOrder` all deny it. -/
theorem C7_counterexample :
    (mkIdentity "1" 3 true).role ≥ UserRole.STAFF ∧
    ownershipOrElevated (mkIdentity "1" 3 true) "2" = true ∧
    canAccessUser (mkIdentity "1" 3 true) "2" = false ∧
    canAccessOrder (mkIdentity "1" 3 true) "2" = false ∧
    canModifyOrder (mkIdentity "1" 3 true) "2" = false := by
  decide

/-- C7, amended: `canAccessUser`, `canAccessOrder` and `canModifyOrder` each
return false if the identity is unauthenticated; otherwise true if its role is
exactly `STAFF` or `ADMIN`; otherwise true iff `ctx.userId` equals the target.
For the identities whose role is one of `USER`, `STAFF`, `ADMIN` this is the
stated ownership-or-elevated rule. -/
theorem C7_ownership_or_elevated (ctx : RequestContext) (target : String) :
    (canAccessUser ctx target =
      if ctx.isAuthenticated = false then false
      else if ctx.role = UserRole.STAFF ∨ ctx.role = UserRole.ADMIN then true
      else decide (ctx.userId = target)) ∧
    (canAccessOrder ctx target = canAccessUser ctx target) ∧
    (canModifyOrder ctx target = canAccessUser ctx target) ∧
    (UserRole.USER ≤ ctx.role ∧ ctx.role ≤ UserRole.ADMIN →
      canAccessUser ctx target = ownershipOrElevated ctx target ∧
      canAccessOrder ctx target = ownershipOrElevated ctx target ∧
      canModifyOrder ctx target = ownershipOrElevated ctx target) := by
  have hU : canAccessUser ctx target =
      if ctx.isAuthenticated = false then false
      else if ctx.role = UserRole.STAFF ∨ ctx.role = UserRole.ADMIN then true
      else decide (ctx.userId = target) := by
    unfold canAccessUser
    cases ctx.isAuthenticated <;>
      by_cases h2 : ctx.role = 2 <;> by_cases h1 : ctx.role = 1 <;>
      simp [h1, h2, beq_eq_decide]
  have hO : canAccessOrder ctx target = canAccessUser ctx target := rfl
  have hM : canModifyOrder ctx target = canAccessUser ctx target := rfl
  refine ⟨hU, hO, hM, ?_⟩
  rintro ⟨hlo, hhi⟩
  have hE : canAccessUser ctx target = ownershipOrElevated ctx target := by
    rw [hU]
    unfold ownershipOrElevated
    have hiff : (ctx.role = UserRole.STAFF ∨ ctx.role = UserRole.ADMIN) ↔
        ctx.role ≥ UserRole.STAFF := by
      constructor
      · intro h
        have back : ∀ x : Int, x = 1 ∨ x = 2 → x ≥ 1 := by
          intro x a
          omega
        exact back ctx.role h
      · intro h
        have key : ∀ x : Int, 1 ≤ x → x ≤ 2 → x = 1 ∨ x = 2 := by
          intro x a b
          omega
        exact key ctx.role h hhi
    simp only [hiff]
  exact ⟨hE, hO.trans hE, hM.trans hE⟩

/-- C7 (amended) at a concrete input: the authenticated `ADMIN` identity "1"
and the target "2". -/
theorem C7_ownership_or_elevated_witness :
    canAccessUser (mkIdentity "1" UserRole.ADMIN true) "2" =
      ownershipOrElevated (mkIdentity "1" UserRole.ADMIN true) "2" ∧
    canAccessOrder (mkIdentity "1" UserRole.ADMIN true) "2" =
      ownershipOrElevated (mkIdentity "1" UserRole.ADMIN true) "2" ∧
    canModifyOrder (mkIdentity "1" UserRole.ADMIN true) "2" =
      ownershipOrElevated (mkIdentity "1" UserRole.ADMIN true) "2" :=
  (C7_ownership_or_elevated (mkIdentity "1" UserRole.ADMIN true) "2").2.2.2
    ⟨by decide, by decide⟩

/-- C8, the code at the failing input: an identity with `isAuthenticated =
false` whose role field is `ADMIN` is granted `canAccessAdminEndpoints` and
`canAccessInternalEndpoints` (the latter also with role `STAFF`), although the
six other predicates deny it. -/
theorem C8_unauthenticated_admin_allowed :
    (mkIdentity "" UserRole.ADMIN false).isAuthenticated = false ∧
    canAccessAdminEndpoints (mkIdentity "" UserRole.ADMIN false) = true ∧
    canAccessInternalEndpoints (mkIdentity "" UserRole.ADMIN false) = true ∧
    canAccessInternalEndpoints (mkIdentity "" UserRole.STAFF false) = true ∧
    canAccessUser (mkIdentity "" UserRole.ADMIN false) "" = false ∧
    canAccessOrder (mkIdentity "" UserRole.ADMIN false) "" = false ∧
    canAccessCart (mkIdentity "" UserRole.ADMIN false) "" = false ∧
    canModifyBook (mkIdentity "" UserRole.ADMIN false) = false ∧
    canModifyOrder (mkIdentity "" UserRole.ADMIN false) "" = false ∧
    hasRole (mkIdentity "" UserRole.ADMIN false) UserRole.USER = false := by
  decide

/-- C9: the roles are ordered `USER < STAFF < ADMIN` by a total order, and
`hasRole ctx required` is true iff `ctx` is authenticated and `ctx.role` is at
least `required`; an authenticated `USER` identity has not the role `STAFF`,
an authenticated `ADMIN` identity has it, and `hasRole` is monotone in the
role of the identity. -/
theorem C9_hasRole (ctx : RequestContext) (required : UserRole) :
    (UserRole.USER < UserRole.STAFF ∧ UserRole.STAFF < UserRole.ADMIN) ∧
    (∀ a b : UserRole, a ≤ b ∨ b ≤ a) ∧
    (hasRole ctx required = true ↔ ctx.isAuthenticated = true ∧ ctx.role ≥ required) ∧
    (ctx.isAuthenticated = true → ctx.role = UserRole.USER →
      hasRole ctx UserRole.STAFF = false) ∧
    (ctx.isAuthenticated = true → ctx.role = UserRole.ADMIN →
      hasRole ctx UserRole.STAFF = true) ∧
    (∀ other : RequestContext, other.isAuthenticated = ctx.isAuthenticated →
      ctx.role ≤ other.role → hasRole ctx required = true →
      hasRole other required = true) := by
  have hiff : ∀ c : RequestContext, ∀ q : UserRole,
      hasRole c q = true ↔ c.isAuthenticated = true ∧ c.role ≥ q := by
    intro c q
    unfold hasRole
    cases c.isAuthenticated <;> simp
  refine ⟨by decide, fun a b => le_total a b, hiff ctx required, ?_, ?_, ?_⟩
  · intro ha hr
    have hn : ¬ hasRole ctx UserRole.STAFF = true := by
      rw [hiff, hr]
      rintro ⟨_, h⟩
      exact absurd h (by decide)
    simpa using hn
  · intro ha hr
    rw [hiff, hr]
    exact ⟨ha, by decide⟩
  · intro other hsame hle hhas
    rw [hiff] at hhas ⊢
    exact ⟨hsame.trans hhas.1, le_trans hhas.2 hle⟩

/-- C9 at concrete inputs: the authenticated identities "1" with the roles
`USER` and `ADMIN`, asked for `STAFF`; and the role `USER`, held by the
`STAFF` identity "1", is also held by the `ADMIN` identity "2". -/
theorem C9_hasRole_witness :
    hasRole (mkIdentity "1" UserRole.USER true) UserRole.STAFF = false ∧
    hasRole (mkIdentity "1" UserRole.ADMIN true) UserRole.STAFF = true ∧
    hasRole (mkIdentity "2" UserRole.ADMIN true) UserRole.USER = true :=
  ⟨(C9_hasRole (mkIdentity "1" UserRole.USER true) UserRole.STAFF).2.2.2.1 rfl rfl,
    (C9_hasRole (mkIdentity "1" UserRole.ADMIN true) UserRole.STAFF).2.2.2.2.1 rfl rfl,
    (C9_hasRole (mkIdentity "1" UserRole.STAFF true) UserRole.USER).2.2.2.2.2
      (mkIdentity "2" UserRole.ADMIN true) rfl (by decide) (by decide)⟩

/-! ## The claim extractor -/

/-- C10: `extractContext` returns, and never throws, the anonymous identity
(`isAuthenticated = false`, role `USER`, empty `userId` and `email`) for the
empty token, for any token when no verifier is installed, and for any
non-empty token on which the verifier reports failure or throws; and every
identity it produces that is unauthenticated has the role `USER`. -/
theorem C10_extractContext_degrades (self : AuthorizationContext) (authToken : String) :
    (authToken = "" → self.extractContext authToken = .ok anonymousContext) ∧
    (self.jwtHandler_ = none → self.extractContext authToken = .ok anonymousContext) ∧
    (∀ verifier, self.jwtHandler_ = some verifier → authToken ≠ "" →
      (verifier.verifyToken authToken = .ok none ∨
        ∃ m, verifier.verifyToken authToken = .error m) →
      self.extractContext authToken = .ok anonymousContext) ∧
    (∃ ctx, self.extractContext authToken = .ok ctx ∧
      (ctx.isAuthenticated = false →
        ctx.role = UserRole.USER ∧ ctx.userId = "" ∧ ctx.email = "")) := by
  have hblank : ∀ v : AuthorizationContext, v.extractContext "" = .ok anonymousContext := by
    intro v
    rfl
  refine ⟨?_, ?_, ?_, ?_⟩
  · intro h
    rw [h]
    exact hblank self
  · intro h
    unfold extractContext extractContextTry
    rw [h]
    split <;> rfl
  · intro verifier hv hne hfail
    have he : authToken.isEmpty = false := by
      cases hb : authToken.isEmpty with
      | false => rfl
      | true => exact absurd ((String.isEmpty_iff authToken).1 hb) hne
    unfold extractContext extractContextTry
    rw [hv]
    rcases hfail with h | ⟨m, h⟩ <;> simp [he, h, anonymousContext]
  · by_cases he : authToken.isEmpty = true
    · exact ⟨anonymousContext, by simp [extractContext, he, anonymousContext],
        fun _ => ⟨rfl, rfl, rfl⟩⟩
    · cases hj : self.jwtHandler_ with
      | none =>
        exact ⟨anonymousContext,
          by simp [extractContext, extractContextTry, he, hj, anonymousContext],
          fun _ => ⟨rfl, rfl, rfl⟩⟩
      | some verifier =>
        cases hv : verifier.verifyToken authToken with
        | error m =>
          exact ⟨anonymousContext,
            by simp [extractContext, extractContextTry, he, hj, hv, anonymousContext],
            fun _ => ⟨rfl, rfl, rfl⟩⟩
        | ok o =>
          cases o with
          | none =>
            exact ⟨anonymousContext,
              by simp [extractContext, extractContextTry, he, hj, hv, anonymousContext],
              fun _ => ⟨rfl, rfl, rfl⟩⟩
          | some claims =>
            exact ⟨{ anonymousContext with
                      userId := claims.userId, email := claims.email, role := claims.roleId,
                      isAuthenticated := true },
              by simp [extractContext, extractContextTry, he, hj, hv, anonymousContext],
              fun h => absurd h (by simp)⟩

/-- C10 at concrete tokens: the empty token, a token without a verifier, a
rejected token and a token on which the verifier throws. -/
theorem C10_extractContext_degrades_witness :
    AuthorizationContext.extractContext { jwtHandler_ := some sampleVerifier } "" =
      .ok anonymousContext ∧
    AuthorizationContext.extractContext { jwtHandler_ := none } "abc" =
      .ok anonymousContext ∧
    AuthorizationContext.extractContext { jwtHandler_ := some sampleVerifier } "expired" =
      .ok anonymousContext ∧
    AuthorizationContext.extractContext { jwtHandler_ := some sampleVerifier } "broken" =
      .ok anonymousContext :=
  ⟨(C10_extractContext_degrades { jwtHandler_ := some sampleVerifier } "").1 rfl,
    (C10_extractContext_degrades { jwtHandler_ := none } "abc").2.1 rfl,
    (C10_extractContext_degrades { jwtHandler_ := some sampleVerifier } "expired").2.2.1
      sampleVerifier rfl (by decide) (Or.inl (by decide)),
    (C10_extractContext_degrades { jwtHandler_ := some sampleVerifier } "broken").2.2.1
      sampleVerifier rfl (by decide) (Or.inr ⟨"jwt parse error", by decide⟩)⟩

/-! ## Lemmas on the query parser -/

open GraphQLQueryParser

/-! ## The `std::string` primitives -/

section Primitives

theorem firstIdx_lt (p : Char → Bool) (s : Str) (i : Nat) (h : firstIdx p s = some i) :
    i < s.length := by
  induction s generalizing i with
  | nil => simp [firstIdx] at h
  | cons c cs ih =>
    unfold firstIdx at h
    by_cases hc : p c = true
    · simp [hc] at h
      subst h
      simp
    · simp [hc] at h
      obtain ⟨j, hj, rfl⟩ := h
      have := ih j hj
      simp
      omega

theorem firstIdx_get (p : Char → Bool) (s : Str) (i : Nat) (h : firstIdx p s = some i) :
    ∃ c, s.get? i = some c ∧ p c = true := by
  induction s generalizing i with
  | nil => simp [firstIdx] at h
  | cons c cs ih =>
    unfold firstIdx at h
    by_cases hc : p c = true
    · simp [hc] at h
      subst h
      exact ⟨c, by simp, hc⟩
    · simp [hc] at h
      obtain ⟨j, hj, rfl⟩ := h
      obtain ⟨d, hd, hpd⟩ := ih j hj
      exact ⟨d, by simpa using hd, hpd⟩

theorem firstIdx_none_iff (p : Char → Bool) (s : Str) :
    firstIdx p s = none ↔ ∀ c ∈ s, p c = false := by
  induction s with
  | nil => simp [firstIdx]
  | cons c cs ih =>
    unfold firstIdx
    by_cases hc : p c = true
    · simp [hc]
    · simp [hc, ih]

theorem firstIdx_isSome_of_mem (p : Char → Bool) (s : Str) (c : Char) (hc : c ∈ s)
    (hp : p c = true) : ∃ i, firstIdx p s = some i := by
  cases h : firstIdx p s with
  | some i => exact ⟨i, rfl⟩
  | none =>
    have := (firstIdx_none_iff p s).1 h c hc
    rw [hp] at this
    exact absurd this (by simp)

/-- Before the first match nothing matches. -/
theorem firstIdx_take (p : Char → Bool) (s : Str) (i : Nat) (h : firstIdx p s = some i) :
    s.take i = s.takeWhile (fun c => !p c) ∧ s.drop i = s.dropWhile (fun c => !p c) := by
  induction s generalizing i with
  | nil => simp [firstIdx] at h
  | cons c cs ih =>
    unfold firstIdx at h
    by_cases hc : p c = true
    · simp [hc] at h
      subst h
      simp [List.takeWhile, List.dropWhile, hc]
    · simp [hc] at h
      obtain ⟨j, hj, rfl⟩ := h
      obtain ⟨h1, h2⟩ := ih j hj
      simp [List.takeWhile, List.dropWhile, hc, h1, h2]

theorem lastIdx_lt (p : Char → Bool) (s : Str) (i : Nat) (h : lastIdx p s = some i) :
    i < s.length := by
  induction s generalizing i with
  | nil => simp [lastIdx] at h
  | cons c cs ih =>
    unfold lastIdx at h
    cases hl : lastIdx p cs with
    | some j =>
      simp [hl] at h
      subst h
      have := ih j hl
      simp
      omega
    | none =>
      simp [hl] at h
      obtain ⟨_, rfl⟩ := h
      simp

theorem lastIdx_get (p : Char → Bool) (s : Str) (i : Nat) (h : lastIdx p s = some i) :
    ∃ c, s.get? i = some c ∧ p c = true := by
  induction s generalizing i with
  | nil => simp [lastIdx] at h
  | cons c cs ih =>
    unfold lastIdx at h
    cases hl : lastIdx p cs with
    | some j =>
      simp [hl] at h
      subst h
      obtain ⟨d, hd, hpd⟩ := ih j hl
      exact ⟨d, by simpa using hd, hpd⟩
    | none =>
      simp [hl] at h
      obtain ⟨hc, rfl⟩ := h
      exact ⟨c, by simp, hc⟩

theorem lastIdx_none_iff (p : Char → Bool) (s : Str) :
    lastIdx p s = none ↔ ∀ c ∈ s, p c = false := by
  induction s with
  | nil => simp [lastIdx]
  | cons c cs ih =>
    unfold lastIdx
    cases hl : lastIdx p cs with
    | some j =>
      have hne : ¬ (∀ d ∈ cs, p d = false) := by
        rw [← ih, hl]
        simp
      simp only [false_iff, reduceCtorEq]
      intro hall
      exact hne (fun d hd => hall d (List.mem_cons_of_mem c hd))
    | none =>
      have := ih.1 hl
      by_cases hc : p c = true
      · simp [hc]
      · simp [hc]
        simpa using this

theorem firstIdx_le_lastIdx (p : Char → Bool) (s : Str) (i j : Nat)
    (hi : firstIdx p s = some i) (hj : lastIdx p s = some j) : i ≤ j := by
  induction s generalizing i j with
  | nil => simp [firstIdx] at hi
  | cons c cs ih =>
    unfold firstIdx at hi
    unfold lastIdx at hj
    by_cases hc : p c = true
    · simp [hc] at hi
      omega
    · simp [hc] at hi
      obtain ⟨i', hi', rfl⟩ := hi
      cases hl : lastIdx p cs with
      | some j' =>
        simp [hl] at hj
        subst hj
        have := ih i' j' hi' hl
        omega
      | none =>
        have := (lastIdx_none_iff p cs).1 hl
        have h2 := (firstIdx_none_iff p cs).2 this
        rw [h2] at hi'
        exact absurd hi' (by simp)

theorem lastIdx_isSome_of_firstIdx (p : Char → Bool) (s : Str) (i : Nat)
    (hi : firstIdx p s = some i) : ∃ j, lastIdx p s = some j := by
  cases h : lastIdx p s with
  | some j => exact ⟨j, rfl⟩
  | none =>
    have := (firstIdx_none_iff p s).2 ((lastIdx_none_iff p s).1 h)
    rw [this] at hi
    exact absurd hi (by simp)

theorem substr_ok (s : Str) (pos len : Nat) (h : pos ≤ s.length) :
    substr s pos len = .ok ((s.drop pos).take len) := by
  simp [substr, Nat.not_lt.2 h]

theorem substrFrom_ok (s : Str) (pos : Nat) (h : pos ≤ s.length) :
    substrFrom s pos = .ok (s.drop pos) := by
  simp [substrFrom, Nat.not_lt.2 h]

theorem sizeSub_ok (a b : Nat) (h : b ≤ a) : sizeSub a b = .ok (a - b) := by
  simp [sizeSub, h]

theorem strFind_bounds (s : Str) (c : Char) (pos i : Nat) (h : strFind s c pos = some i) :
    pos ≤ i ∧ i < s.length ∧ s.get? i = some c := by
  unfold strFind at h
  simp at h
  obtain ⟨j, hj, rfl⟩ := h
  have h1 := firstIdx_lt _ _ _ hj
  obtain ⟨d, hd, hpd⟩ := firstIdx_get _ _ _ hj
  simp at h1 hpd
  subst hpd
  refine ⟨by omega, by omega, ?_⟩
  simp only [List.get?_eq_getElem?, List.getElem?_drop] at hd ⊢
  rw [Nat.add_comm]
  exact hd

theorem strRfind_bounds (s : Str) (c : Char) (i : Nat) (h : strRfind s c = some i) :
    i < s.length ∧ s.get? i = some c := by
  unfold strRfind at h
  have h1 := lastIdx_lt _ _ _ h
  obtain ⟨d, hd, hpd⟩ := lastIdx_get _ _ _ h
  simp at hpd
  subst hpd
  exact ⟨h1, hd⟩

end Primitives

/-! ## `trim` -/

section Trim

theorem findFirstNotOf_ws (s : Str) :
    findFirstNotOf s whitespace = firstIdx (fun c => !isWs c) s := rfl

theorem findLastNotOf_ws (s : Str) :
    findLastNotOf s whitespace = lastIdx (fun c => !isWs c) s := rfl

/-- The member `trim` never faults; its value is `trimmed`. -/
theorem trim_eq (s : Str) : trim s = .ok (trimmed s) := by
  unfold trim trimmed
  cases hf : findFirstNotOf s whitespace with
  | none => rfl
  | some first =>
    obtain ⟨last, hl⟩ : ∃ j, findLastNotOf s whitespace = some j :=
      lastIdx_isSome_of_firstIdx _ _ _ hf
    have hle := firstIdx_le_lastIdx _ _ _ _ hf hl
    have hlt := firstIdx_lt _ _ _ hf
    simp only [hl, bind, Except.bind, sizeSub_ok _ _ hle]
    exact substr_ok _ _ _ (Nat.le_of_lt hlt)

theorem trimmed_length_le (s : Str) : (trimmed s).length ≤ s.length := by
  unfold trimmed
  split
  · simp only [List.length_take, List.length_drop]
    omega
  · exact Nat.zero_le _

theorem mem_of_mem_trimmed (s : Str) (c : Char) (h : c ∈ trimmed s) : c ∈ s := by
  unfold trimmed at h
  split at h
  · exact List.mem_of_mem_drop (List.mem_of_mem_take h)
  · simp at h

theorem trimmed_of_all_ws (s : Str) (h : ∀ c ∈ s, isWs c = true) : trimmed s = [] := by
  unfold trimmed
  have : findFirstNotOf s whitespace = none := by
    rw [findFirstNotOf_ws, firstIdx_none_iff]
    intro c hc
    simp [h c hc]
  rw [this]

theorem firstIdx_append_left (p : Char → Bool) (a b : Str) (h : ∀ c ∈ a, p c = false) :
    firstIdx p (a ++ b) = (firstIdx p b).map (· + a.length) := by
  induction a with
  | nil => simp
  | cons c cs ih =>
    have hc : p c = false := h c (List.mem_cons_self c cs)
    have ih' := ih (fun d hd => h d (List.mem_cons_of_mem c hd))
    rw [List.cons_append, firstIdx, ih']
    cases hb : firstIdx p b <;> simp [hc, Nat.add_assoc]

theorem firstIdx_cons_true (p : Char → Bool) (c : Char) (s : Str) (h : p c = true) :
    firstIdx p (c :: s) = some 0 := by
  simp [firstIdx, h]

theorem lastIdx_append (p : Char → Bool) (a b : Str) :
    lastIdx p (a ++ b) =
      match lastIdx p b with
      | some j => some (a.length + j)
      | none => lastIdx p a := by
  induction a with
  | nil => cases hb : lastIdx p b <;> simp [lastIdx, hb]
  | cons c cs ih =>
    rw [List.cons_append, lastIdx, ih]
    cases hb : lastIdx p b with
    | some j => simp [Nat.add_assoc, Nat.add_comm, Nat.add_left_comm]
    | none => simp [lastIdx]

theorem lastIdx_concat_true (p : Char → Bool) (a : Str) (c : Char) (h : p c = true) :
    lastIdx p (a ++ [c]) = some a.length := by
  rw [lastIdx_append]
  simp [lastIdx, h]

/-- Trimming removes blank padding around a text that starts and ends with
characters that are not blank. -/
theorem trimmed_pad_ends (w1 w2 m : Str) (c d : Char) (cs : Str)
    (hw1 : ∀ x ∈ w1, isWs x = true) (hw2 : ∀ x ∈ w2, isWs x = true)
    (hmd : c :: cs = m ++ [d]) (hc : isWs c = false) (hd : isWs d = false) :
    trimmed (w1 ++ (c :: cs) ++ w2) = c :: cs := by
  have hfirst : findFirstNotOf (w1 ++ (c :: cs) ++ w2) whitespace = some w1.length := by
    rw [findFirstNotOf_ws, List.append_assoc, firstIdx_append_left _ _ _ (by
      intro x hx
      simp [hw1 x hx])]
    simp [firstIdx, hc]
  have hlast : findLastNotOf (w1 ++ (c :: cs) ++ w2) whitespace =
      some (w1.length + m.length) := by
    rw [findLastNotOf_ws, lastIdx_append]
    have h2 : lastIdx (fun c => !isWs c) w2 = none := by
      rw [lastIdx_none_iff]
      intro x hx
      simp [hw2 x hx]
    rw [h2, hmd, ← List.append_assoc, lastIdx_concat_true _ _ _ (by simp [hd])]
    simp
  unfold trimmed
  rw [hfirst, hlast]
  have hlen : w1.length + m.length - w1.length + 1 = (c :: cs).length := by
    rw [hmd]
    simp
  simp only [hlen, List.append_assoc, List.drop_left, List.take_left]

/-- Trimming removes blank padding around a text without blanks. -/
theorem trimmed_pad (w1 n w2 : Str) (hw1 : ∀ c ∈ w1, isWs c = true)
    (hw2 : ∀ c ∈ w2, isWs c = true) (hn : ∀ c ∈ n, isWs c = false) :
    trimmed (w1 ++ n ++ w2) = n := by
  cases n with
  | nil =>
    simp only [List.append_nil]
    apply trimmed_of_all_ws
    intro c hc
    rcases List.mem_append.1 hc with h | h
    · exact hw1 c h
    · exact hw2 c h
  | cons c cs =>
    obtain ⟨m, d, hmd⟩ : ∃ m d, c :: cs = m ++ [d] :=
      ⟨(c :: cs).dropLast, (c :: cs).getLast (by simp),
        (List.dropLast_append_getLast (by simp)).symm⟩
    exact trimmed_pad_ends w1 w2 m c d cs hw1 hw2 hmd (hn c (List.mem_cons_self c cs))
      (hn d (by rw [hmd]; simp))

theorem trimmed_self (n : Str) (hn : ∀ c ∈ n, isWs c = false) : trimmed n = n := by
  have := trimmed_pad [] n [] (by simp) (by simp) hn
  simpa using this

/-- A trimmed text is empty or starts with a character that is not blank. -/
theorem trimmed_head (s : Str) (c : Char) (r : Str) (h : trimmed s = c :: r) :
    isWs c = false := by
  unfold trimmed at h
  split at h
  · rename_i first last hf hl
    obtain ⟨d, hd, hpd⟩ := firstIdx_get _ _ _ hf
    have : (List.take (last - first + 1) (List.drop first s)).get? 0 = some c := by
      rw [h]
      rfl
    simp only [List.get?_eq_getElem?] at this hd
    rw [List.getElem?_take_of_lt (by omega), List.getElem?_drop] at this
    simp only [Nat.add_zero] at this
    rw [hd] at this
    cases this
    simpa [isWs] using hpd
  · simp at h

theorem firstIdx_le_of_get (p : Char → Bool) (s : Str) (i k : Nat) (c : Char)
    (hi : firstIdx p s = some i) (hk : s.get? k = some c) (hp : p c = true) : i ≤ k := by
  induction s generalizing i k with
  | nil => simp [firstIdx] at hi
  | cons d ds ih =>
    unfold firstIdx at hi
    by_cases hd : p d = true
    · simp [hd] at hi
      omega
    · simp [hd] at hi
      obtain ⟨j, hj, rfl⟩ := hi
      cases k with
      | zero =>
        simp at hk
        subst hk
        exact absurd hp hd
      | succ k =>
        have := ih j k hj (by simpa using hk)
        omega

theorem lastIdx_ge_of_get (p : Char → Bool) (s : Str) (j k : Nat) (c : Char)
    (hj : lastIdx p s = some j) (hk : s.get? k = some c) (hp : p c = true) : k ≤ j := by
  induction s generalizing j k with
  | nil => simp [lastIdx] at hj
  | cons d ds ih =>
    unfold lastIdx at hj
    cases hl : lastIdx p ds with
    | some j' =>
      simp [hl] at hj
      subst hj
      cases k with
      | zero => omega
      | succ k =>
        have := ih j' k hl (by simpa using hk)
        omega
    | none =>
      simp [hl] at hj
      obtain ⟨_, rfl⟩ := hj
      cases k with
      | zero => omega
      | succ k =>
        have hall := (lastIdx_none_iff p ds).1 hl c (List.get?_mem (n := k) (by simpa using hk))
        rw [hp] at hall
        exact absurd hall (by simp)

/-- A character that is not blank survives trimming. -/
theorem mem_trimmed_of_mem (s : Str) (c : Char) (hc : c ∈ s) (hw : isWs c = false) :
    c ∈ trimmed s := by
  obtain ⟨k, hk⟩ := List.get?_of_mem hc
  have hp : (fun c => !isWs c) c = true := by simp [hw]
  obtain ⟨first, hf⟩ : ∃ i, findFirstNotOf s whitespace = some i :=
    firstIdx_isSome_of_mem (fun c => !isWs c) s c hc hp
  obtain ⟨last, hl⟩ : ∃ j, findLastNotOf s whitespace = some j :=
    lastIdx_isSome_of_firstIdx _ _ _ hf
  have h1 := firstIdx_le_of_get _ s first k c hf hk hp
  have h2 := lastIdx_ge_of_get _ s last k c hl hk hp
  unfold trimmed
  rw [hf, hl]
  apply List.getElem?_mem (n := k - first)
  simp only [List.get?_eq_getElem?] at hk
  rw [List.getElem?_take_of_lt (by omega), List.getElem?_drop, ← hk]
  congr 1
  omega

end Trim

/-! ## Totality of the parser -/

section Totality

theorem charAt_ok (s : Str) (i : Nat) (h : i < s.length) : ∃ c, charAt s i = .ok c := by
  unfold charAt
  cases hg : s.get? i with
  | some c => exact ⟨c, rfl⟩
  | none =>
    rw [List.get?_eq_none] at hg
    omega

theorem processArgument_ok (argStr : Str) (args : StrMap) :
    ∃ r, processArgument argStr args = .ok r := by
  unfold processArgument
  simp only [trim_eq, bind, Except.bind, pure, Except.pure]
  split
  · exact ⟨_, rfl⟩
  · cases hc : strFind (trimmed argStr) ':' with
    | none => exact ⟨_, rfl⟩
    | some colonPos =>
      obtain ⟨_, hlt, _⟩ := strFind_bounds _ _ _ _ hc
      simp only [substr_ok _ 0 colonPos (Nat.zero_le _), substrFrom_ok _ (colonPos + 1) hlt]
      generalize trimmed (List.drop (colonPos + 1) (trimmed argStr)) = value
      generalize trimmed (List.take colonPos (List.drop 0 (trimmed argStr))) = key
      have hkey : ∀ v : Str, ∃ r, (if (!key.isEmpty) = true then
          (Except.ok (args.assign key v) : Except String StrMap) else Except.ok args) =
          .ok r := by
        intro v
        split <;> exact ⟨_, rfl⟩
      by_cases h2 : value.length ≥ 2
      · obtain ⟨c0, hc0⟩ := charAt_ok value 0 (by omega)
        obtain ⟨cl, hcl⟩ := charAt_ok value (value.length - 1) (by omega)
        simp only [h2, if_true, hc0, sizeSub_ok value.length 1 (by omega), hcl]
        generalize (c0 == Char.ofNat 34 && cl == Char.ofNat 34 ||
          c0 == Char.ofNat 39 && cl == Char.ofNat 39) = quoted
        cases quoted with
        | true =>
          simp only [if_true, sizeSub_ok value.length 2 h2,
            substr_ok value 1 (value.length - 2) (by omega)]
          exact hkey _
        | false =>
          simp only [Bool.false_eq_true, if_false]
          exact hkey _
      · simp only [h2, if_false, Bool.false_eq_true]
        exact hkey _

theorem parseArgumentsLoop_ok (chars : Str) (depth : Int) (currentArg : Str) (args : StrMap) :
    ∃ r, parseArgumentsLoop chars depth currentArg args = .ok r := by
  induction chars generalizing depth currentArg args with
  | nil =>
    unfold parseArgumentsLoop
    simp only [trim_eq, bind, Except.bind, pure, Except.pure]
    split
    · exact processArgument_ok _ _
    · exact ⟨_, rfl⟩
  | cons c rest ih =>
    unfold parseArgumentsLoop
    split
    · exact ih _ _ _
    · split
      · split
        · obtain ⟨a, ha⟩ := processArgument_ok (currentArg ++ [c]) args
          simp only [ha, bind, Except.bind]
          exact ih _ _ _
        · exact ih _ _ _
      · split
        · simp only [trim_eq, bind, Except.bind, pure, Except.pure]
          split
          · obtain ⟨a, ha⟩ := processArgument_ok currentArg args
            simp only [ha]
            exact ih _ _ _
          · exact ih _ _ _
        · exact ih _ _ _

theorem parseArguments_ok (argsStr : Str) : ∃ r, parseArguments argsStr = .ok r := by
  unfold parseArguments
  simp only [trim_eq, bind, Except.bind, pure, Except.pure]
  split
  · exact ⟨_, rfl⟩
  · exact parseArgumentsLoop_ok _ _ _ _

theorem splitAtColon_ok (t : Str) :
    ∃ b a, splitAtColon t = .ok (b, a) ∧ a.length ≤ t.length := by
  unfold splitAtColon
  cases hc : strFind t ':' with
  | none => exact ⟨t, [], rfl, Nat.zero_le _⟩
  | some colonPos =>
    obtain ⟨_, hlt, _⟩ := strFind_bounds _ _ _ _ hc
    simp only [substr_ok _ 0 colonPos (Nat.zero_le _), substrFrom_ok _ (colonPos + 1) hlt,
      bind, Except.bind, pure, Except.pure]
    exact ⟨_, _, rfl, by simp⟩

theorem aliasAndName_ok (field : GraphQLField) (beforeColon : Str) :
    ∃ f, aliasAndName field beforeColon = .ok f := by
  unfold aliasAndName
  cases hc : strFind beforeColon ':' with
  | none => exact ⟨_, rfl⟩
  | some aliasPos =>
    obtain ⟨_, hlt, _⟩ := strFind_bounds _ _ _ _ hc
    simp only [substr_ok _ 0 aliasPos (Nat.zero_le _), substrFrom_ok _ (aliasPos + 1) hlt,
      trim_eq, bind, Except.bind, pure, Except.pure]
    exact ⟨_, rfl⟩

theorem extractArguments_ok (field : GraphQLField) :
    ∃ f, extractArguments field = .ok f := by
  cases ho : strFind field.name '(' with
  | none => exact ⟨field, by simp only [extractArguments, ho]; rfl⟩
  | some parenOpen =>
    cases hc : strFind field.name ')' parenOpen with
    | none => exact ⟨field, by simp only [extractArguments, ho, hc]; rfl⟩
    | some parenClose =>
      obtain ⟨_, holt, hoget⟩ := strFind_bounds _ _ _ _ ho
      obtain ⟨hle, hclt, hcget⟩ := strFind_bounds _ _ _ _ hc
      have hne : parenOpen ≠ parenClose := by
        intro h
        rw [h, hcget] at hoget
        exact absurd hoget (by decide)
      have h1 : parenOpen ≤ parenClose := hle
      have h2 : 1 ≤ parenClose - parenOpen := by omega
      obtain ⟨a, ha⟩ := parseArguments_ok
        (List.take (parenClose - parenOpen - 1) (List.drop (parenOpen + 1) field.name))
      simp only [extractArguments, ho, hc, sizeSub_ok _ _ h1, sizeSub_ok _ _ h2,
        substr_ok _ (parenOpen + 1) _ holt, substr_ok _ 0 parenOpen (Nat.zero_le _), ha, bind,
        Except.bind, pure, Except.pure]
      exact ⟨_, rfl⟩

theorem subFieldsText_length (afterColon sub : Str) (h : subFieldsText afterColon = some sub) :
    sub.length < afterColon.length := by
  unfold subFieldsText at h
  cases afterColon with
  | nil => simp at h
  | cons c cs =>
    have : sub.length ≤ cs.length := by
      split at h
      · simp at h
      · split at h
        · simp at h
          rw [← h]
          exact le_trans (List.length_take_le' _ _) (by simp)
        · simp at h
    simp
    omega

/-- The sub-selection step calls `parseFields` at most once, on
`subFieldsText`. -/
theorem extractSubFields_eq (pf : Str → Except String (List GraphQLField))
    (field : GraphQLField) (afterColon : Str) :
    extractSubFields pf field afterColon =
      match subFieldsText afterColon with
      | some sub =>
        match pf sub with
        | .ok subFields => .ok { field with subFields := subFields }
        | .error e => .error e
      | none => .ok field := by
  unfold extractSubFields subFieldsText
  by_cases he : afterColon.isEmpty = true
  · simp [he]
    rfl
  · simp only [he]
    cases hb : strFind afterColon '{' with
    | none => rfl
    | some b =>
      cases b with
      | succ n => rfl
      | zero =>
        cases hl : strRfind afterColon '}' with
        | none => rfl
        | some lastBrace =>
          obtain ⟨_, hblt, hbget⟩ := strFind_bounds _ _ _ _ hb
          obtain ⟨_, hlget⟩ := strRfind_bounds _ _ _ hl
          have h1 : 1 ≤ lastBrace := by
            cases lastBrace with
            | zero =>
              rw [hlget] at hbget
              exact absurd hbget (by decide)
            | succ n => omega
          simp only [sizeSub_ok _ _ h1, substr_ok _ 1 _ hblt, bind, Except.bind, pure,
            Except.pure, Bool.not_false, if_true, Bool.false_eq_true, if_false]
          cases pf (List.take (lastBrace - 1) (List.drop 1 afterColon)) <;> rfl

end Totality

section Recursion

/-- The shape of `parseSingleField`: either it returns the blank field, or
everything but the sub-selection is settled without `parseFields`, and the
sub-selection is looked for in a text that is not longer than the input. -/
theorem parseSingleFieldWith_shape (t : Str) :
    (∀ pf, parseSingleFieldWith pf t = .ok blankField) ∨
    ∃ field afterColon, afterColon.length ≤ t.length ∧
      ∀ pf, parseSingleFieldWith pf t = extractSubFields pf field afterColon := by
  by_cases hret : ((trimmed t).isEmpty || trimmed t == ['{', '}']) = true
  · left
    intro pf
    simp only [parseSingleFieldWith, trim_eq, bind, Except.bind, pure, Except.pure, hret,
      if_true]
    rfl
  · right
    obtain ⟨b, a, hsplit, hlen⟩ := splitAtColon_ok (trimmed t)
    obtain ⟨f1, hf1⟩ := aliasAndName_ok blankField (trimmed b)
    obtain ⟨f2, hf2⟩ := extractArguments_ok f1
    refine ⟨f2, trimmed a, ?_, ?_⟩
    · exact le_trans (trimmed_length_le a) (le_trans hlen (trimmed_length_le t))
    · intro pf
      unfold blankField at hf1
      simp only [parseSingleFieldWith, trim_eq, bind, Except.bind, pure, Except.pure, hret,
        hsplit, hf1, hf2]
      rfl

theorem parseSingleFieldWith_ok (pf : Str → Except String (List GraphQLField))
    (t : Str) (h : ∀ u : Str, u.length < t.length → ∃ r, pf u = .ok r) :
    ∃ f, parseSingleFieldWith pf t = .ok f := by
  rcases parseSingleFieldWith_shape t with hb | ⟨field, ac, hlen, hs⟩
  · exact ⟨_, hb pf⟩
  · rw [hs, extractSubFields_eq]
    cases hsub : subFieldsText ac with
    | none => exact ⟨_, rfl⟩
    | some sub =>
      have := subFieldsText_length ac sub hsub
      obtain ⟨r, hr⟩ := h sub (by omega)
      simp only [hr]
      exact ⟨_, rfl⟩

theorem addField_ok (psf : Str → Except String GraphQLField) (cur : Str)
    (fields : List GraphQLField) (h : ∃ f, psf cur = .ok f) :
    ∃ r, addField psf cur fields = .ok r := by
  obtain ⟨f, hf⟩ := h
  unfold addField
  simp only [trim_eq, hf, bind, Except.bind, pure, Except.pure]
  split
  · split <;> exact ⟨_, rfl⟩
  · exact ⟨_, rfl⟩

theorem parseFieldsLoop_ok (psf : Str → Except String GraphQLField) (chars : Str)
    (depth : Int) (cur : Str) (fields : List GraphQLField)
    (h : ∀ u : Str, u.length ≤ cur.length + chars.length → ∃ f, psf u = .ok f) :
    ∃ r, parseFieldsLoop psf chars depth cur fields = .ok r := by
  induction chars generalizing depth cur fields with
  | nil =>
    unfold parseFieldsLoop
    exact addField_ok _ _ _ (h cur (by simp))
  | cons c rest ih =>
    have hnext : ∀ d fs, ∃ r, parseFieldsLoop psf rest d (cur ++ [c]) fs = .ok r := by
      intro d fs
      apply ih
      intro u hu
      apply h
      simp at hu ⊢
      omega
    have hreset : ∀ d fs, ∃ r, parseFieldsLoop psf rest d [] fs = .ok r := by
      intro d fs
      apply ih
      intro u hu
      apply h
      simp at hu ⊢
      omega
    unfold parseFieldsLoop
    split
    · exact hnext _ _
    · split
      · split
        · obtain ⟨fs, hfs⟩ := addField_ok psf (cur ++ [c]) fields (h _ (by simp))
          simp only [hfs, bind, Except.bind]
          exact hreset _ _
        · exact hnext _ _
      · split
        · obtain ⟨fs, hfs⟩ := addField_ok psf cur fields (h _ (by simp))
          simp only [hfs, bind, Except.bind]
          exact hreset _ _
        · exact hnext _ _

/-- The recursion bound is never reached when it exceeds the length of the
text. -/
theorem parseFieldsFuel_ok (fuel : Nat) (s : Str) (h : s.length < fuel) :
    ∃ r, parseFieldsFuel fuel s = .ok r := by
  induction fuel generalizing s with
  | zero => omega
  | succ n ih =>
    unfold parseFieldsFuel
    apply parseFieldsLoop_ok
    intro u hu
    apply parseSingleFieldWith_ok
    intro v hv
    apply ih
    simp at hu
    omega

theorem parseFields_ok (s : Str) : ∃ r, parseFields s = .ok r :=
  parseFieldsFuel_ok _ s (Nat.lt_succ_self _)

theorem parseSingleField_ok (s : Str) : ∃ f, parseSingleField s = .ok f := by
  unfold parseSingleField
  apply parseSingleFieldWith_ok
  intro u hu
  exact parseFieldsFuel_ok _ u hu

end Recursion

section ParseQuery

theorem strFind_zero (s : Str) (c : Char) : strFind s c = firstIdx (· == c) s := by
  simp [strFind]

theorem strFind_none_of_not_mem (s : Str) (c : Char) (h : c ∉ s) : strFind s c = none := by
  rw [strFind_zero, firstIdx_none_iff]
  intro d hd
  simp only [beq_eq_false_iff_ne, ne_eq]
  intro hdc
  exact h (hdc ▸ hd)

theorem strFind_isSome_of_mem (s : Str) (c : Char) (h : c ∈ s) : ∃ i, strFind s c = some i := by
  rw [strFind_zero]
  exact firstIdx_isSome_of_mem _ s c h (by simp)

theorem dropWhile_of_head (p : Char → Bool) (c : Char) (r : Str) (h : p c = false) :
    (c :: r).dropWhile p = c :: r := by
  simp [List.dropWhile, h]

theorem takeWhile_take_of_mem (p : Char → Bool) (l : Str) (m : Nat) (c : Char)
    (hc : c ∈ l.take m) (hp : p c = false) : (l.take m).takeWhile p = l.takeWhile p := by
  induction l generalizing m with
  | nil => simp
  | cons d ds ih =>
    cases m with
    | zero => simp at hc
    | succ m =>
      simp only [List.take_succ_cons, List.takeWhile]
      by_cases hd : p d = true
      · simp only [hd]
        congr 1
        apply ih
        simp only [List.take_succ_cons, List.mem_cons] at hc
        rcases hc with h | h
        · subst h
          rw [hp] at hd
          exact absurd hd (by simp)
        · exact h
      · simp [hd]

/-- The kind token of a text with a brace can be read off its trimmed form. -/
theorem kindToken_trimmed (q : Str) (hq : '{' ∈ q) : kindToken (trimmed q) = kindToken q := by
  have hmem : '{' ∈ trimmed q := mem_trimmed_of_mem q '{' hq (by decide)
  unfold kindToken
  cases ht : trimmed q with
  | nil => rw [ht] at hmem; simp at hmem
  | cons c r =>
    have hc := trimmed_head q c r ht
    have ht0 := ht
    rw [dropWhile_of_head _ c r hc]
    unfold trimmed at ht
    split at ht
    · rename_i first last hf hl
      have hdrop : q.drop first = q.dropWhile isWs := by
        have h2 := (firstIdx_take (fun c => !isWs c) q first hf).2
        simpa only [Bool.not_not] using h2
      rw [hdrop] at ht
      rw [← ht]
      apply takeWhile_take_of_mem _ _ _ '{'
      · rw [ht, ← ht0]
        exact hmem
      · decide
    · simp at ht

theorem parseOperationType_eq (t : Str) (braceOpen : Nat)
    (hb : strFind t '{' = some braceOpen) :
    ∃ start e, findFirstNotOf t whitespace = some start ∧ start ≤ e ∧ e ≤ braceOpen ∧
      parseOperationType t (some start) = .ok (classifyKind (kindToken t), some e) := by
  obtain ⟨_, hblt, hbget⟩ := strFind_bounds _ _ _ _ hb
  have hbmem : '{' ∈ t := List.get?_mem hbget
  obtain ⟨start, hs⟩ : ∃ i, findFirstNotOf t whitespace = some i :=
    firstIdx_isSome_of_mem (fun c => !isWs c) t '{' hbmem (by decide)
  have hsb : start ≤ braceOpen :=
    firstIdx_le_of_get (fun c => !isWs c) t start braceOpen '{' hs hbget (by decide)
  have hdrop : t.drop start = t.dropWhile isWs := by
    have h2 := (firstIdx_take (fun c => !isWs c) t start hs).2
    simpa only [Bool.not_not] using h2
  have hget2 : (t.drop start).get? (braceOpen - start) = some '{' := by
    simp only [List.get?_eq_getElem?, List.getElem?_drop] at hbget ⊢
    rw [← hbget]
    congr 1
    omega
  obtain ⟨k, hk⟩ := firstIdx_isSome_of_mem (fun c => kindDelimiters.contains c) (t.drop start)
    '{' (List.get?_mem hget2) (by decide)
  have hkb : k ≤ braceOpen - start :=
    firstIdx_le_of_get _ _ k _ '{' hk hget2 (by decide)
  have htake := (firstIdx_take _ _ k hk).1
  have he : findFirstOf t ['(', '{', ' ', '\t', '\n', '\r'] start = some (k + start) := by
    unfold findFirstOf
    unfold kindDelimiters at hk
    rw [hk]
    rfl
  refine ⟨start, k + start, hs, by omega, by omega, ?_⟩
  unfold parseOperationType
  simp only [he, bind, Except.bind, sizeSub_ok (k + start) start (by omega),
    substr_ok t start _ (by omega : start ≤ t.length), Nat.add_sub_cancel, htake]
  have htok : List.takeWhile (fun c => !kindDelimiters.contains c) (List.drop start t) =
      kindToken t := by
    unfold kindToken
    rw [hdrop]
  rw [htok]
  unfold classifyKind
  split
  · rfl
  · split <;> rfl

theorem parseOperationName_ok (t : Str) (braceOpen start e : Nat) (he : e ≤ t.length) :
    ∃ name, parseOperationName t braceOpen (some start) (some e) = .ok name := by
  unfold parseOperationName
  simp only [bind, Except.bind, pure, Except.pure]
  split
  · rename_i hgt
    simp only [sizeSub_ok _ _ (Nat.le_of_lt hgt), substr_ok t e _ he, trim_eq]
    split <;> exact ⟨_, rfl⟩
  · exact ⟨_, rfl⟩

theorem selectionText_ok (t : Str) (braceOpen : Nat) (hb : braceOpen < t.length) :
    ∃ text, selectionText t braceOpen = .ok text := by
  unfold selectionText
  simp only [substrFrom_ok t (braceOpen + 1) hb, bind, Except.bind, pure, Except.pure]
  split
  · exact ⟨_, substr_ok _ 0 _ (Nat.zero_le _)⟩
  · exact ⟨_, rfl⟩

/-- A text with a brace: `parseQuery` returns, and the operation type is the
classification of the kind token. -/
theorem parseQuery_of_brace (q : Str) (hq : '{' ∈ q) :
    ∃ name fields, parseQuery q =
      .ok { type := classifyKind (kindToken q), name := name, fields := fields,
            variables_ := [] } := by
  have hmem : '{' ∈ trimmed q := mem_trimmed_of_mem q '{' hq (by decide)
  obtain ⟨braceOpen, hb⟩ := strFind_isSome_of_mem _ _ hmem
  obtain ⟨_, hblt, _⟩ := strFind_bounds _ _ _ _ hb
  obtain ⟨start, e, hs, hse, heb, hty⟩ := parseOperationType_eq _ _ hb
  obtain ⟨name, hname⟩ := parseOperationName_ok (trimmed q) braceOpen start e (by omega)
  obtain ⟨text, htext⟩ := selectionText_ok (trimmed q) braceOpen hblt
  obtain ⟨fields, hfields⟩ := parseFields_ok text
  refine ⟨name, fields, ?_⟩
  unfold parseQuery
  simp only [trim_eq, bind, Except.bind, pure, Except.pure, hb, hs, hty, hname, htext,
    hfields, kindToken_trimmed q hq]

/-- A text without a brace: `parseQuery` returns the initial operation. -/
theorem parseQuery_of_no_brace (q : Str) (hq : '{' ∉ q) :
    parseQuery q = .ok { type := "query".toList, name := [], fields := [], variables_ := [] } := by
  have hmem : '{' ∉ trimmed q := fun h => hq (mem_of_mem_trimmed q _ h)
  unfold parseQuery
  simp only [trim_eq, bind, Except.bind, pure, Except.pure,
    strFind_none_of_not_mem _ _ hmem]

end ParseQuery

section FieldLists

theorem isSimpleName_facts (n : Str) (h : isSimpleName n = true) :
    n ≠ [] ∧ ∀ c ∈ n, isWs c = false ∧ c ≠ '{' ∧ c ≠ '}' ∧ c ≠ ',' ∧ c ≠ ':' ∧ c ≠ '(' ∧
      c ≠ ')' := by
  unfold isSimpleName at h
  simp only [Bool.and_eq_true, Bool.not_eq_true', List.isEmpty_eq_false, List.all_eq_true] at h
  refine ⟨h.1, ?_⟩
  intro c hc
  have hcc := h.2 c hc
  simp only [nameBreakers, List.contains_cons, List.contains_nil, Bool.or_false,
    Bool.not_eq_true', Bool.or_eq_false_iff, beq_eq_false_iff_ne, ne_eq] at hcc
  refine ⟨?_, hcc.2.2.2.2.1, hcc.2.2.2.2.2.1, hcc.2.2.2.2.2.2.1, hcc.2.2.2.2.2.2.2.1,
    hcc.2.2.2.2.2.2.2.2.1, hcc.2.2.2.2.2.2.2.2.2⟩
  simp only [isWs, whitespace, List.contains_cons, List.contains_nil, Bool.or_false,
    Bool.or_eq_false_iff, beq_eq_false_iff_ne, ne_eq]
  exact ⟨hcc.1, hcc.2.1, hcc.2.2.1, hcc.2.2.2.1⟩

/-- A field definition that is a simple name between blanks gives the field
of that name. -/
theorem parseSingleFieldWith_simple (pf : Str → Except String (List GraphQLField))
    (t n : Str) (ht : trimmed t = n) (hn : isSimpleName n = true) :
    parseSingleFieldWith pf t = .ok (simpleField n) := by
  obtain ⟨hne, hall⟩ := isSimpleName_facts n hn
  have hcolon : strFind n ':' = none :=
    strFind_none_of_not_mem _ _ (fun h => (hall _ h).2.2.2.2.1 rfl)
  have hparen : strFind n '(' = none :=
    strFind_none_of_not_mem _ _ (fun h => (hall _ h).2.2.2.2.2.1 rfl)
  have hself : trimmed n = n := trimmed_self n (fun c hc => (hall c hc).1)
  have hret : (n.isEmpty || n == ['{', '}']) = false := by
    cases n with
    | nil => exact absurd rfl hne
    | cons c cs =>
      have hc := (hall c (List.mem_cons_self c cs)).2.1
      simp [hc]
  have hnil : trimmed [] = [] := rfl
  simp only [parseSingleFieldWith, trim_eq, ht, hret, bind, Except.bind, pure, Except.pure,
    splitAtColon, hcolon, hself, aliasAndName, extractArguments, hparen, hnil,
    extractSubFields]
  rfl

theorem addField_simple (pf : Str → Except String (List GraphQLField)) (cur n : Str)
    (fields : List GraphQLField) (ht : trimmed cur = n) (hn : isSimpleName n = true) :
    addField (parseSingleFieldWith pf) cur fields = .ok (fields ++ [simpleField n]) := by
  obtain ⟨hne, _⟩ := isSimpleName_facts n hn
  have he : n.isEmpty = false := by
    cases n with
    | nil => exact absurd rfl hne
    | cons c cs => rfl
  simp only [addField, trim_eq, ht, he, parseSingleFieldWith_simple pf cur n ht hn, bind,
    Except.bind, pure, Except.pure, simpleField]
  rfl

theorem addField_blank (psf : Str → Except String GraphQLField) (cur : Str)
    (fields : List GraphQLField) (ht : trimmed cur = []) :
    addField psf cur fields = .ok fields := by
  simp only [addField, trim_eq, ht, bind, Except.bind, pure, Except.pure]
  rfl

/-- Characters other than braces and commas are appended to the current
field definition. -/
theorem parseFieldsLoop_scan (psf : Str → Except String GraphQLField) (seg rest : Str)
    (depth : Int) (cur : Str) (fields : List GraphQLField)
    (hseg : ∀ c ∈ seg, c ≠ '{' ∧ c ≠ '}' ∧ c ≠ ',') :
    parseFieldsLoop psf (seg ++ rest) depth cur fields =
      parseFieldsLoop psf rest depth (cur ++ seg) fields := by
  induction seg generalizing cur with
  | nil => simp
  | cons c cs ih =>
    obtain ⟨h1, h2, h3⟩ := hseg c (List.mem_cons_self c cs)
    have e1 : (c == '{') = false := by simpa using h1
    have e2 : (c == '}') = false := by simpa using h2
    have e3 : (c == ',') = false := by simpa using h3
    rw [List.cons_append, parseFieldsLoop]
    simp only [e1, e2, e3, Bool.false_and, Bool.false_eq_true, if_false]
    rw [ih _ (fun d hd => hseg d (List.mem_cons_of_mem c hd))]
    simp

/-- An item of a comma list: a simple name, or nothing. -/
theorem item_facts (i : Str) (hi : isSimpleName i = true ∨ i = []) :
    (∀ c ∈ i, isWs c = false) ∧ (∀ c ∈ i, c ≠ '{' ∧ c ≠ '}' ∧ c ≠ ',') := by
  rcases hi with h | h
  · obtain ⟨_, hall⟩ := isSimpleName_facts i h
    exact ⟨fun c hc => (hall c hc).1,
      fun c hc => ⟨(hall c hc).2.1, (hall c hc).2.2.1, (hall c hc).2.2.2.1⟩⟩
  · subst h
    simp

/-- The field definition ` i` or ` i ` of an item adds the field of that
name, or nothing when the item is empty. -/
theorem addField_item (pf : Str → Except String (List GraphQLField)) (i w : Str)
    (fields : List GraphQLField) (hi : isSimpleName i = true ∨ i = [])
    (hw : ∀ c ∈ w, isWs c = true) :
    addField (parseSingleFieldWith pf) (' ' :: i ++ w) fields =
      .ok (fields ++ ([i].filter (fun n => !n.isEmpty)).map simpleField) := by
  have htrim : trimmed (' ' :: i ++ w) = i := by
    have := trimmed_pad [' '] i w (by simp [isWs, whitespace]) hw (item_facts i hi).1
    simpa using this
  rcases hi with h | h
  · have hne := (isSimpleName_facts i h).1
    have he : i.isEmpty = false := by
      cases i with
      | nil => exact absurd rfl hne
      | cons c cs => rfl
    rw [addField_simple pf _ i fields htrim h]
    simp [List.filter, he]
  · subst h
    rw [addField_blank _ _ _ htrim]
    simp [List.filter]

/-- The loop of `parseFields` on a comma list, started after a blank. -/
theorem parseFieldsLoop_commaList (pf : Str → Except String (List GraphQLField))
    (items : List Str) (fields : List GraphQLField) (hne : items ≠ [])
    (hitems : ∀ i ∈ items, isSimpleName i = true ∨ i = []) :
    parseFieldsLoop (parseSingleFieldWith pf) (commaList items ++ [' ']) 0 [' '] fields =
      .ok (fields ++ (items.filter (fun n => !n.isEmpty)).map simpleField) := by
  induction items generalizing fields with
  | nil => exact absurd rfl hne
  | cons i rest ih =>
    have hi := hitems i (List.mem_cons_self i rest)
    have hscan := (item_facts i hi).2
    cases rest with
    | nil =>
      have hseg : ∀ c ∈ i ++ [' '], c ≠ '{' ∧ c ≠ '}' ∧ c ≠ ',' := by
        intro c hc
        rcases List.mem_append.1 hc with h | h
        · exact hscan c h
        · simp at h
          subst h
          decide
      have := parseFieldsLoop_scan (parseSingleFieldWith pf) (i ++ [' ']) [] 0 [' '] fields hseg
      simp only [List.append_nil] at this
      simp only [commaList]
      rw [this, parseFieldsLoop]
      exact addField_item pf i [' '] fields hi (by simp [isWs, whitespace])
    | cons j more =>
      simp only [commaList]
      rw [List.append_assoc, parseFieldsLoop_scan _ i _ 0 [' '] fields hscan]
      rw [List.cons_append, parseFieldsLoop]
      have hadd := addField_item pf i [] fields hi (by simp)
      simp only [List.append_nil] at hadd
      have hcur : [' '] ++ i = ' ' :: i := rfl
      simp only [hcur, hadd, bind, Except.bind]
      have e1 : ((',' : Char) == '{') = false := by decide
      have e2 : ((',' : Char) == '}') = false := by decide
      simp only [e1, e2, Bool.false_eq_true, if_false, beq_self_eq_true, Bool.true_and,
        if_true]
      rw [List.cons_append, parseFieldsLoop]
      have e3 : ((' ' : Char) == '{') = false := by decide
      have e4 : ((' ' : Char) == '}') = false := by decide
      have e5 : ((' ' : Char) == ',') = false := by decide
      simp only [e3, e4, e5, Bool.false_and, Bool.false_eq_true, if_false, List.nil_append]
      rw [ih _ (by simp) (fun k hk => hitems k (List.mem_cons_of_mem i hk))]
      rw [List.append_assoc, ← List.map_append, ← List.filter_append]
      rfl

theorem mem_commaList (items : List Str) (c : Char) (hc : c ∈ commaList items) :
    c = ',' ∨ c = ' ' ∨ ∃ i ∈ items, c ∈ i := by
  induction items with
  | nil => simp [commaList] at hc
  | cons i rest ih =>
    cases rest with
    | nil =>
      simp only [commaList] at hc
      exact Or.inr (Or.inr ⟨i, by simp, hc⟩)
    | cons j more =>
      simp only [commaList, List.mem_append, List.mem_cons] at hc
      rcases hc with h | h | h | h
      · exact Or.inr (Or.inr ⟨i, by simp, h⟩)
      · exact Or.inl h
      · exact Or.inr (Or.inl h)
      · rcases ih h with h1 | h1 | ⟨k, hk, hck⟩
        · exact Or.inl h1
        · exact Or.inr (Or.inl h1)
        · exact Or.inr (Or.inr ⟨k, List.mem_cons_of_mem i hk, hck⟩)

/-- The parse of `{ i1, i2, ..., ik }`, each item a simple name or nothing. -/
theorem parseQuery_selectionOf (items : List Str) (hne : items ≠ [])
    (hitems : ∀ i ∈ items, isSimpleName i = true ∨ i = []) :
    parseQuery (selectionOf items) =
      .ok { type := "query".toList, name := [],
            fields := (items.filter (fun n => !n.isEmpty)).map simpleField,
            variables_ := [] } := by
  have hq : selectionOf items = '{' :: ((' ' :: commaList items ++ [' ']) ++ ['}']) := by
    simp [selectionOf]
  have htrim : trimmed (selectionOf items) = selectionOf items := by
    have := trimmed_pad_ends [] [] ('{' :: (' ' :: commaList items ++ [' '])) '{' '}'
      ((' ' :: commaList items ++ [' ']) ++ ['}']) (by simp) (by simp) (by simp)
      (by decide) (by decide)
    simp only [List.nil_append, List.append_nil] at this
    rw [hq]
    exact this
  have hparen : strFind (selectionOf items) '(' = none := by
    apply strFind_none_of_not_mem
    intro h
    simp only [selectionOf, List.mem_cons, List.mem_append, List.mem_singleton,
      List.not_mem_nil, or_false] at h
    rcases h with (h | h | h) | h | h
    · exact absurd h (by decide)
    · exact absurd h (by decide)
    · rcases mem_commaList items _ h with h1 | h1 | ⟨i, hi, hci⟩
      · exact absurd h1 (by decide)
      · exact absurd h1 (by decide)
      · rcases hitems i hi with hs | hs
        · exact (isSimpleName_facts i hs).2 _ hci |>.2.2.2.2.2.1 rfl
        · subst hs
          simp at hci
    · exact absurd h (by decide)
    · exact absurd h (by decide)
  have hbrace : strFind (selectionOf items) '{' = some 0 := by
    simp [selectionOf, strFind, firstIdx]
  have hstart : findFirstNotOf (selectionOf items) whitespace = some 0 := by
    rw [hq]
    exact firstIdx_cons_true _ _ _ (by decide)
  have htype : parseOperationType (selectionOf items) (some 0) =
      .ok ("query".toList, some 0) := by
    have he : findFirstOf (selectionOf items) ['(', '{', ' ', '\t', '\n', '\r'] 0 = some 0 := by
      simp [selectionOf, findFirstOf, firstIdx]
    simp only [parseOperationType, he, bind, Except.bind, sizeSub_ok 0 0 (Nat.le_refl 0),
      substr_ok _ 0 0 (Nat.zero_le _), List.take_zero]
    rfl
  have hname : parseOperationName (selectionOf items) 0 (some 0) (some 0) = .ok [] := by
    simp only [parseOperationName, hparen, bind, Except.bind, pure, Except.pure,
      Nat.lt_irrefl, gt_iff_lt, if_false]
  have htext : selectionText (selectionOf items) 0 = .ok (' ' :: commaList items ++ [' ']) := by
    have hr : strRfind ((' ' :: commaList items ++ [' ']) ++ ['}']) '}' =
        some (' ' :: commaList items ++ [' ']).length :=
      lastIdx_concat_true _ _ _ (by decide)
    have hsub : substrFrom ('{' :: ((' ' :: commaList items ++ [' ']) ++ ['}'])) (0 + 1) =
        .ok ((' ' :: commaList items ++ [' ']) ++ ['}']) := by
      rw [substrFrom_ok _ _ (by simp)]
      rfl
    simp only [selectionText, hq, hsub, hr, bind, Except.bind,
      substr_ok _ 0 _ (Nat.zero_le _), List.drop_zero, List.take_left]
  have hfields : parseFields (' ' :: commaList items ++ [' ']) =
      .ok ((items.filter (fun n => !n.isEmpty)).map simpleField) := by
    unfold parseFields parseFieldsFuel
    rw [List.cons_append, parseFieldsLoop]
    have e3 : ((' ' : Char) == '{') = false := by decide
    have e4 : ((' ' : Char) == '}') = false := by decide
    have e5 : ((' ' : Char) == ',') = false := by decide
    simp only [e3, e4, e5, Bool.false_and, Bool.false_eq_true, if_false, List.nil_append]
    rw [parseFieldsLoop_commaList _ items [] hne hitems]
    simp
  unfold parseQuery
  simp only [trim_eq, htrim, bind, Except.bind, pure, Except.pure, hbrace, hstart, htype,
    hname, htext, hfields]

end FieldLists

/-! ## The claim extractor, continued -/

/-- C11, the code at the failing inputs: when the verifier succeeds with the
role id 3, 99 or -1, `extractContext` returns an authenticated identity whose
role is that very value and not `USER` (so that the identity with role 99
passes `hasRole` for `ADMIN`); for every role id, recognised or not, the role
of the identity is the role id, together with the user id and the email of the
claims. -/
theorem C11_role_id_cast_unchecked :
    (AuthorizationContext.extractContext { jwtHandler_ := some (acceptingVerifier 3) } "t" =
      .ok { userId := "7", email := "u7@example.org", role := 3, ip := "", userAgent := "",
            isAuthenticated := true }) ∧
    (AuthorizationContext.extractContext { jwtHandler_ := some (acceptingVerifier 99) } "t" =
      .ok { userId := "7", email := "u7@example.org", role := 99, ip := "", userAgent := "",
            isAuthenticated := true }) ∧
    (AuthorizationContext.extractContext { jwtHandler_ := some (acceptingVerifier (-1)) } "t" =
      .ok { userId := "7", email := "u7@example.org", role := -1, ip := "", userAgent := "",
            isAuthenticated := true }) ∧
    (3 : UserRole) ≠ UserRole.USER ∧
    hasRole { userId := "7", email := "u7@example.org", role := 99, ip := "", userAgent := "",
              isAuthenticated := true } UserRole.ADMIN = true ∧
    (∀ roleId : Int,
      AuthorizationContext.extractContext { jwtHandler_ := some (acceptingVerifier roleId) }
          "t" =
        .ok { userId := "7", email := "u7@example.org", role := roleId, ip := "",
              userAgent := "", isAuthenticated := true }) := by
  refine ⟨by decide, by decide, by decide, by decide, by decide, ?_⟩
  intro roleId
  rfl

/-! ## The query parser -/

/-- C12: for every text without the character `{`, `parseQuery` returns the
operation with the type "query", an empty name and an empty field list, and
`validateQuery` of that operation is false. -/
theorem C12_no_brace (query : Str) (hq : '{' ∉ query) :
    parseQuery query =
      .ok { type := "query".toList, name := [], fields := [], variables_ := [] } ∧
    validateQuery { type := "query".toList, name := [], fields := [], variables_ := [] } =
      false :=
  ⟨parseQuery_of_no_brace query hq, rfl⟩

/-- C12 at concrete texts: the empty text, a text of blanks, and a text that
begins with the word mutation. -/
theorem C12_no_brace_witness :
    parseQuery "".toList =
      .ok { type := "query".toList, name := [], fields := [], variables_ := [] } ∧
    parseQuery " \t\n ".toList =
      .ok { type := "query".toList, name := [], fields := [], variables_ := [] } ∧
    parseQuery "mutation AddBook(title: 1)".toList =
      .ok { type := "query".toList, name := [], fields := [], variables_ := [] } :=
  ⟨(C12_no_brace "".toList (by decide)).1,
    (C12_no_brace " \t\n ".toList (by decide)).1,
    (C12_no_brace "mutation AddBook(title: 1)".toList (by decide)).1⟩

/-- C13, the code at the failing input: `parseQuery` of
`{ a(id: "1") { b } , c }` returns two fields, but the first is named `a(id`,
has no argument and no subfield: the definition is cut at its first colon,
which stands inside the parentheses. -/
theorem C13_arguments_cut_at_colon :
    parseQuery "\x7b a(id: \"1\") \x7b b \x7d , c \x7d".toList =
      .ok { type := "query".toList, name := [],
            fields := [{ name := "a(id".toList, alias_ := [], arguments := [], subFields := [] },
                       { name := "c".toList, alias_ := [], arguments := [], subFields := [] }],
            variables_ := [] } := by
  rfl

/-- C15: `validateQuery` is true iff the operation has at least one field,
false iff it has none, whatever its type, name and variables are. -/
theorem C15_validateQuery (operation : GraphQLOperation) (type name : Str)
    (vars : StrMap) :
    (validateQuery operation = true ↔ operation.fields ≠ []) ∧
    (validateQuery operation = false ↔ operation.fields = []) ∧
    validateQuery { operation with type := type, name := name, variables_ := vars } =
      validateQuery operation := by
  unfold validateQuery
  cases operation.fields <;> simp

/-- C16, as stated, fails: the kind tokens `MUTATION` and `mUtAtIoN` equal
`mutation` when the case is ignored, and `SUBSCRIPTION` equals `subscription`,
but `parseQuery` gives the operations the type "query". -/
theorem C16_counterexample :
    kindToken "MUTATION \x7b x \x7d".toList = "MUTATION".toList ∧
    "MUTATION".toList.map Char.toLower = "mutation".toList ∧
    (parseQuery "MUTATION \x7b x \x7d".toList).map (fun o => o.type) = .ok "query".toList ∧
    "mUtAtIoN".toList.map Char.toLower = "mutation".toList ∧
    (parseQuery "mUtAtIoN \x7b x \x7d".toList).map (fun o => o.type) = .ok "query".toList ∧
    "SUBSCRIPTION".toList.map Char.toLower = "subscription".toList ∧
    (parseQuery "SUBSCRIPTION \x7b x \x7d".toList).map (fun o => o.type) =
      .ok "query".toList := by
  decide

/-- C16, amended: for every text with the character `{`, `parseQuery` returns
an operation whose type is decided by the token that precedes the first `(`,
`{` or blank: "mutation" when the token is exactly `mutation` or `Mutation`,
"subscription" when it is exactly `subscription` or `Subscription`, and
"query" for every other token. -/
theorem C16_operation_type (query : Str) (hq : '{' ∈ query) :
    ∃ operation, parseQuery query = .ok operation ∧
      (kindToken query = "mutation".toList ∨ kindToken query = "Mutation".toList →
        operation.type = "mutation".toList) ∧
      (kindToken query = "subscription".toList ∨ kindToken query = "Subscription".toList →
        operation.type = "subscription".toList) ∧
      (kindToken query ≠ "mutation".toList → kindToken query ≠ "Mutation".toList →
        kindToken query ≠ "subscription".toList →
        kindToken query ≠ "Subscription".toList → operation.type = "query".toList) := by
  obtain ⟨name, fields, h⟩ := parseQuery_of_brace query hq
  refine ⟨_, h, ?_, ?_, ?_⟩
  · rintro (hk | hk) <;> simp only [hk] <;> rfl
  · rintro (hk | hk) <;> simp only [hk] <;> rfl
  · intro h1 h2 h3 h4
    have e1 : (kindToken query == "mutation".toList) = false := beq_eq_false_iff_ne.mpr h1
    have e2 : (kindToken query == "Mutation".toList) = false := beq_eq_false_iff_ne.mpr h2
    have e3 : (kindToken query == "subscription".toList) = false :=
      beq_eq_false_iff_ne.mpr h3
    have e4 : (kindToken query == "Subscription".toList) = false :=
      beq_eq_false_iff_ne.mpr h4
    show classifyKind (kindToken query) = "query".toList
    simp only [classifyKind, e1, e2, e3, e4, Bool.or_false, Bool.false_eq_true, if_false]

/-- C16 (amended) at concrete texts: `Mutation` gives "mutation",
`subscription` gives "subscription", `MUTATION` and the empty token give
"query". -/
theorem C16_operation_type_witness :
    (∃ operation, parseQuery "Mutation \x7b x \x7d".toList = .ok operation ∧
      operation.type = "mutation".toList) ∧
    (∃ operation, parseQuery "subscription S \x7b x \x7d".toList = .ok operation ∧
      operation.type = "subscription".toList) ∧
    (∃ operation, parseQuery "MUTATION \x7b x \x7d".toList = .ok operation ∧
      operation.type = "query".toList) ∧
    (∃ operation, parseQuery "\x7b x \x7d".toList = .ok operation ∧
      operation.type = "query".toList) := by
  refine ⟨?_, ?_, ?_, ?_⟩
  · obtain ⟨o, ho, h1, _, _⟩ := C16_operation_type "Mutation \x7b x \x7d".toList (by decide)
    exact ⟨o, ho, h1 (Or.inr (by decide))⟩
  · obtain ⟨o, ho, _, h2, _⟩ :=
      C16_operation_type "subscription S \x7b x \x7d".toList (by decide)
    exact ⟨o, ho, h2 (Or.inl (by decide))⟩
  · obtain ⟨o, ho, _, _, h3⟩ := C16_operation_type "MUTATION \x7b x \x7d".toList (by decide)
    exact ⟨o, ho, h3 (by decide) (by decide) (by decide) (by decide)⟩
  · obtain ⟨o, ho, _, _, h3⟩ := C16_operation_type "\x7b x \x7d".toList (by decide)
    exact ⟨o, ho, h3 (by decide) (by decide) (by decide) (by decide)⟩

/-- C17, the code at the failing inputs: the operation name is cut with the
length `opNameEnd - opTypeStart` instead of `opNameEnd - opTypeEnd`, so it runs
past the first `(` or `{`: `query GetUser { me }` gives the name
`GetUser { me`, `query GetUser($id: ID) { me }` gives `GetUser($id:`, and the
anonymous `query { me }` and `mutation { x }` give `{ me` and `{ x }`. -/
theorem C17_operation_name_overrun :
    (parseQuery "query GetUser \x7b me \x7d".toList).map (fun o => o.name) =
      .ok "GetUser \x7b me".toList ∧
    (parseQuery "query GetUser($id: ID) \x7b me \x7d".toList).map (fun o => o.name) =
      .ok "GetUser($id:".toList ∧
    (parseQuery "query \x7b me \x7d".toList).map (fun o => o.name) = .ok "\x7b me".toList ∧
    (parseQuery "mutation \x7b x \x7d".toList).map (fun o => o.name) =
      .ok "\x7b x \x7d".toList := by
  decide

/-- C18: for every list of at least one simple name (not empty, no blank,
none of `{ } , : ( )`), `parseQuery` of `{ n1, n2, ..., nk }` returns exactly
the fields named `n1 .. nk` in the order written, each without alias,
arguments and subfields; and when some items between the commas are empty,
the fields are those of the items that are not. -/
theorem C18_comma_separated_fields (names : List Str) (hk : names ≠ [])
    (hnames : ∀ n ∈ names, isSimpleName n = true) :
    parseQuery (selectionOf names) =
      .ok { type := "query".toList, name := [],
            fields := names.map (fun n =>
              { name := n, alias_ := [], arguments := [], subFields := [] }),
            variables_ := [] } ∧
    ∀ items : List Str, items ≠ [] → (∀ i ∈ items, isSimpleName i = true ∨ i = []) →
      parseQuery (selectionOf items) =
        .ok { type := "query".toList, name := [],
              fields := (items.filter (fun i => !i.isEmpty)).map (fun n =>
                { name := n, alias_ := [], arguments := [], subFields := [] }),
              variables_ := [] } := by
  constructor
  · have h := parseQuery_selectionOf names hk (fun i hi => Or.inl (hnames i hi))
    have hf : names.filter (fun n => !n.isEmpty) = names := by
      apply List.filter_eq_self.2
      intro n hn
      have hne := (isSimpleName_facts n (hnames n hn)).1
      cases n with
      | nil => exact absurd rfl hne
      | cons c cs => rfl
    rw [hf] at h
    exact h
  · intro items hne hitems
    exact parseQuery_selectionOf items hne hitems

/-- C18 at concrete texts: `{ me, orders, cart }`, and `{ a, , b }` with an
empty item. -/
theorem C18_comma_separated_fields_witness :
    selectionOf ["me".toList, "orders".toList, "cart".toList] =
      "\x7b me, orders, cart \x7d".toList ∧
    parseQuery "\x7b me, orders, cart \x7d".toList =
      .ok { type := "query".toList, name := [],
            fields := [{ name := "me".toList, alias_ := [], arguments := [], subFields := [] },
                       { name := "orders".toList, alias_ := [], arguments := [],
                         subFields := [] },
                       { name := "cart".toList, alias_ := [], arguments := [],
                         subFields := [] }],
            variables_ := [] } ∧
    parseQuery "\x7b a, , b \x7d".toList =
      .ok { type := "query".toList, name := [],
            fields := [{ name := "a".toList, alias_ := [], arguments := [], subFields := [] },
                       { name := "b".toList, alias_ := [], arguments := [], subFields := [] }],
            variables_ := [] } :=
  ⟨rfl,
    (C18_comma_separated_fields ["me".toList, "orders".toList, "cart".toList] (by simp)
      (by decide)).1,
    (C18_comma_separated_fields ["me".toList] (by simp) (by decide)).2
      ["a".toList, [], "b".toList] (by simp) (by decide)⟩

/-- C19, the code at the failing input: `parseQuery` of `{ f { g } }` returns
one field whose name is the whole definition `f { g }` and which has no
subfield; the block is parsed as a sub-selection only when it follows a colon,
as in `{ f: { g } }`. -/
theorem C19_trailing_block_kept_in_name :
    parseQuery "\x7b f \x7b g \x7d \x7d".toList =
      .ok { type := "query".toList, name := [],
            fields := [{ name := "f \x7b g \x7d".toList, alias_ := [], arguments := [],
                         subFields := [] }],
            variables_ := [] } ∧
    parseQuery "\x7b f: \x7b g \x7d \x7d".toList =
      .ok { type := "query".toList, name := [],
            fields := [{ name := "f".toList, alias_ := [], arguments := [],
                         subFields := [{ name := "g".toList, alias_ := [], arguments := [],
                                         subFields := [] }] }],
            variables_ := [] } :=
  ⟨rfl, rfl⟩

/-- C20, the code at the failing input: `parseQuery` of `{ x: f }` returns one
field whose name is `x` and whose alias is empty; the text `f` after the colon
is dropped. -/
theorem C20_alias_never_set :
    parseQuery "\x7b x: f \x7d".toList =
      .ok { type := "query".toList, name := [],
            fields := [{ name := "x".toList, alias_ := [], arguments := [], subFields := [] }],
            variables_ := [] } := by
  rfl


/-! ## Registration routines, statement by statement -/

section Registration

variable {σ : Type}

theorem UserResolvers.user_registerResolvers_eq_steps (h : UserHandlers σ) (g : Registries σ) :
    UserResolvers.registerResolvers h g = runSteps (UserResolvers.steps h) g := rfl

theorem OrderResolvers.order_registerResolvers_eq_steps (h : OrderHandlers σ) (g : Registries σ) :
    OrderResolvers.registerResolvers h g = runSteps (OrderResolvers.steps h) g := rfl

theorem UserResolvers.user_boundNames_query (h : UserHandlers σ) :
    boundNames .query (UserResolvers.steps h) =
      ["me", "user", "users", "_internalUserSearch"] := rfl

theorem UserResolvers.user_boundNames_mutation (h : UserHandlers σ) :
    boundNames .mutation (UserResolvers.steps h) = ["updateProfile", "deleteAccount"] := rfl

theorem OrderResolvers.order_boundNames_query (h : OrderHandlers σ) :
    boundNames .query (OrderResolvers.steps h) =
      ["order", "orders", "myOrders", "_internalOrdersByDate"] := rfl

theorem OrderResolvers.order_boundNames_mutation (h : OrderHandlers σ) :
    boundNames .mutation (OrderResolvers.steps h) =
      ["createOrder", "cancelOrder", "requestRefund", "updateOrderStatus",
        "updateOrderAddress"] := rfl

theorem AdminResolvers.admin_boundNames_query (h : AdminHandlers σ) :
    boundNames .query (AdminResolvers.steps h) =
      ["_internalUserSearch", "_internalOrdersByDate", "_systemStats",
        "_fetchExternalResource", "_validateWebhookUrl"] := rfl

theorem AdminResolvers.admin_boundNames_mutation (h : AdminHandlers σ) :
    boundNames .mutation (AdminResolvers.steps h) =
      ["_testWebhook", "_validateImportSource", "_fetchBookMetadata", "_debugQuery",
        "_exportSchema", "_bulkUpdateUsers", "_exportUserData", "_importUsers",
        "_updateInventory"] := rfl

/-- Every resolver that `AdminResolvers::registerResolvers` binds has the
flags of a fresh resolver after `setRequireAuth(true)`. -/
theorem AdminResolvers.find_bound (h : AdminHandlers σ) (g : Registries σ)
    (kind : RegistryKind) (name : String)
    (hname : name ∈ boundNames kind (AdminResolvers.steps h)) :
    ∃ r, ((AdminResolvers.registerResolvers h g).get kind).find name = some r ∧
      r.requireAuth_ = true ∧ r.requiredRole_ = UserRole.USER ∧
      r.requireOwnership_ = false := by
  cases kind with
  | query =>
    rw [AdminResolvers.admin_boundNames_query] at hname
    simp only [List.mem_cons, List.mem_singleton, List.not_mem_nil, or_false] at hname
    rcases hname with rfl | rfl | rfl | rfl | rfl <;>
    simp [AdminResolvers.registerResolvers, AdminResolvers.steps, runSteps,
      RegistrationStep.run, Registries.get, Registries.set, ResolverMap.find_update_ne,
      ResolverMap.find_assign_ne, ResolverMap.find_update_self,
      ResolverMap.find_assign_self, Resolver.new, Resolver.setRequireAuth]
  | mutation =>
    rw [AdminResolvers.admin_boundNames_mutation] at hname
    simp only [List.mem_cons, List.mem_singleton, List.not_mem_nil, or_false] at hname
    rcases hname with rfl | rfl | rfl | rfl | rfl | rfl | rfl | rfl | rfl <;>
    simp [AdminResolvers.registerResolvers, AdminResolvers.steps, runSteps,
      RegistrationStep.run, Registries.get, Registries.set, ResolverMap.find_update_ne,
      ResolverMap.find_assign_ne, ResolverMap.find_update_self,
      ResolverMap.find_assign_self, Resolver.new, Resolver.setRequireAuth]

/-- A resolver that demands neither a role nor ownership hands every
authenticated request to its handler. -/
theorem Resolver.resolve_of_authenticated (r : Resolver σ) (params : ResolverParams) (s : σ)
    (hrole : r.requiredRole_ = UserRole.USER) (hown : r.requireOwnership_ = false)
    (hauth : params.authContext.isAuthenticated = true) :
    r.resolve params s = Resolver.catchClause (r.resolverFunc_ params s) := by
  unfold Resolver.resolve
  rw [Resolver.resolve_of_pass r params s (by simp [hauth]) (by simp [hrole])
    (by rw [Resolver.checkAuthorization_ok]; simp [checkAuthorizationSpec, hown])]

end Registration

/-! ## Registration and audit -/

/-- C23, as stated, fails: over the three registration routines the names
bound as queries are not pairwise distinct; `_internalUserSearch` is bound by
`UserResolvers` and by `AdminResolvers`, `_internalOrdersByDate` by
`OrderResolvers` and by `AdminResolvers`, each time to the handler of the
routine's own class. -/
theorem C23_counterexample :
    ¬ (boundNames .query (UserResolvers.steps sampleUserHandlers) ++
        boundNames .query (OrderResolvers.steps sampleOrderHandlers) ++
        boundNames .query (AdminResolvers.steps sampleAdminHandlers)).Nodup ∧
    "_internalUserSearch" ∈ boundNames .query (UserResolvers.steps sampleUserHandlers) ∧
    "_internalUserSearch" ∈ boundNames .query (AdminResolvers.steps sampleAdminHandlers) ∧
    "_internalOrdersByDate" ∈ boundNames .query (OrderResolvers.steps sampleOrderHandlers) ∧
    "_internalOrdersByDate" ∈ boundNames .query (AdminResolvers.steps sampleAdminHandlers) := by
  decide

/-- C23, amended: each registration routine binds every name exactly once in
each of its two registries, the names bound as mutations are pairwise distinct
over the three routines, and the names bound as queries are pairwise distinct
over the three routines apart from `_internalUserSearch` and
`_internalOrdersByDate`, which `AdminResolvers` binds a second time, in its own
registry and to its own handlers. -/
theorem C23_registered_names {σ : Type} (hu : UserHandlers σ) (ho : OrderHandlers σ)
    (ha : AdminHandlers σ) (g : Registries σ) :
    (boundNames .query (UserResolvers.steps hu)).Nodup ∧
    (boundNames .mutation (UserResolvers.steps hu)).Nodup ∧
    (boundNames .query (OrderResolvers.steps ho)).Nodup ∧
    (boundNames .mutation (OrderResolvers.steps ho)).Nodup ∧
    (boundNames .query (AdminResolvers.steps ha)).Nodup ∧
    (boundNames .mutation (AdminResolvers.steps ha)).Nodup ∧
    (boundNames .mutation (UserResolvers.steps hu) ++
      boundNames .mutation (OrderResolvers.steps ho) ++
      boundNames .mutation (AdminResolvers.steps ha)).Nodup ∧
    (boundNames .query (UserResolvers.steps hu) ++
      boundNames .query (OrderResolvers.steps ho) ++
      (boundNames .query (AdminResolvers.steps ha)).filter
        (fun n => n != "_internalUserSearch" && n != "_internalOrdersByDate")).Nodup ∧
    UserResolvers.registerResolvers hu g = runSteps (UserResolvers.steps hu) g ∧
    OrderResolvers.registerResolvers ho g = runSteps (OrderResolvers.steps ho) g ∧
    AdminResolvers.registerResolvers ha g = runSteps (AdminResolvers.steps ha) g ∧
    (∃ r, (UserResolvers.registerResolvers hu g).query.find "_internalUserSearch" = some r ∧
      r.resolverFunc_ = hu.resolveInternalUserSearch) ∧
    (∃ r, (AdminResolvers.registerResolvers ha g).query.find "_internalUserSearch" = some r ∧
      r.resolverFunc_ = ha.resolveInternalUserSearch) ∧
    (∃ r, (OrderResolvers.registerResolvers ho g).query.find "_internalOrdersByDate" = some r ∧
      r.resolverFunc_ = ho.resolveInternalOrdersByDate) ∧
    (∃ r, (AdminResolvers.registerResolvers ha g).query.find "_internalOrdersByDate" = some r ∧
      r.resolverFunc_ = ha.resolveInternalOrdersByDate) := by
  rw [UserResolvers.user_boundNames_query, UserResolvers.user_boundNames_mutation,
    OrderResolvers.order_boundNames_query, OrderResolvers.order_boundNames_mutation,
    AdminResolvers.admin_boundNames_query, AdminResolvers.admin_boundNames_mutation]
  refine ⟨by decide, by decide, by decide, by decide, by decide, by decide, by decide,
    by decide, rfl, rfl, rfl, ?_, ?_, ?_, ?_⟩
  · exact ⟨_, by
      simp [UserResolvers.registerResolvers, ResolverMap.find_update_ne,
        ResolverMap.find_assign_ne, ResolverMap.find_update_self,
        ResolverMap.find_assign_self]; rfl, rfl⟩
  · exact ⟨_, by
      simp [AdminResolvers.registerResolvers, AdminResolvers.steps, runSteps,
        RegistrationStep.run, Registries.get, Registries.set, ResolverMap.find_update_ne,
        ResolverMap.find_assign_ne, ResolverMap.find_update_self,
        ResolverMap.find_assign_self]; rfl, rfl⟩
  · exact ⟨_, by
      simp [OrderResolvers.registerResolvers, ResolverMap.find_update_ne,
        ResolverMap.find_assign_ne, ResolverMap.find_update_self,
        ResolverMap.find_assign_self]; rfl, rfl⟩
  · exact ⟨_, by
      simp [AdminResolvers.registerResolvers, AdminResolvers.steps, runSteps,
        RegistrationStep.run, Registries.get, Registries.set, ResolverMap.find_update_ne,
        ResolverMap.find_assign_ne, ResolverMap.find_update_self,
        ResolverMap.find_assign_self]; rfl, rfl⟩

/-- C24, as stated, fails: a refused request leaves the audit sink empty.  With
the lines of the audit sink as world state, the unauthenticated request gets
"Authentication required" and the under-privileged one "Insufficient
permissions", and no line is written, where one call of `logAccessAttempt`
would have written one. -/
theorem C24_counterexample :
    ((strictResolver.resolve
        (mkParams [("id", "9")] (mkIdentity "1" UserRole.USER false)) []).1.map
      (fun e => e.error) = .ok "Authentication required") ∧
    ((Resolver.new "strict" quietHandler |>.setRequireAuth true).resolve
        (mkParams [("id", "9")] (mkIdentity "1" UserRole.USER false))
        ([] : List String)).2 = [] ∧
    (((Resolver.new "strict" quietHandler |>.setRequireAuth true).setRequiredRole
        UserRole.ADMIN).resolve
        (mkParams [("id", "9")] (mkIdentity "1" UserRole.STAFF true))
        ([] : List String)) =
      (.ok (ResolverResult.errorResult "Insufficient permissions"), []) ∧
    logAccessAttempt (mkIdentity "1" UserRole.STAFF true) "strict" false [] =
      ["[DENIED] User:  (1) Operation: strict"] := by
  decide

/-- C24, amended: `Resolver::resolve` records no audit entry.  It never calls
`logAccessAttempt`: whatever the world state is, the state after `resolve` is
the state before it when a check refuses the request (the three denials leave
it untouched), and otherwise the state the handler left; so an audit sink that
the handler does not write to is unchanged by `resolve`.  One call of
`logAccessAttempt` adds exactly one line, with `ALLOWED` or `DENIED`, the
email, the numeric role and the operation. -/
theorem C24_no_audit_in_resolve {σ : Type} (r : Resolver σ) (params : ResolverParams)
    (s : σ) :
    ((r.resolve params s).2 = s ∨ (r.resolve params s).2 = (r.resolverFunc_ params s).2) ∧
    ((r.requireAuth_ && !params.authContext.isAuthenticated) = true ∨
      (r.requiredRole_ != UserRole.USER &&
        decide (params.authContext.role < r.requiredRole_)) = true ∨
      r.checkAuthorization params = .ok false →
      (r.resolve params s).2 = s) ∧
    (∀ (audit : σ → List String),
      (∀ p t, audit (r.resolverFunc_ p t).2 = audit t) →
      audit (r.resolve params s).2 = audit s) ∧
    (∀ ctx operation authorized out,
      logAccessAttempt ctx operation authorized out =
        out ++ ["[" ++ (if authorized then "ALLOWED" else "DENIED") ++ "] User: " ++
          ctx.email ++ " (" ++ toString ctx.role ++ ") " ++ "Operation: " ++ operation]) := by
  have hcatch : ∀ x : Except String ResolverResult × σ, (Resolver.catchClause x).2 = x.2 := by
    rintro ⟨a | a, t⟩ <;> rfl
  have hdeny : (r.requireAuth_ && !params.authContext.isAuthenticated) = true ∨
      (r.requiredRole_ != UserRole.USER &&
        decide (params.authContext.role < r.requiredRole_)) = true ∨
      r.checkAuthorization params = .ok false → (r.resolve params s).2 = s := by
    intro h
    unfold Resolver.resolve Resolver.resolveTry
    by_cases h1 : (r.requireAuth_ && !params.authContext.isAuthenticated) = true
    · rw [if_pos h1]
      rfl
    · rw [if_neg h1]
      by_cases h2 : (r.requiredRole_ != UserRole.USER &&
          decide (params.authContext.role < r.requiredRole_)) = true
      · rw [if_pos h2]
        rfl
      · rw [if_neg h2]
        rcases h with h | h | h
        · exact absurd h h1
        · exact absurd h h2
        · rw [h]
          rfl
  have hstate : (r.resolve params s).2 = s ∨
      (r.resolve params s).2 = (r.resolverFunc_ params s).2 := by
    by_cases h1 : (r.requireAuth_ && !params.authContext.isAuthenticated) = true
    · exact Or.inl (hdeny (Or.inl h1))
    · by_cases h2 : (r.requiredRole_ != UserRole.USER &&
          decide (params.authContext.role < r.requiredRole_)) = true
      · exact Or.inl (hdeny (Or.inr (Or.inl h2)))
      · cases hc : checkAuthorizationSpec r.requireOwnership_ params.authContext
            params.arguments with
        | false =>
          exact Or.inl (hdeny (Or.inr (Or.inr (by rw [Resolver.checkAuthorization_ok, hc]))))
        | true =>
          right
          unfold Resolver.resolve
          rw [Resolver.resolve_of_pass r params s (by simpa using h1) (by simpa using h2)
            (by rw [Resolver.checkAuthorization_ok, hc]), hcatch]
  refine ⟨hstate, hdeny, ?_, ?_⟩
  · intro audit haudit
    rcases hstate with h | h
    · rw [h]
    · rw [h, haudit]
  · intro ctx operation authorized out
    rfl

/-- C24 (amended) at a concrete request: the refused request of an
authenticated `STAFF` identity on a resolver that demands `ADMIN` leaves the
audit sink as it was. -/
theorem C24_no_audit_in_resolve_witness :
    (strictResolver.resolve (mkParams [("id", "1")] (mkIdentity "1" UserRole.STAFF true))
      []).2 = [] :=
  (C24_no_audit_in_resolve strictResolver
    (mkParams [("id", "1")] (mkIdentity "1" UserRole.STAFF true)) []).2.1
    (Or.inr (Or.inl (by decide)))

/-! ## `generateError` -/

/-- C25: `generateError` returns `{"errors": [{"message": "<message>"}]}` when
`locations` is empty and
`{"errors": [{"message": "<message>", "locations": [{"line": <n>}]}]}` when it
is not, `n` being the decimal rendering of the first location; the locations
after the first do not matter. -/
theorem C25_generateError (message : String) (x : Int) (xs : List Int) :
    generateError message [] =
      "\x7b\"errors\": [\x7b\"message\": \"" ++ message ++ "\"\x7d]\x7d" ∧
    generateError message (x :: xs) =
      "\x7b\"errors\": [\x7b\"message\": \"" ++ message ++
        "\", \"locations\": [\x7b\"line\": " ++ toString x ++ "\x7d]\x7d]\x7d" ∧
    generateError message (x :: xs) = generateError message [x] ∧
    generateError "Syntax error" [12, 7] =
      "\x7b\"errors\": [\x7b\"message\": \"Syntax error\", \"locations\": [\x7b\"line\": 12\x7d]\x7d]\x7d" ∧
    generateError "No fields" [] = "\x7b\"errors\": [\x7b\"message\": \"No fields\"\x7d]\x7d" := by
  refine ⟨?_, ?_, rfl, by decide, by decide⟩
  · simp [generateError, String.append_assoc]
  · simp only [generateError, String.append_assoc]
    rfl

/-! ## The dispatcher and the policy engine -/

/-- C29: every resolver bound by `AdminResolvers::registerResolvers`, query
or mutation, has `requireAuth = true`, `requiredRole = USER` and
`requireOwnership = false`; hence for every authenticated identity, whatever
its role, and for every argument map, `resolve` passes the three checks and its
outcome is the one of one invocation of the handler. -/
theorem C29_admin_resolvers_open {σ : Type} (h : AdminHandlers σ) (g : Registries σ)
    (kind : RegistryKind) (name : String)
    (hname : name ∈ boundNames kind (AdminResolvers.steps h)) :
    ∃ r, ((AdminResolvers.registerResolvers h g).get kind).find name = some r ∧
      r.requireAuth_ = true ∧ r.requiredRole_ = UserRole.USER ∧
      r.requireOwnership_ = false ∧
      ∀ (params : ResolverParams) (s : σ), params.authContext.isAuthenticated = true →
        r.resolve params s = Resolver.catchClause (r.resolverFunc_ params s) := by
  obtain ⟨r, hr, h1, h2, h3⟩ := AdminResolvers.find_bound h g kind name hname
  exact ⟨r, hr, h1, h2, h3, fun params s hauth =>
    Resolver.resolve_of_authenticated r params s h2 h3 hauth⟩

/-- C29 at a concrete request: the query `_systemStats` and the mutation
`_bulkUpdateUsers` are bound, and an authenticated identity of role `USER` has
its request for `_bulkUpdateUsers` handed to the handler. -/
theorem C29_admin_resolvers_open_witness :
    (∃ r, (AdminResolvers.registerResolvers sampleAdminHandlers
        (emptyRegistries CallLog)).query.find "_systemStats" = some r ∧
      r.requireAuth_ = true ∧ r.requiredRole_ = UserRole.USER ∧
      r.requireOwnership_ = false) ∧
    (∃ r, (AdminResolvers.registerResolvers sampleAdminHandlers
        (emptyRegistries CallLog)).mutation.find "_bulkUpdateUsers" = some r ∧
      r.resolve (mkParams [("role", "admin")] (mkIdentity "5" UserRole.USER true)) [] =
        (.ok (ResolverResult.successResult "ok"),
          [mkParams [("role", "admin")] (mkIdentity "5" UserRole.USER true)])) := by
  obtain ⟨r1, hr1, a1, b1, c1, _⟩ := C29_admin_resolvers_open sampleAdminHandlers
    (emptyRegistries CallLog) .query "_systemStats" (by decide)
  obtain ⟨r2, hr2, _, _, _, d2⟩ := C29_admin_resolvers_open sampleAdminHandlers
    (emptyRegistries CallLog) .mutation "_bulkUpdateUsers" (by decide)
  refine ⟨⟨r1, hr1, a1, b1, c1⟩, ⟨r2, hr2, ?_⟩⟩
  rw [d2 _ _ rfl]
  have hf : r2.resolverFunc_ = loggingHandler := by
    have hfind : (AdminResolvers.registerResolvers sampleAdminHandlers
        (emptyRegistries CallLog)).mutation.find "_bulkUpdateUsers" =
        some ((Resolver.new "_bulkUpdateUsers" loggingHandler).setRequireAuth true) := rfl
    have heq := hr2.symm.trans hfind
    cases heq
    rfl
  rw [hf]
  rfl

/-- C30: for every identity whose role is `USER`, `STAFF` or `ADMIN` and every
target `t`, on a resolver with `requireOwnership = true` and arguments that
hold `userId ↦ t`: when the identity is authenticated, `checkAuthorization`
passes iff `canAccessUser` is true; the two differ only when the identity is
unauthenticated, where `canAccessUser` is false and `checkAuthorization` still
passes when `ctx.userId` is `t`. -/
theorem C30_ownership_agreement {σ : Type} (r : Resolver σ) (params : ResolverParams)
    (t : String) (hown : r.requireOwnership_ = true)
    (harg : params.arguments.lookup "userId" = some t)
    (hrole : params.authContext.role = UserRole.USER ∨
      params.authContext.role = UserRole.STAFF ∨ params.authContext.role = UserRole.ADMIN) :
    (params.authContext.isAuthenticated = true →
      r.checkAuthorization params = .ok (canAccessUser params.authContext t)) ∧
    (r.checkAuthorization params ≠ .ok (canAccessUser params.authContext t) →
      params.authContext.isAuthenticated = false) ∧
    (params.authContext.isAuthenticated = false →
      canAccessUser params.authContext t = false ∧
      (params.authContext.userId = t → r.checkAuthorization params = .ok true)) := by
  have hcheck : r.checkAuthorization params =
      .ok (decide (params.authContext.userId = t ∨
        params.authContext.role ≥ UserRole.STAFF)) := by
    rw [Resolver.checkAuthorization_ok]
    simp [checkAuthorizationSpec, firstResourceId, List.findSome?, harg, hown]
  have hagree : params.authContext.isAuthenticated = true →
      r.checkAuthorization params = .ok (canAccessUser params.authContext t) := by
    intro hauth
    rw [hcheck]
    congr 1
    have e0 : decide (UserRole.STAFF ≤ UserRole.USER) = false := by decide
    have e1 : decide (UserRole.STAFF ≤ UserRole.STAFF) = true := by decide
    have e2 : decide (UserRole.STAFF ≤ UserRole.ADMIN) = true := by decide
    unfold canAccessUser
    rcases hrole with h | h | h <;> simp [hauth, h, beq_eq_decide, e0, e1, e2]
  refine ⟨hagree, ?_, ?_⟩
  · intro hne
    cases ha : params.authContext.isAuthenticated with
    | false => rfl
    | true => exact absurd (hagree ha) hne
  · intro hu
    refine ⟨by simp [canAccessUser, hu], ?_⟩
    intro hid
    rw [hcheck]
    simp [hid]

/-- C30 at concrete requests: the authenticated user "7" asking for the user
"8" is refused by both, and the unauthenticated identity "8" passes the check
of the dispatcher although `canAccessUser` refuses it. -/
theorem C30_ownership_agreement_witness :
    (ownedResolver loggingHandler).checkAuthorization
        (mkParams [("userId", "8")] (mkIdentity "7" UserRole.USER true)) =
      .ok (canAccessUser (mkIdentity "7" UserRole.USER true) "8") ∧
    canAccessUser (mkIdentity "8" UserRole.USER false) "8" = false ∧
    (ownedResolver loggingHandler).checkAuthorization
        (mkParams [("userId", "8")] (mkIdentity "8" UserRole.USER false)) = .ok true :=
  ⟨(C30_ownership_agreement (ownedResolver loggingHandler)
      (mkParams [("userId", "8")] (mkIdentity "7" UserRole.USER true)) "8" rfl rfl
      (Or.inl rfl)).1 rfl,
    ((C30_ownership_agreement (ownedResolver loggingHandler)
      (mkParams [("userId", "8")] (mkIdentity "8" UserRole.USER false)) "8" rfl rfl
      (Or.inl rfl)).2.2 rfl).1,
    ((C30_ownership_agreement (ownedResolver loggingHandler)
      (mkParams [("userId", "8")] (mkIdentity "8" UserRole.USER false)) "8" rfl rfl
      (Or.inl rfl)).2.2 rfl).2 rfl⟩

/-! ## Arguments -/

section Arguments

theorem charAt_of_get (s : Str) (i : Nat) (c : Char) (h : s.get? i = some c) :
    charAt s i = .ok c := by
  unfold charAt
  rw [h]

theorem processArgument_blank (argStr : Str) (args : StrMap) (h : trimmed argStr = []) :
    processArgument argStr args = .ok args := by
  simp only [processArgument, trim_eq, h, bind, Except.bind, pure, Except.pure]
  rfl

/-- A fragment without a colon adds no entry. -/
theorem processArgument_no_colon (argStr : Str) (args : StrMap) (h : ':' ∉ argStr) :
    processArgument argStr args = .ok args := by
  have hc : strFind (trimmed argStr) ':' = none :=
    strFind_none_of_not_mem _ _ (fun hm => h (mem_of_mem_trimmed _ _ hm))
  simp only [processArgument, trim_eq, hc, bind, Except.bind, pure, Except.pure]
  split <;> rfl

/-- The quote test and the cut of `processArgument` compute `stripQuotes`. -/
theorem stripQuotes_eq (value : Str) (c0 cl : Char) (h2 : value.length ≥ 2)
    (h0 : value.get? 0 = some c0) (hl : value.get? (value.length - 1) = some cl) :
    stripQuotes value =
      if (c0 == Char.ofNat 34 && cl == Char.ofNat 34 ||
          c0 == Char.ofNat 39 && cl == Char.ofNat 39) = true
      then (value.drop 1).take (value.length - 2) else value := by
  have hh : value.head? = some c0 := by rw [← List.get?_zero]; exact h0
  have hg : value.getLast? = some cl := by
    rw [List.getLast?_eq_getElem?, ← List.get?_eq_getElem?]
    exact hl
  have htail : value.tail.dropLast = (value.drop 1).take (value.length - 2) := by
    rw [List.dropLast_eq_take, ← List.drop_one, List.length_drop]
    rfl
  unfold stripQuotes
  rw [hh, hg, htail]
  simp only [Option.some.injEq, ge_iff_le, h2, true_and, Bool.or_eq_true, Bool.and_eq_true,
    beq_iff_eq]

/-- What `processArgument` stores for a fragment with a colon: the trimmed
text before the first colon as key, and the trimmed text after it, its quotes
stripped, as value; nothing when the key is empty. -/
theorem processArgument_eq (argStr : Str) (args : StrMap) (colonPos : Nat)
    (hc : strFind (trimmed argStr) ':' = some colonPos) :
    processArgument argStr args =
      .ok (if (trimmed ((trimmed argStr).take colonPos)).isEmpty then args
        else args.assign (trimmed ((trimmed argStr).take colonPos))
          (stripQuotes (trimmed ((trimmed argStr).drop (colonPos + 1))))) := by
  obtain ⟨_, hlt, hget⟩ := strFind_bounds _ _ _ _ hc
  have hne : (trimmed argStr).isEmpty = false := by
    cases ht : trimmed argStr with
    | nil => rw [ht] at hlt; simp at hlt
    | cons c cs => rfl
  simp only [processArgument, trim_eq, hne, hc, bind, Except.bind, pure, Except.pure,
    substr_ok _ 0 colonPos (Nat.zero_le _), substrFrom_ok _ (colonPos + 1) hlt,
    List.drop_zero, Bool.false_eq_true, if_false]
  generalize trimmed (List.drop (colonPos + 1) (trimmed argStr)) = value
  generalize trimmed (List.take colonPos (trimmed argStr)) = key
  have hkey : ∀ v : Str, (if (!key.isEmpty) = true then
      (Except.ok (args.assign key v) : Except String StrMap) else Except.ok args) =
      .ok (if key.isEmpty then args else args.assign key v) := by
    intro v
    cases key <;> rfl
  by_cases h2 : value.length ≥ 2
  · obtain ⟨c0, h0⟩ : ∃ c, value.get? 0 = some c := by
      cases hv : value.get? 0 with
      | some c => exact ⟨c, rfl⟩
      | none => rw [List.get?_eq_none] at hv; omega
    obtain ⟨cl, hl⟩ : ∃ c, value.get? (value.length - 1) = some c := by
      cases hv : value.get? (value.length - 1) with
      | some c => exact ⟨c, rfl⟩
      | none => rw [List.get?_eq_none] at hv; omega
    rw [stripQuotes_eq value c0 cl h2 h0 hl]
    simp only [h2, if_true, charAt_of_get _ _ _ h0, sizeSub_ok value.length 1 (by omega),
      charAt_of_get _ _ _ hl]
    generalize (c0 == Char.ofNat 34 && cl == Char.ofNat 34 ||
      c0 == Char.ofNat 39 && cl == Char.ofNat 39) = quoted
    cases quoted with
    | true =>
      simp only [if_true, sizeSub_ok value.length 2 h2,
        substr_ok value 1 (value.length - 2) (by omega)]
      exact hkey _
    | false =>
      simp only [Bool.false_eq_true, if_false]
      exact hkey _
  · have hs : stripQuotes value = value := by
      unfold stripQuotes
      rw [if_neg (fun h => h2 h.1)]
    rw [hs]
    simp only [h2, if_false, Bool.false_eq_true]
    exact hkey _

/-- The loop of `parseArguments` hands to `processArgument` the fragments that
end at a comma of depth zero or right after a closing bracket that brings the
depth back to zero. -/
theorem parseArgumentsLoop_eq_fragments (chars : Str) (depth : Int) (cur : Str)
    (args : StrMap) :
    parseArgumentsLoop chars depth cur args =
      processFragments (splitFragments chars depth cur) args := by
  have hblank : ∀ (c : Str) (a : StrMap),
      (if (!(trimmed c).isEmpty) = true then processArgument c a else Except.ok a) =
        processArgument c a := by
    intro c a
    by_cases he : (trimmed c).isEmpty = true
    · have hnil : trimmed c = [] := List.isEmpty_iff.1 he
      simp [he, processArgument_blank c a hnil]
    · simp [he]
  induction chars generalizing depth cur args with
  | nil =>
    simp only [parseArgumentsLoop, splitFragments, processFragments, trim_eq, bind,
      Except.bind, pure, Except.pure, hblank]
    cases processArgument cur args <;> rfl
  | cons c rest ih =>
    unfold parseArgumentsLoop splitFragments
    split
    · exact ih _ _ _
    · split
      · split
        · simp only [processFragments, bind, Except.bind]
          cases processArgument (cur ++ [c]) args with
          | error e => rfl
          | ok a => exact ih _ _ _
        · exact ih _ _ _
      · split
        · by_cases he : (trimmed cur).isEmpty = true
          · have hnil : trimmed cur = [] := List.isEmpty_iff.1 he
            simp only [processFragments, trim_eq, bind, Except.bind, pure, Except.pure, he,
              processArgument_blank cur args hnil, Bool.not_true, Bool.false_eq_true, if_false]
            exact ih _ _ _
          · simp only [processFragments, trim_eq, bind, Except.bind, pure, Except.pure, he,
              Bool.not_false, if_true]
            cases processArgument cur args with
            | error e => rfl
            | ok a => exact ih _ _ _
        · exact ih _ _ _

theorem parseArguments_eq_fragments (argsStr : Str) :
    parseArguments argsStr =
      processFragments (splitFragments (trimmed argsStr) 0 []) [] := by
  simp only [parseArguments, trim_eq, bind, Except.bind, pure, Except.pure]
  by_cases he : (trimmed argsStr).isEmpty = true
  · have hnil : trimmed argsStr = [] := List.isEmpty_iff.1 he
    simp only [he, if_true, hnil, splitFragments, processFragments]
    rfl
  · simp only [he, Bool.false_eq_true, if_false]
    exact parseArgumentsLoop_eq_fragments _ _ _ _

theorem parseArgumentsLoop_no_colon (chars : Str) (depth : Int) (cur : Str) (args : StrMap)
    (hchars : ':' ∉ chars) (hcur : ':' ∉ cur) :
    parseArgumentsLoop chars depth cur args = .ok args := by
  induction chars generalizing depth cur with
  | nil =>
    simp only [parseArgumentsLoop, trim_eq, bind, Except.bind, pure, Except.pure,
      processArgument_no_colon cur args hcur]
    split <;> rfl
  | cons c rest ih =>
    have hc : c ≠ ':' := fun h => hchars (h ▸ List.mem_cons_self c rest)
    have hrest : ':' ∉ rest := fun h => hchars (List.mem_cons_of_mem c h)
    have hcc : ':' ∉ cur ++ [c] := by
      intro h
      rcases List.mem_append.1 h with h | h
      · exact hcur h
      · simp at h
        exact hc h.symm
    unfold parseArgumentsLoop
    split
    · exact ih _ _ hrest hcc
    · split
      · split
        · simp only [processArgument_no_colon _ args hcc, bind, Except.bind]
          exact ih _ _ hrest (by simp)
        · exact ih _ _ hrest hcc
      · split
        · by_cases he : (trimmed cur).isEmpty = true
          · simp only [trim_eq, bind, Except.bind, pure, Except.pure, he, Bool.not_true,
              Bool.false_eq_true, if_false]
            exact ih _ _ hrest (by simp)
          · simp only [trim_eq, bind, Except.bind, pure, Except.pure, he, Bool.not_false,
              if_true, processArgument_no_colon cur args hcur]
            exact ih _ _ hrest (by simp)
        · exact ih _ _ hrest hcc

/-- An argument text without a colon gives the empty argument map. -/
theorem parseArguments_no_colon (argsStr : Str) (h : ':' ∉ argsStr) :
    parseArguments argsStr = .ok [] := by
  simp only [parseArguments, trim_eq, bind, Except.bind, pure, Except.pure]
  split
  · rfl
  · exact parseArgumentsLoop_no_colon _ _ _ _ (fun hm => h (mem_of_mem_trimmed _ _ hm))
      (by simp)

end Arguments

/-! ## Invariants of the field tree -/

section Tree

theorem everyField_eq (p : GraphQLField → Bool) (f : GraphQLField) :
    everyField p f = (p f && everyFieldOf p f.subFields) := by
  cases f
  simp [everyField]

theorem everyFieldOf_cons (p : GraphQLField → Bool) (f : GraphQLField)
    (fs : List GraphQLField) :
    everyFieldOf p (f :: fs) = (everyField p f && everyFieldOf p fs) := by
  simp [everyFieldOf]

theorem everyFieldOf_nil (p : GraphQLField → Bool) : everyFieldOf p [] = true := by
  simp [everyFieldOf]

theorem everyFieldOf_append (p : GraphQLField → Bool) (a b : List GraphQLField) :
    everyFieldOf p (a ++ b) = (everyFieldOf p a && everyFieldOf p b) := by
  induction a with
  | nil => simp [everyFieldOf]
  | cons f fs ih => simp [everyFieldOf, ih, Bool.and_assoc]

theorem everyFieldOf_mem (p : GraphQLField → Bool) (fs : List GraphQLField)
    (h : everyFieldOf p fs = true) (f : GraphQLField) (hf : f ∈ fs) :
    p f = true ∧ everyFieldOf p f.subFields = true := by
  induction fs with
  | nil => simp at hf
  | cons g gs ih =>
    rw [everyFieldOf_cons, Bool.and_eq_true] at h
    rcases List.mem_cons.1 hf with rfl | hm
    · rw [everyField_eq, Bool.and_eq_true] at h
      exact h.1
    · exact ih h.2 hm

/-- The text before the first colon holds no colon. -/
theorem splitAtColon_no_colon (t b a : Str) (h : splitAtColon t = .ok (b, a)) : ':' ∉ b := by
  unfold splitAtColon at h
  cases hc : strFind t ':' with
  | none =>
    simp only [hc, pure, Except.pure, Except.ok.injEq, Prod.mk.injEq] at h
    rw [← h.1]
    intro hm
    obtain ⟨i, hi⟩ := strFind_isSome_of_mem t ':' hm
    rw [hc] at hi
    exact absurd hi (by simp)
  | some colonPos =>
    obtain ⟨_, hlt, _⟩ := strFind_bounds _ _ _ _ hc
    simp only [hc, substr_ok _ 0 colonPos (Nat.zero_le _), substrFrom_ok _ (colonPos + 1) hlt,
      bind, Except.bind, pure, Except.pure, Except.ok.injEq, Prod.mk.injEq,
      List.drop_zero] at h
    rw [← h.1]
    rw [strFind_zero] at hc
    rw [(firstIdx_take _ t colonPos hc).1]
    intro hm
    have := List.mem_takeWhile_imp hm
    simp at this

theorem aliasAndName_no_colon (field : GraphQLField) (beforeColon : Str)
    (h : ':' ∉ beforeColon) :
    aliasAndName field beforeColon = .ok { field with name := beforeColon } := by
  simp only [aliasAndName, strFind_none_of_not_mem _ _ h]
  rfl

/-- With a name that holds no colon, the argument step leaves the alias, the
arguments and the subfields as they are. -/
theorem extractArguments_no_colon (field : GraphQLField) (h : ':' ∉ field.name)
    (harg : field.arguments = []) :
    ∃ f, extractArguments field = .ok f ∧ f.alias_ = field.alias_ ∧ f.arguments = [] ∧
      f.subFields = field.subFields := by
  cases ho : strFind field.name '(' with
  | none => exact ⟨field, by simp only [extractArguments, ho]; rfl, rfl, harg, rfl⟩
  | some parenOpen =>
    cases hc : strFind field.name ')' parenOpen with
    | none => exact ⟨field, by simp only [extractArguments, ho, hc]; rfl, rfl, harg, rfl⟩
    | some parenClose =>
      obtain ⟨_, holt, hoget⟩ := strFind_bounds _ _ _ _ ho
      obtain ⟨hle, hclt, hcget⟩ := strFind_bounds _ _ _ _ hc
      have hne : parenOpen ≠ parenClose := by
        intro h
        rw [h, hcget] at hoget
        exact absurd hoget (by decide)
      have h1 : parenOpen ≤ parenClose := hle
      have h2 : 1 ≤ parenClose - parenOpen := by omega
      have hargs : parseArguments
          (List.take (parenClose - parenOpen - 1) (List.drop (parenOpen + 1) field.name)) =
          .ok [] :=
        parseArguments_no_colon _
          (fun hm => h (List.mem_of_mem_drop (List.mem_of_mem_take hm)))
      simp only [extractArguments, ho, hc, sizeSub_ok _ _ h1, sizeSub_ok _ _ h2,
        substr_ok _ (parenOpen + 1) _ holt, substr_ok _ 0 parenOpen (Nat.zero_le _), hargs, bind,
        Except.bind, pure, Except.pure]
      exact ⟨_, rfl, rfl, rfl, rfl⟩

/-- The shape of `parseSingleField`, with what is known of the field before
the sub-selection: no alias, no argument, no subfield. -/
theorem parseSingleFieldWith_shape_plain (t : Str) :
    (∀ pf, parseSingleFieldWith pf t = .ok blankField) ∨
    ∃ field afterColon, field.alias_ = [] ∧ field.arguments = [] ∧ field.subFields = [] ∧
      afterColon.length ≤ t.length ∧
      ∀ pf, parseSingleFieldWith pf t = extractSubFields pf field afterColon := by
  by_cases hret : ((trimmed t).isEmpty || trimmed t == ['{', '}']) = true
  · left
    intro pf
    simp only [parseSingleFieldWith, trim_eq, bind, Except.bind, pure, Except.pure, hret,
      if_true]
    rfl
  · right
    obtain ⟨b, a, hsplit, hlen⟩ := splitAtColon_ok (trimmed t)
    have hb : ':' ∉ trimmed b :=
      fun hm => splitAtColon_no_colon _ _ _ hsplit (mem_of_mem_trimmed _ _ hm)
    have hf1 := aliasAndName_no_colon blankField (trimmed b) hb
    obtain ⟨f2, hf2, ha2, hg2, hs2⟩ :=
      extractArguments_no_colon { blankField with name := trimmed b } hb rfl
    refine ⟨f2, trimmed a, ha2, hg2, hs2, ?_, ?_⟩
    · exact le_trans (trimmed_length_le a) (le_trans hlen (trimmed_length_le t))
    · intro pf
      unfold blankField at hf1 hf2
      simp only [parseSingleFieldWith, trim_eq, bind, Except.bind, pure, Except.pure, hret,
        hsplit, hf1, hf2]
      rfl

theorem parseSingleFieldWith_every (p : GraphQLField → Bool)
    (hp : ∀ f : GraphQLField, f.name ≠ [] → f.alias_ = [] → f.arguments = [] → p f = true)
    (pf : Str → Except String (List GraphQLField))
    (hpf : ∀ u r, pf u = .ok r → everyFieldOf p r = true) (t : Str) (f : GraphQLField)
    (h : parseSingleFieldWith pf t = .ok f) (hn : f.name ≠ []) :
    everyField p f = true := by
  rcases parseSingleFieldWith_shape_plain t with hb | ⟨field, ac, ha, hg, hs, _, hshape⟩
  · rw [hb pf] at h
    cases h
    exact absurd rfl hn
  · rw [hshape pf, extractSubFields_eq] at h
    cases hsub : subFieldsText ac with
    | none =>
      simp only [hsub] at h
      cases h
      rw [everyField_eq, hs, everyFieldOf_nil, hp f hn ha hg]
      rfl
    | some sub =>
      simp only [hsub] at h
      cases hr : pf sub with
      | error e => simp [hr] at h
      | ok subs =>
        simp only [hr, Except.ok.injEq] at h
        subst h
        rw [everyField_eq, hp _ hn ha hg]
        simpa using hpf sub subs hr

theorem addField_every (p : GraphQLField → Bool) (psf : Str → Except String GraphQLField)
    (hpsf : ∀ t f, psf t = .ok f → f.name ≠ [] → everyField p f = true) (cur : Str)
    (fields r : List GraphQLField) (hfields : everyFieldOf p fields = true)
    (h : addField psf cur fields = .ok r) : everyFieldOf p r = true := by
  unfold addField at h
  simp only [trim_eq, bind, Except.bind, pure, Except.pure] at h
  split at h
  · cases hf : psf cur with
    | error e => simp [hf] at h
    | ok f =>
      simp only [hf] at h
      split at h
      · rename_i hne
        simp only [Except.ok.injEq] at h
        subst h
        rw [everyFieldOf_append, hfields, everyFieldOf_cons, everyFieldOf_nil,
          hpsf cur f hf (by
            intro he
            rw [he] at hne
            simp at hne)]
        rfl
      · simp only [Except.ok.injEq] at h
        subst h
        exact hfields
  · simp only [Except.ok.injEq] at h
    subst h
    exact hfields

theorem parseFieldsLoop_every (p : GraphQLField → Bool)
    (psf : Str → Except String GraphQLField)
    (hpsf : ∀ t f, psf t = .ok f → f.name ≠ [] → everyField p f = true) (chars : Str)
    (depth : Int) (cur : Str) (fields r : List GraphQLField)
    (hfields : everyFieldOf p fields = true)
    (h : parseFieldsLoop psf chars depth cur fields = .ok r) : everyFieldOf p r = true := by
  induction chars generalizing depth cur fields with
  | nil =>
    unfold parseFieldsLoop at h
    exact addField_every p psf hpsf cur fields r hfields h
  | cons c rest ih =>
    unfold parseFieldsLoop at h
    split at h
    · exact ih _ _ _ hfields h
    · split at h
      · split at h
        · cases ha : addField psf (cur ++ [c]) fields with
          | error e => simp [ha, bind, Except.bind] at h
          | ok fs =>
            simp only [ha, bind, Except.bind] at h
            exact ih _ _ _ (addField_every p psf hpsf _ fields fs hfields ha) h
        · exact ih _ _ _ hfields h
      · split at h
        · cases ha : addField psf cur fields with
          | error e => simp [ha, bind, Except.bind] at h
          | ok fs =>
            simp only [ha, bind, Except.bind] at h
            exact ih _ _ _ (addField_every p psf hpsf _ fields fs hfields ha) h
        · exact ih _ _ _ hfields h

theorem parseFieldsFuel_every (p : GraphQLField → Bool)
    (hp : ∀ f : GraphQLField, f.name ≠ [] → f.alias_ = [] → f.arguments = [] → p f = true)
    (fuel : Nat) (s : Str) (r : List GraphQLField)
    (h : parseFieldsFuel fuel s = .ok r) : everyFieldOf p r = true := by
  induction fuel generalizing s r with
  | zero => simp [parseFieldsFuel] at h
  | succ n ih =>
    unfold parseFieldsFuel at h
    refine parseFieldsLoop_every p _ ?_ s 0 [] [] r (everyFieldOf_nil p) h
    intro t f hf hn
    exact parseSingleFieldWith_every p hp _ (fun u r hr => ih u r hr) t f hf hn

/-- The fields of the operation `parseQuery` returns are none, or the value
of `parseFields` on some text. -/
theorem parseQuery_fields (q : Str) :
    ∃ operation, parseQuery q = .ok operation ∧
      (operation.fields = [] ∨ ∃ text, parseFields text = .ok operation.fields) := by
  by_cases hq : '{' ∈ q
  · have hmem : '{' ∈ trimmed q := mem_trimmed_of_mem q '{' hq (by decide)
    obtain ⟨braceOpen, hb⟩ := strFind_isSome_of_mem _ _ hmem
    obtain ⟨_, hblt, _⟩ := strFind_bounds _ _ _ _ hb
    obtain ⟨start, e, hs, hse, heb, hty⟩ := parseOperationType_eq _ _ hb
    obtain ⟨name, hname⟩ := parseOperationName_ok (trimmed q) braceOpen start e (by omega)
    obtain ⟨text, htext⟩ := selectionText_ok (trimmed q) braceOpen hblt
    obtain ⟨fields, hfields⟩ := parseFields_ok text
    refine ⟨{ type := classifyKind (kindToken (trimmed q)), name := name, fields := fields,
              variables_ := [] }, ?_, Or.inr ⟨text, hfields⟩⟩
    unfold parseQuery
    simp only [trim_eq, bind, Except.bind, pure, Except.pure, hb, hs, hty, hname, htext,
      hfields]
  · exact ⟨_, parseQuery_of_no_brace q hq, Or.inl rfl⟩

/-- Every field of the tree `parseQuery` returns, at every depth, has a name
that is not empty, no alias and no argument: so it satisfies every property
that all such fields have. -/
theorem parseQuery_every (p : GraphQLField → Bool)
    (hp : ∀ f : GraphQLField, f.name ≠ [] → f.alias_ = [] → f.arguments = [] → p f = true)
    (q : Str) :
    ∃ operation, parseQuery q = .ok operation ∧ everyFieldOf p operation.fields = true := by
  obtain ⟨operation, hop, hf⟩ := parseQuery_fields q
  refine ⟨operation, hop, ?_⟩
  rcases hf with h | ⟨text, h⟩
  · rw [h]
    exact everyFieldOf_nil p
  · exact parseFieldsFuel_every p hp _ text _ h

end Tree

/-! ## Texts whose braces do not balance -/

section OpenBrace

theorem bracesBalanced_of_no_brace (s : Str) (d : Nat) (h : ∀ c ∈ s, c ≠ '{' ∧ c ≠ '}') :
    bracesBalanced s d = (d == 0) := by
  induction s with
  | nil => rfl
  | cons c cs ih =>
    obtain ⟨h1, h2⟩ := h c (List.mem_cons_self c cs)
    have e1 : (c == '{') = false := by simpa using h1
    have e2 : (c == '}') = false := by simpa using h2
    simp only [bracesBalanced, e1, e2, Bool.false_eq_true, if_false]
    exact ih (fun x hx => h x (List.mem_cons_of_mem c hx))

/-- With room for one activation or more, `parseFields` of a simple name
after a blank is the one field of that name. -/
theorem parseFieldsFuel_open (m : Nat) (n : Str) (hn : isSimpleName n = true) :
    parseFieldsFuel (m + 1) (' ' :: n) = .ok [simpleField n] := by
  obtain ⟨hne, hall⟩ := isSimpleName_facts n hn
  unfold parseFieldsFuel
  have hscan := parseFieldsLoop_scan
    (parseSingleFieldWith (parseFieldsFuel m)) (' ' :: n) [] 0 [] []
    (by
      intro c hc
      rcases List.mem_cons.1 hc with h | h
      · subst h
        decide
      · exact ⟨(hall c h).2.1, (hall c h).2.2.1, (hall c h).2.2.2.1⟩)
  simp only [List.append_nil, List.nil_append] at hscan
  rw [hscan, parseFieldsLoop]
  have ht : trimmed (' ' :: n) = n := by
    have := trimmed_pad [' '] n [] (by simp [isWs, whitespace]) (by simp)
      (fun c hc => (hall c hc).1)
    simpa using this
  rw [addField_simple _ _ n [] ht hn]
  rfl

/-- The text `{ n`, an open brace that is never closed before a simple name,
hands ` n` to `parseFields`. -/
theorem parseQueryUsing_open_brace (pf : Str → Except String (List GraphQLField)) (n : Str)
    (hn : isSimpleName n = true) :
    parseQueryUsing pf ('{' :: ' ' :: n) =
      (pf (' ' :: n)).map (fun fields =>
        { type := "query".toList, name := [], fields := fields, variables_ := [] }) := by
  obtain ⟨hne, hall⟩ := isSimpleName_facts n hn
  have hlast : n.dropLast ++ [n.getLast hne] = n := List.dropLast_append_getLast hne
  have htrim : trimmed ('{' :: ' ' :: n) = '{' :: ' ' :: n := by
    have := trimmed_pad_ends [] [] ('{' :: ' ' :: n.dropLast) '{' (n.getLast hne) (' ' :: n)
      (by simp) (by simp) (by simp [hlast]) (by decide)
      (hall _ (List.getLast_mem hne)).1
    simpa using this
  have hparen : strFind ('{' :: ' ' :: n) '(' = none := by
    apply strFind_none_of_not_mem
    intro h
    simp only [List.mem_cons] at h
    rcases h with h | h | h
    · exact absurd h (by decide)
    · exact absurd h (by decide)
    · exact (hall _ h).2.2.2.2.2.1 rfl
  have hbrace : strFind ('{' :: ' ' :: n) '{' = some 0 := by
    simp [strFind, firstIdx]
  have hstart : findFirstNotOf ('{' :: ' ' :: n) whitespace = some 0 :=
    firstIdx_cons_true _ _ _ (by decide)
  have htype : parseOperationType ('{' :: ' ' :: n) (some 0) =
      .ok ("query".toList, some 0) := by
    have he : findFirstOf ('{' :: ' ' :: n) ['(', '{', ' ', '\t', '\n', '\r'] 0 = some 0 := by
      simp [findFirstOf, firstIdx]
    simp only [parseOperationType, he, bind, Except.bind, sizeSub_ok 0 0 (Nat.le_refl 0),
      substr_ok _ 0 0 (Nat.zero_le _), List.take_zero]
    rfl
  have hname : parseOperationName ('{' :: ' ' :: n) 0 (some 0) (some 0) = .ok [] := by
    simp only [parseOperationName, hparen, bind, Except.bind, pure, Except.pure,
      Nat.lt_irrefl, gt_iff_lt, if_false]
  have htext : selectionText ('{' :: ' ' :: n) 0 = .ok (' ' :: n) := by
    have hr : strRfind (' ' :: n) '}' = none := by
      unfold strRfind
      rw [lastIdx_none_iff]
      intro c hc
      rcases List.mem_cons.1 hc with h | h
      · subst h
        decide
      · simpa using (hall c h).2.2.1
    have hsub : substrFrom ('{' :: ' ' :: n) (0 + 1) = .ok (' ' :: n) := by
      rw [substrFrom_ok _ _ (by simp)]
      rfl
    simp only [selectionText, hsub, hr, bind, Except.bind, pure, Except.pure]
  unfold parseQueryUsing
  simp only [trim_eq, htrim, bind, Except.bind, pure, Except.pure, hbrace, hstart, htype,
    hname, htext]
  cases pf (' ' :: n) <;> rfl

/-- The text `{ n` parses to the one field `n`. -/
theorem parseQuery_open_brace (n : Str) (hn : isSimpleName n = true) :
    parseQuery ('{' :: ' ' :: n) =
      .ok { type := "query".toList, name := [], fields := [simpleField n],
            variables_ := [] } := by
  show parseQueryUsing parseFields _ = _
  rw [parseQueryUsing_open_brace parseFields n hn]
  unfold parseFields
  rw [parseFieldsFuel_open _ n hn]
  rfl

end OpenBrace

/-- C21 refuted at `{ a` and at `{ a: { b }`: both texts contain `{`, their
braces do not balance, and `parseQuery` returns for each of them an operation
with the one field `a`, which `validateQuery` accepts. -/
theorem C21_counterexample :
    ('{' ∈ "\x7b a".toList ∧ bracesBalanced "\x7b a".toList 0 = false ∧
      parseQuery "\x7b a".toList =
        .ok { type := "query".toList, name := [], fields := [simpleField "a".toList],
              variables_ := [] } ∧
      (parseQuery "\x7b a".toList).map validateQuery = .ok true) ∧
    ('{' ∈ "\x7b a: \x7b b \x7d".toList ∧ bracesBalanced "\x7b a: \x7b b \x7d".toList 0 = false ∧
      parseQuery "\x7b a: \x7b b \x7d".toList =
        .ok { type := "query".toList, name := [], fields := [simpleField "a".toList],
              variables_ := [] } ∧
      (parseQuery "\x7b a: \x7b b \x7d".toList).map validateQuery = .ok true) :=
  ⟨⟨by decide, by decide, rfl, by decide⟩, ⟨by decide, by decide, rfl, by decide⟩⟩

/-- C21 (amended): `parseQuery` does not look at the balance of the braces.
For every simple name `n` the text `{ n`, whose brace is never closed, yields
exactly the one field `n`, so that `validateQuery` accepts it; one activation
of `parseFields` on the call stack is enough for that. -/
theorem C21_unbalanced_not_detected (n : Str) (hn : isSimpleName n = true) :
    '{' ∈ '{' :: ' ' :: n ∧
    bracesBalanced ('{' :: ' ' :: n) 0 = false ∧
    parseQuery ('{' :: ' ' :: n) =
      .ok { type := "query".toList, name := [], fields := [simpleField n],
            variables_ := [] } ∧
    (parseQuery ('{' :: ' ' :: n)).map validateQuery = .ok true ∧
    (∀ stack : Nat, parseQueryWithin (stack + 1) ('{' :: ' ' :: n) =
      .ok { type := "query".toList, name := [], fields := [simpleField n],
            variables_ := [] }) := by
  obtain ⟨hne, hall⟩ := isSimpleName_facts n hn
  refine ⟨List.mem_cons_self _ _, ?_, parseQuery_open_brace n hn, ?_, ?_⟩
  · have h := bracesBalanced_of_no_brace (' ' :: n) 1 (by
      intro c hc
      rcases List.mem_cons.1 hc with h | h
      · subst h
        decide
      · exact ⟨(hall c h).2.1, (hall c h).2.2.1⟩)
    simp only [bracesBalanced]
    simpa using h
  · rw [parseQuery_open_brace n hn]
    rfl
  · intro stack
    unfold parseQueryWithin
    rw [parseQueryUsing_open_brace _ n hn, parseFieldsFuel_open stack n hn]
    rfl

/-- C21 (amended) at the name `books`: the text `{ books` has an open brace
and parses to the one field `books`. -/
theorem C21_unbalanced_not_detected_witness :
    isSimpleName "books".toList = true ∧
    bracesBalanced "\x7b books".toList 0 = false ∧
    parseQuery "\x7b books".toList =
      .ok { type := "query".toList, name := [], fields := [simpleField "books".toList],
            variables_ := [] } :=
  ⟨by decide, (C21_unbalanced_not_detected "books".toList (by decide)).2.1,
    (C21_unbalanced_not_detected "books".toList (by decide)).2.2.1⟩

/-! ## Names, aliases and arguments of the parsed fields -/

/-- C22: for every text `parseQuery` returns an operation in which every
field, at the top and at every depth of `subFields`, has a name that is not
empty.  A field definition whose parsed name is empty is dropped by
`parseFields`: the definitions `{}`, `(x)` and `: c` have an empty name and
leave no field in the list. -/
theorem C22_names_not_empty (q : Str) :
    (∃ operation, parseQuery q = .ok operation ∧
      everyFieldOf hasName operation.fields = true ∧
      ∀ f ∈ operation.fields, f.name ≠ [] ∧ ∀ g ∈ f.subFields, g.name ≠ []) ∧
    (∀ (psf : Str → Except String GraphQLField) (cur : Str) (fields : List GraphQLField)
      (field : GraphQLField), psf cur = .ok field → field.name = [] →
      addField psf cur fields = .ok fields) ∧
    (parseSingleField "\x7b\x7d".toList).map (fun f => f.name) = .ok [] ∧
    (parseSingleField "(x)".toList).map (fun f => f.name) = .ok [] ∧
    (parseSingleField ": c".toList).map (fun f => f.name) = .ok [] ∧
    parseFields "a, \x7b\x7d, b".toList = .ok [simpleField "a".toList, simpleField "b".toList] ∧
    parseFields "a, (x), b".toList = .ok [simpleField "a".toList, simpleField "b".toList] ∧
    parseFields "a, : c, b".toList = .ok [simpleField "a".toList, simpleField "b".toList] := by
  have hp : ∀ f : GraphQLField, f.name ≠ [] → f.alias_ = [] → f.arguments = [] →
      hasName f = true := by
    intro f hn _ _
    cases hf : f.name with
    | nil => exact absurd hf hn
    | cons c cs => simp [hasName, hf]
  have hname : ∀ f : GraphQLField, hasName f = true → f.name ≠ [] := by
    intro f hf he
    simp [hasName, he] at hf
  refine ⟨?_, ?_, by decide, by decide, by decide, rfl, rfl, rfl⟩
  · obtain ⟨operation, hop, hall⟩ := parseQuery_every hasName hp q
    refine ⟨operation, hop, hall, ?_⟩
    intro f hf
    obtain ⟨h1, h2⟩ := everyFieldOf_mem hasName _ hall f hf
    exact ⟨hname f h1, fun g hg => hname g (everyFieldOf_mem hasName _ h2 g hg).1⟩
  · intro psf cur fields field hpsf hn
    unfold addField
    simp only [trim_eq, bind, Except.bind, pure, Except.pure, hpsf, hn]
    split <;> rfl

/-- C22 at the text `{ a, (x), : c, b: { {}, d } }`: the fields are
`a` and `b`, the subfield of `b` is `d`, and the definition `(x)`, whose name
is empty, is not added to a list. -/
theorem C22_names_not_empty_witness :
    (∃ operation, parseQuery "\x7b a, (x), : c, b: \x7b \x7b\x7d, d \x7d \x7d".toList = .ok operation ∧
      everyFieldOf hasName operation.fields = true ∧
      operation.fields.map (fun f => (f.name, f.subFields.map (fun g => g.name))) =
        [("a".toList, []), ("b".toList, ["d".toList])]) ∧
    addField parseSingleField "(x)".toList [simpleField "a".toList] =
      .ok [simpleField "a".toList] := by
  refine ⟨?_, (C22_names_not_empty []).2.1 parseSingleField "(x)".toList
    [simpleField "a".toList] { name := [], alias_ := [], arguments := [], subFields := [] }
    rfl rfl⟩
  obtain ⟨operation, hop, hall, _⟩ :=
    (C22_names_not_empty "\x7b a, (x), : c, b: \x7b \x7b\x7d, d \x7d \x7d".toList).1
  refine ⟨operation, hop, hall, ?_⟩
  have hval : parseQuery "\x7b a, (x), : c, b: \x7b \x7b\x7d, d \x7d \x7d".toList =
      .ok { type := "query".toList, name := [],
            fields := [simpleField "a".toList,
              { name := "b".toList, alias_ := [], arguments := [],
                subFields := [simpleField "d".toList] }],
            variables_ := [] } := rfl
  rw [hval] at hop
  cases hop
  rfl

/-- C28: for every text `parseQuery` returns an operation in which every
field, at every depth, has an empty alias and an empty argument map.  The
text before the first `:` of a field definition holds no `:`; on such a text
the alias branch is not taken and the name is the whole text; and
`parseArguments` of a text without `:` is the empty map. -/
theorem C28_no_alias_no_arguments (q : Str) :
    (∃ operation, parseQuery q = .ok operation ∧
      everyFieldOf isBare operation.fields = true ∧
      ∀ f ∈ operation.fields, (f.alias_ = [] ∧ f.arguments = []) ∧
        ∀ g ∈ f.subFields, g.alias_ = [] ∧ g.arguments = []) ∧
    (∀ t beforeColon afterColon : Str, splitAtColon t = .ok (beforeColon, afterColon) →
      ':' ∉ beforeColon ∧ ':' ∉ trimmed beforeColon) ∧
    (∀ (field : GraphQLField) (beforeColon : Str), ':' ∉ beforeColon →
      aliasAndName field beforeColon = .ok { field with name := beforeColon }) ∧
    (∀ argsStr : Str, ':' ∉ argsStr → parseArguments argsStr = .ok []) := by
  have hp : ∀ f : GraphQLField, f.name ≠ [] → f.alias_ = [] → f.arguments = [] →
      isBare f = true := by
    intro f _ ha hg
    simp [isBare, ha, hg]
  have hbare : ∀ f : GraphQLField, isBare f = true → f.alias_ = [] ∧ f.arguments = [] := by
    intro f hf
    simpa [isBare] using hf
  refine ⟨?_, ?_, aliasAndName_no_colon, parseArguments_no_colon⟩
  · obtain ⟨operation, hop, hall⟩ := parseQuery_every isBare hp q
    refine ⟨operation, hop, hall, ?_⟩
    intro f hf
    obtain ⟨h1, h2⟩ := everyFieldOf_mem isBare _ hall f hf
    exact ⟨hbare f h1, fun g hg => hbare g (everyFieldOf_mem isBare _ h2 g hg).1⟩
  · intro t b a h
    have hb := splitAtColon_no_colon t b a h
    exact ⟨hb, fun hm => hb (mem_of_mem_trimmed _ _ hm)⟩

/-- C28 at the text `{ u: user(id: 1) { name } }`: the one field has the
name `u`, no alias and no argument; the text before the first `:` of
`u: user(id: 1)` is `u`; and `parseArguments` of `id` is the empty map. -/
theorem C28_no_alias_no_arguments_witness :
    (∃ operation, parseQuery "\x7b u: user(id: 1) \x7b name \x7d \x7d".toList = .ok operation ∧
      everyFieldOf isBare operation.fields = true ∧
      operation.fields.map (fun f => (f.name, f.alias_, f.arguments)) =
        [("u".toList, [], [])]) ∧
    ':' ∉ "u".toList ∧
    aliasAndName blankField "user(id)".toList =
      .ok { blankField with name := "user(id)".toList } ∧
    parseArguments "id".toList = .ok [] := by
  refine ⟨?_,
    ((C28_no_alias_no_arguments []).2.1 "u: user(id: 1)".toList "u".toList
      " user(id: 1)".toList rfl).1,
    (C28_no_alias_no_arguments []).2.2.1 blankField "user(id)".toList (by decide),
    (C28_no_alias_no_arguments []).2.2.2 "id".toList (by decide)⟩
  obtain ⟨operation, hop, hall, _⟩ :=
    (C28_no_alias_no_arguments "\x7b u: user(id: 1) \x7b name \x7d \x7d".toList).1
  refine ⟨operation, hop, hall, ?_⟩
  have hval : parseQuery "\x7b u: user(id: 1) \x7b name \x7d \x7d".toList =
      .ok { type := "query".toList, name := [], fields := [simpleField "u".toList],
            variables_ := [] } := rfl
  rw [hval] at hop
  cases hop
  rfl

/-! ## Argument values and argument lists -/

/-- C26: a fragment with a `:` and a key that is not empty stores, under the
trimmed text before the first `:`, the trimmed text after it, from which the
first and the last character are removed exactly when it has at least two
characters and begins and ends with the same quote character (the double
quote twice or the apostrophe twice); what lies between the two quotes is kept
as it is.  A
value shorter than two characters, a value that does not begin with a quote
and a value whose first and last characters differ are stored verbatim, and
so are `42`, `true` and `null`. -/
theorem C26_quote_handling (argStr : Str) (args : StrMap) (colonPos : Nat)
    (hc : strFind (trimmed argStr) ':' = some colonPos)
    (hkey : trimmed ((trimmed argStr).take colonPos) ≠ []) :
    processArgument argStr args =
      .ok (args.assign (trimmed ((trimmed argStr).take colonPos))
        (stripQuotes (trimmed ((trimmed argStr).drop (colonPos + 1))))) ∧
    (∀ (c : Char) (body : Str), c = Char.ofNat 34 ∨ c = Char.ofNat 39 →
      stripQuotes (c :: (body ++ [c])) = body) ∧
    (∀ value : Str, value.length < 2 → stripQuotes value = value) ∧
    (∀ value : Str, value.head? ≠ some (Char.ofNat 34) →
      value.head? ≠ some (Char.ofNat 39) → stripQuotes value = value) ∧
    (∀ value : Str, value.head? ≠ value.getLast? → stripQuotes value = value) ∧
    processArgument "n: 42".toList [] = .ok [("n".toList, "42".toList)] ∧
    processArgument "b: true".toList [] = .ok [("b".toList, "true".toList)] ∧
    processArgument "x: null".toList [] = .ok [("x".toList, "null".toList)] ∧
    processArgument "name: \"a\\\"b\"".toList [] = .ok [("name".toList, "a\\\"b".toList)] ∧
    processArgument "q: \"".toList [] = .ok [("q".toList, "\"".toList)] ∧
    processArgument "m: \"ab".toList [] = .ok [("m".toList, "\"ab".toList)] := by
  refine ⟨?_, ?_, ?_, ?_, ?_, by decide, by decide, by decide, by decide, by decide,
    by decide⟩
  · rw [processArgument_eq argStr args colonPos hc]
    cases hk : trimmed ((trimmed argStr).take colonPos) with
    | nil => exact absurd hk hkey
    | cons c cs => rfl
  · intro c body hcq
    have hlen : (c :: (body ++ [c])).length ≥ 2 := by simp
    have hlast : (c :: (body ++ [c])).getLast? = some c := by
      rw [← List.cons_append, List.getLast?_append]
      simp
    unfold stripQuotes
    rw [if_pos]
    · simp
    · refine ⟨hlen, ?_⟩
      rw [hlast]
      rcases hcq with h | h
      · exact Or.inl ⟨by simp [h], by simp [h]⟩
      · exact Or.inr ⟨by simp [h], by simp [h]⟩
  · intro value hlen
    unfold stripQuotes
    rw [if_neg]
    intro h
    omega
  · intro value h1 h2
    unfold stripQuotes
    rw [if_neg]
    rintro ⟨_, h | h⟩
    · exact h1 h.1
    · exact h2 h.1
  · intro value hne
    unfold stripQuotes
    rw [if_neg]
    rintro ⟨_, h | h⟩
    · exact hne (h.1.trans h.2.symm)
    · exact hne (h.1.trans h.2.symm)

/-- C26 at a fragment with the key `title` and a double-quoted value that
holds a backslash and a quote: the stored value is the text between the outer
quotes, with its backslash and its inner quote. -/
theorem C26_quote_handling_witness :
    strFind (trimmed " title : \"a\\\"b\" ".toList) ':' = some 6 ∧
    processArgument " title : \"a\\\"b\" ".toList [("k".toList, "v".toList)] =
      .ok [("k".toList, "v".toList), ("title".toList, "a\\\"b".toList)] :=
  ⟨by decide,
    (C26_quote_handling " title : \"a\\\"b\" ".toList [("k".toList, "v".toList)] 6
      (by decide) (by decide)).1.trans (by decide)⟩

/-- C27 refuted at `a: [1] x, b: 2` and at `a: "[1]", b: 2`: the brackets of
both texts balance; cut only at the commas of depth zero the texts give
`a ↦ [1] x` and `a ↦ [1]`; `parseArguments` gives `a ↦ [1]` for the first and,
for the second, the value `[1]` with the opening quote still before it,
because it also ends a fragment right after the `]` that brings the depth back
to zero. -/
theorem C27_counterexample :
    (bracketsBalanced "a: [1] x, b: 2".toList 0 = true ∧
      processFragments (splitAtTopCommas (trimmed "a: [1] x, b: 2".toList) 0 []) [] =
        .ok [("a".toList, "[1] x".toList), ("b".toList, "2".toList)] ∧
      parseArguments "a: [1] x, b: 2".toList =
        .ok [("a".toList, "[1]".toList), ("b".toList, "2".toList)]) ∧
    (bracketsBalanced "a: \"[1]\", b: 2".toList 0 = true ∧
      processFragments (splitAtTopCommas (trimmed "a: \"[1]\", b: 2".toList) 0 []) [] =
        .ok [("a".toList, "[1]".toList), ("b".toList, "2".toList)] ∧
      parseArguments "a: \"[1]\", b: 2".toList =
        .ok [("a".toList, "\"[1]".toList), ("b".toList, "2".toList)]) :=
  ⟨⟨by decide, by decide, by decide⟩, ⟨by decide, by decide, by decide⟩⟩

/-- C27 (amended): `parseArguments` hands to `processArgument`, in order, the
fragments of the trimmed text that end at a comma of bracket depth zero, right
after a closing bracket that brings the depth back to zero, or at the end of
the text.  A comma at another depth is kept in the fragment, and a fragment
without `:` adds no entry.  So `input: {a: 1, b: 2}, ids: [1, 2], x: 3` gives
the three entries `input`, `ids` and `x`, and `a, b: 1` gives the entry `b`. -/
theorem C27_argument_fragments (argsStr : Str) :
    parseArguments argsStr = processFragments (splitFragments (trimmed argsStr) 0 []) [] ∧
    (∀ (rest : Str) (depth : Int) (current : Str), depth ≠ 0 →
      splitFragments (',' :: rest) depth current =
        splitFragments rest depth (current ++ [','])) ∧
    (∀ rest current : Str,
      splitFragments (',' :: rest) 0 current = current :: splitFragments rest 0 []) ∧
    (∀ (c : Char) (rest current : Str), c = '}' ∨ c = ']' →
      splitFragments (c :: rest) 1 current = (current ++ [c]) :: splitFragments rest 0 []) ∧
    (∀ (fragment : Str) (args : StrMap), ':' ∉ fragment →
      processArgument fragment args = .ok args) ∧
    parseArguments "input: \x7ba: 1, b: 2\x7d, ids: [1, 2], x: 3".toList =
      .ok [("input".toList, "\x7ba: 1, b: 2\x7d".toList), ("ids".toList, "[1, 2]".toList),
        ("x".toList, "3".toList)] ∧
    parseArguments "a, b: 1".toList = .ok [("b".toList, "1".toList)] := by
  refine ⟨parseArguments_eq_fragments argsStr, ?_, ?_, ?_, processArgument_no_colon,
    by decide, by decide⟩
  · intro rest depth current hd
    have e3 : (depth == 0) = false := by simpa using hd
    simp [splitFragments, e3]
  · intro rest current
    simp [splitFragments]
  · intro c rest current hcc
    rcases hcc with h | h <;> subst h <;> simp [splitFragments]

/-- C27 (amended) at the state of depth 1 after `ids: [1`: the comma is kept
in the fragment; and the fragment `a`, which has no `:`, adds no entry. -/
theorem C27_argument_fragments_witness :
    splitFragments ", 2]".toList 1 "ids: [1".toList = ["ids: [1, 2]".toList, []] ∧
    processArgument "a".toList [("b".toList, "1".toList)] = .ok [("b".toList, "1".toList)] :=
  ⟨((C27_argument_fragments []).2.1 " 2]".toList 1 "ids: [1".toList (by decide)).trans
      (by decide),
    (C27_argument_fragments []).2.2.2.2.1 "a".toList [("b".toList, "1".toList)]
      (by decide)⟩


/-! ## The call stack of the parser -/

section Stack

end Stack

/-! ## Blocks inside one another -/

section Nested

end Nested

/-! ## Faults of the parser -/

end Bookstore
